import Mathlib

/-!
Verification of the `terraform-provider-corax` repository against its
natural-language specification.

The development shallowly embeds the Go source:

* `internal/coraxclient` (HTTP client): `newClient`, `doRequest`, the
  `APIError` / `ErrNotFound` mapping;
* `internal/provider` resource handlers for `corax_model_provider`,
  `corax_embeddings_model` and `corax_completion_capability`: the
  Create/Read/Update/Delete flows, modelled as pure functions from the
  prior state / plan and the (oracle-supplied) API response to the new
  state, the emitted diagnostics and the list of HTTP calls issued;
* the reusable capability-config mapping functions
  (`capabilityConfigModelToAPI` / `capabilityConfigAPItoModel`), the
  `dataRetentionValidator`, the `variables` mapping of
  `mapAPICompletionCapabilityToModel`, and the `schema_def`
  plan modifier together with a model of Go `encoding/json`
  marshalling/unmarshalling into `map[string]interface{}`.

Terraform attribute values (`types.String`, `types.Int64`, ...) are
embedded as `TFVal α` (null / unknown / value).  Go pointers are `Option`.
Go `float64` values are only ever moved by this code base, never computed
with, so they are embedded as an opaque bit-pattern wrapper `GoFloat`.
Go `int`/`int64` become `Int` (no arithmetic overflows the code relies on).
-/

/-- Terraform plugin-framework attribute value: null, unknown, or a known
value.  Mirrors the three-state semantics of `types.String`,
`types.Int64`, `types.Bool`, `types.Float64`, `types.List`,
`types.Object` used throughout the provider. -/
inductive TFVal (α : Type) where
  | null
  | unknown
  | value (a : α)
deriving DecidableEq, Repr

namespace TFVal

/-- Mirrors `IsNull() || IsUnknown()`: the value is not a known value. -/
def isNullOrUnknown : TFVal α → Bool
  | .null => true
  | .unknown => true
  | .value _ => false

/-- Mirrors `!v.IsNull() && !v.IsUnknown()`: the value is known. -/
def isKnown : TFVal α → Bool
  | .value _ => true
  | _ => false

/-- Mirrors Go `types.String.ValueString()` (and the other `Value*`
accessors): the known value, or the zero value when null or unknown. -/
def getD (v : TFVal α) (dflt : α) : α :=
  match v with
  | .value a => a
  | _ => dflt

end TFVal

/-- Go `float64` as carried by this provider: the code only moves such
values between structures (no arithmetic), so the embedding keeps them as
an opaque 64-bit pattern. -/
structure GoFloat where
  bits : Nat
deriving DecidableEq, Repr

/-- A decoded Go `interface{}` holding a JSON value, as produced by
`encoding/json.Unmarshal`: `nil`, `bool`, number, `string`,
`[]interface{}`, or `map[string]interface{}` (modelled as an association
list).  Numbers are modelled in the integer fragment: Go decodes JSON
numbers into `float64`, whose formatting distinctions (fractions,
exponents, negative zero, magnitudes at or above 2^53) are outside this
embedding. -/
inductive GoVal where
  | nullv
  | boolv (b : Bool)
  | numv (n : Int)
  | strv (s : String)
  | listv (l : List GoVal)
  | mapv (m : List (String × GoVal))

mutual

/-- Decidable equality on `GoVal`, written out by hand because the
nested inductive defeats the automatic `DecidableEq` derivation. -/
def GoVal.decEq : (a b : GoVal) → Decidable (a = b)
  | .nullv, .nullv => .isTrue rfl
  | .nullv, .boolv _ | .nullv, .numv _ | .nullv, .strv _
  | .nullv, .listv _ | .nullv, .mapv _
  | .boolv _, .nullv | .boolv _, .numv _ | .boolv _, .strv _
  | .boolv _, .listv _ | .boolv _, .mapv _
  | .numv _, .nullv | .numv _, .boolv _ | .numv _, .strv _
  | .numv _, .listv _ | .numv _, .mapv _
  | .strv _, .nullv | .strv _, .boolv _ | .strv _, .numv _
  | .strv _, .listv _ | .strv _, .mapv _
  | .listv _, .nullv | .listv _, .boolv _ | .listv _, .numv _
  | .listv _, .strv _ | .listv _, .mapv _
  | .mapv _, .nullv | .mapv _, .boolv _ | .mapv _, .numv _
  | .mapv _, .strv _ | .mapv _, .listv _ => .isFalse (fun h => by cases h)
  | .boolv a, .boolv b =>
      match Bool.decEq a b with
      | .isTrue h => .isTrue (by rw [h])
      | .isFalse h => .isFalse (fun he => h (by injection he))
  | .numv a, .numv b =>
      match Int.decEq a b with
      | .isTrue h => .isTrue (by rw [h])
      | .isFalse h => .isFalse (fun he => h (by injection he))
  | .strv a, .strv b =>
      match String.decEq a b with
      | .isTrue h => .isTrue (by rw [h])
      | .isFalse h => .isFalse (fun he => h (by injection he))
  | .listv a, .listv b =>
      match GoVal.decEqList a b with
      | .isTrue h => .isTrue (by rw [h])
      | .isFalse h => .isFalse (fun he => h (by injection he))
  | .mapv a, .mapv b =>
      match GoVal.decEqMap a b with
      | .isTrue h => .isTrue (by rw [h])
      | .isFalse h => .isFalse (fun he => h (by injection he))

/-- Decidable equality on lists of `GoVal`. -/
def GoVal.decEqList : (a b : List GoVal) → Decidable (a = b)
  | [], [] => .isTrue rfl
  | [], _ :: _ => .isFalse (fun h => by cases h)
  | _ :: _, [] => .isFalse (fun h => by cases h)
  | a :: as, b :: bs =>
      match GoVal.decEq a b with
      | .isFalse h1 => .isFalse (fun he => h1 (by injection he))
      | .isTrue h1 =>
        match GoVal.decEqList as bs with
        | .isTrue h2 => .isTrue (by rw [h1, h2])
        | .isFalse h2 => .isFalse (fun he => h2 (by injection he))

/-- Decidable equality on association lists of `GoVal`. -/
def GoVal.decEqMap : (a b : List (String × GoVal)) → Decidable (a = b)
  | [], [] => .isTrue rfl
  | [], _ :: _ => .isFalse (fun h => by cases h)
  | _ :: _, [] => .isFalse (fun h => by cases h)
  | (ka, va) :: as, (kb, vb) :: bs =>
      match String.decEq ka kb with
      | .isFalse h0 =>
          .isFalse (fun he => by
            injection he with hh ht
            injection hh with h1 h2
            exact h0 h1)
      | .isTrue h0 =>
        match GoVal.decEq va vb with
        | .isFalse h1 =>
            .isFalse (fun he => by
              injection he with hh ht
              injection hh with hk hv
              exact h1 hv)
        | .isTrue h1 =>
          match GoVal.decEqMap as bs with
          | .isTrue h2 => .isTrue (by rw [h0, h1, h2])
          | .isFalse h2 => .isFalse (fun he => h2 (by injection he))

end

instance : DecidableEq GoVal := GoVal.decEq

/-- Lookup in a Go map modelled as an association list (first binding
wins; a Go map has distinct keys). -/
def goMapLookup (m : List (String × GoVal)) (k : String) : Option GoVal :=
  match m with
  | [] => none
  | (k', v) :: t => if k' = k then some v else goMapLookup t k

/-! ## The HTTP client (`internal/coraxclient/client.go`, src/unnamed/part_005) -/

/-- Go `http.StatusText`: the standard status text for an HTTP status
code, `""` for unknown codes.  Transcribed from `net/http/status.go`. -/
def statusText (code : Nat) : String :=
  match code with
  | 100 => "Continue"
  | 101 => "Switching Protocols"
  | 102 => "Processing"
  | 103 => "Early Hints"
  | 200 => "OK"
  | 201 => "Created"
  | 202 => "Accepted"
  | 203 => "Non-Authoritative Information"
  | 204 => "No Content"
  | 205 => "Reset Content"
  | 206 => "Partial Content"
  | 207 => "Multi-Status"
  | 208 => "Already Reported"
  | 226 => "IM Used"
  | 300 => "Multiple Choices"
  | 301 => "Moved Permanently"
  | 302 => "Found"
  | 303 => "See Other"
  | 304 => "Not Modified"
  | 305 => "Use Proxy"
  | 307 => "Temporary Redirect"
  | 308 => "Permanent Redirect"
  | 400 => "Bad Request"
  | 401 => "Unauthorized"
  | 402 => "Payment Required"
  | 403 => "Forbidden"
  | 404 => "Not Found"
  | 405 => "Method Not Allowed"
  | 406 => "Not Acceptable"
  | 407 => "Proxy Authentication Required"
  | 408 => "Request Timeout"
  | 409 => "Conflict"
  | 410 => "Gone"
  | 411 => "Length Required"
  | 412 => "Precondition Failed"
  | 413 => "Request Entity Too Large"
  | 414 => "Request URI Too Long"
  | 415 => "Unsupported Media Type"
  | 416 => "Requested Range Not Satisfiable"
  | 417 => "Expectation Failed"
  | 418 => "I\x27m a teapot"
  | 421 => "Misdirected Request"
  | 422 => "Unprocessable Entity"
  | 423 => "Locked"
  | 424 => "Failed Dependency"
  | 425 => "Too Early"
  | 426 => "Upgrade Required"
  | 428 => "Precondition Required"
  | 429 => "Too Many Requests"
  | 431 => "Request Header Fields Too Large"
  | 451 => "Unavailable For Legal Reasons"
  | 500 => "Internal Server Error"
  | 501 => "Not Implemented"
  | 502 => "Bad Gateway"
  | 503 => "Service Unavailable"
  | 504 => "Gateway Timeout"
  | 505 => "HTTP Version Not Supported"
  | 506 => "Variant Also Negotiates"
  | 507 => "Insufficient Storage"
  | 508 => "Loop Detected"
  | 510 => "Not Extended"
  | 511 => "Network Authentication Required"
  | _ => ""

/-- Result of `Client.doRequest`.  `errNotFound` is the sentinel
`ErrNotFound` (`&APIError{StatusCode: 404, Message: "resource not
found"}`); `apiError` carries the `APIError` fields; `unmarshalError` is
the wrapped `json.Unmarshal` failure on a 2xx body. -/
inductive DoRequestResult where
  | ok
  | errNotFound
  | apiError (statusCode : Nat) (message : String) (body : String)
  | unmarshalError (body : String)
deriving DecidableEq, Repr

/-- Go `Client.doRequest` (client.go lines 107-144), given the response
status code and body.  Transport failures (`httpClient.Do`,
`io.ReadAll`) are outside the model.  `decodeTarget` models the `v
interface{}` argument: `none` is `v == nil`; `some dec` is a non-nil
target whose `json.Unmarshal` succeeds on exactly the bodies `dec`
accepts.  Body length is in bytes, as Go `len` on `[]byte`. -/
def doRequest (statusCode : Nat) (body : String)
    (decodeTarget : Option (String → Bool)) : DoRequestResult :=
  if statusCode < 200 || 300 ≤ statusCode then
    -- the APIError is built first; for 404 the sentinel is returned instead
    let message :=
      if 0 < body.utf8ByteSize && body.utf8ByteSize < 512 then body
      else statusText statusCode
    if statusCode = 404 then .errNotFound
    else .apiError statusCode message body
  else
    match decodeTarget with
    | none => .ok
    | some dec => if dec body then .ok else .unmarshalError body

/-! ### `NewClient` and `url.ParseRequestURI` (claim C10) -/

/-- Go `unicode.IsSpace`: the Unicode `White_Space` property, written
out from Go's Latin-1 fast path (`\t`-`\x0d`, space, NEL, NBSP) and
the `White_Space` range table (OGHAM SPACE MARK, the EN QUAD .. HAIR
SPACE block, LINE/PARAGRAPH SEPARATOR, NARROW NBSP, MMSP, IDEOGRAPHIC
SPACE). -/
def goIsSpace (c : Char) : Bool :=
  c = ' ' || c = '\t' || c = '\n' || c = '\x0b' || c = '\x0c' || c = '\r'
    || c.toNat = 0x85 || c.toNat = 0xA0
    || c.toNat = 0x1680 || (0x2000 ≤ c.toNat && c.toNat ≤ 0x200A)
    || c.toNat = 0x2028 || c.toNat = 0x2029 || c.toNat = 0x202F
    || c.toNat = 0x205F || c.toNat = 0x3000

/-- Go `strings.TrimSpace`: leading and trailing whitespace removed. -/
def goTrimSpace (s : String) : String :=
  String.mk (((s.toList.dropWhile goIsSpace).reverse.dropWhile goIsSpace).reverse)

/-- Result of `net/url.getScheme`. -/
inductive SchemeRes where
  | err
  | noScheme
  | found (scheme : String) (rest : List Char)
deriving DecidableEq, Repr

/-- Character classes used by `net/url.getScheme`. -/
def isSchemeAlpha (c : Char) : Bool :=
  ('a' ≤ c && c ≤ 'z') || ('A' ≤ c && c ≤ 'Z')

/-- Decimal digit test (byte-wise, as in Go). -/
def isDigitCh (c : Char) : Bool := '0' ≤ c && c ≤ '9'

/-- Go `net/url.getScheme`: scan for `scheme:`; a digit/`+`/`-`/`.` may
not start the scheme; any other character means the URL has no scheme;
a `:` with an empty prefix is the "missing protocol scheme" error. -/
def getSchemeAux (acc : List Char) : List Char → SchemeRes
  | [] => .noScheme
  | c :: t =>
    if isSchemeAlpha c then getSchemeAux (acc ++ [c]) t
    else if isDigitCh c || c = '+' || c = '-' || c = '.' then
      if acc.isEmpty then .noScheme else getSchemeAux (acc ++ [c]) t
    else if c = ':' then
      if acc.isEmpty then .err else .found (String.mk acc) t
    else .noScheme

/-- Parsed URL, with the fields `NewClient` inspects.  `host` includes
any port, as in Go `url.URL.Host`. -/
structure GoURL where
  scheme : String
  opaquePart : String
  host : String
  path : String
  rawQuery : String
deriving DecidableEq, Repr

/-- Go control-character check of `net/url.stringContainsCTLByte`. -/
def isCTL (c : Char) : Bool := c.toNat < 0x20 || c.toNat = 0x7f

/-- Split a character list at the first occurrence of `sep` (the
separator is dropped); `none` when absent.  Models `strings.Cut`. -/
def splitAtChar (sep : Char) : List Char → Option (List Char × List Char)
  | [] => none
  | c :: t =>
    if c = sep then some ([], t)
    else (splitAtChar sep t).map (fun p => (c :: p.1, p.2))

/-- The `net/url` escaping modes `parse` reaches with
`viaRequest = true`: paths, hosts, IPv6 zone identifiers and
userinfo. -/
inductive UrlEncoding where
  | encPath
  | encHost
  | encZone
  | encUserPassword
deriving DecidableEq

/-- Go `net/url.ishex`, over code points: 48-57 are `0`-`9`, 97-102 are
`a`-`f`, 65-70 are `A`-`F`. -/
def ishexCh (c : Char) : Bool :=
  let n := c.toNat
  if (48 ≤ n ∧ n ≤ 57) ∨ (97 ≤ n ∧ n ≤ 102) ∨ (65 ≤ n ∧ n ≤ 70) then true
  else false

/-- Go `net/url.unhex` (callers only apply it to hex digits). -/
def unhexCh (c : Char) : Nat :=
  let n := c.toNat
  if 48 ≤ n ∧ n ≤ 57 then n - 48
  else if 97 ≤ n ∧ n ≤ 102 then n - 87
  else if 65 ≤ n ∧ n ≤ 70 then n - 55
  else 0

/-- Go `net/url.shouldEscape`, restricted to the four modes above:
alphanumerics and `-._~` never escape; hosts and zones additionally
keep the sub-delims plus `:[]<>"`; of the reserved characters a path
keeps all but `?`, userinfo escapes `@/?:`, and hosts/zones escape the
remaining `/?@`. -/
def urlShouldEscape (c : Char) (mode : UrlEncoding) : Bool :=
  if ('a' ≤ c ∧ c ≤ 'z') ∨ ('A' ≤ c ∧ c ≤ 'Z') ∨ ('0' ≤ c ∧ c ≤ '9') then
    false
  else if (mode = .encHost ∨ mode = .encZone) ∧
      (c = '!' ∨ c = '$' ∨ c = '&' ∨ c = '\x27' ∨ c = '(' ∨ c = ')' ∨
       c = '*' ∨ c = '+' ∨ c = ',' ∨ c = ';' ∨ c = '=' ∨ c = ':' ∨
       c = '[' ∨ c = ']' ∨ c = '<' ∨ c = '>' ∨ c = '"') then
    false
  else if c = '-' ∨ c = '_' ∨ c = '.' ∨ c = '~' then
    false
  else if c = '$' ∨ c = '&' ∨ c = '+' ∨ c = ',' ∨ c = '/' ∨ c = ':' ∨
      c = ';' ∨ c = '=' ∨ c = '?' ∨ c = '@' then
    match mode with
    | .encPath => c = '?'
    | .encUserPassword => c = '@' ∨ c = '/' ∨ c = '?' ∨ c = ':'
    | _ => true
  else true

/-- Go `net/url.unescape` for the modes `parse` uses: a `%` must head
two hex digits; in a host an escaped ASCII byte other than `%25` is
invalid, in a zone an escaped byte must be `%25`, a space or a byte a
host could hold unescaped; a raw ASCII byte a host/zone would escape is
invalid.  Decodes `%XX` to the byte (modelled as the code point). -/
def urlUnescape (mode : UrlEncoding) : List Char → Option (List Char)
  | [] => some []
  | '%' :: rest =>
    match rest with
    | a :: b :: rest2 =>
      if ishexCh a ∧ ishexCh b then
        if mode = .encHost ∧ unhexCh a < 8 ∧ ¬(a = '2' ∧ b = '5') then none
        else if mode = .encZone ∧ ¬(a = '2' ∧ b = '5') ∧
            unhexCh a * 16 + unhexCh b ≠ 32 ∧
            urlShouldEscape (Char.ofNat (unhexCh a * 16 + unhexCh b))
              .encHost then none
        else
          (urlUnescape mode rest2).map
            (fun t => Char.ofNat (unhexCh a * 16 + unhexCh b) :: t)
      else none
    | _ => none
  | '+' :: rest => (urlUnescape mode rest).map (fun t => '+' :: t)
  | c :: rest =>
    if (mode = .encHost ∨ mode = .encZone) ∧ c.toNat < 0x80 ∧
        urlShouldEscape c mode then none
    else (urlUnescape mode rest).map (fun t => c :: t)

/-- Go `net/url.validOptionalPort`: empty, or `:` followed by decimal
digits only. -/
def validOptionalPort : List Char → Bool
  | [] => true
  | ':' :: t => t.all (fun b => '0' ≤ b && b ≤ '9')
  | _ => false

/-- Go `net/url.validUserinfo` (RFC 3986 userinfo characters). -/
def validUserinfo (cs : List Char) : Bool :=
  cs.all (fun r =>
    ('A' ≤ r && r ≤ 'Z') || ('a' ≤ r && r ≤ 'z') || ('0' ≤ r && r ≤ '9') ||
    r = '-' || r = '.' || r = '_' || r = ':' || r = '~' || r = '!' ||
    r = '$' || r = '&' || r = '\x27' || r = '(' || r = ')' || r = '*' ||
    r = '+' || r = ',' || r = ';' || r = '=' || r = '%' || r = '@')

/-- Split at the last occurrence of `sep` (dropped): `strings.LastIndex`
followed by the two slices around it. -/
def splitAtLastChar (sep : Char) (cs : List Char) :
    Option (List Char × List Char) :=
  match splitAtChar sep cs.reverse with
  | some (revAfter, revBefore) => some (revBefore.reverse, revAfter.reverse)
  | none => none

/-- Split at the first occurrence of the substring `%25`
(`strings.Index(host, "%25")`): the part before it and the part from it
on (still carrying the `%25`). -/
def splitAtPct25 : List Char → Option (List Char × List Char)
  | '%' :: '2' :: '5' :: t => some ([], '%' :: '2' :: '5' :: t)
  | c :: t => (splitAtPct25 t).map (fun p => (c :: p.1, p.2))
  | [] => none

/-- Go `net/url.parseHost`: a bracketed IPv6 literal needs its `]`, a
valid optional port and (with a `%25` zone) per-section unescaping; an
unbracketed host validates the part after the last `:` as a port; the
whole host is then host-mode unescaped. -/
def parseHost (host : List Char) : Option (List Char) :=
  match host with
  | '[' :: _ =>
    match splitAtLastChar ']' host with
    | none => none
    | some (before, after) =>
      if ¬(validOptionalPort after = true) then none
      else
        match splitAtPct25 before with
        | some (pre, from25) =>
          match urlUnescape .encHost pre with
          | none => none
          | some h1 =>
            match urlUnescape .encZone from25 with
            | none => none
            | some h2 =>
              match urlUnescape .encHost (']' :: after) with
              | none => none
              | some h3 => some (h1 ++ h2 ++ h3)
        | none => urlUnescape .encHost host
  | _ =>
    match splitAtLastChar ':' host with
    | some (_, after) =>
      if ¬(validOptionalPort (':' :: after) = true) then none
      else urlUnescape .encHost host
    | none => urlUnescape .encHost host

/-- Go `net/url.parseAuthority`: the host is everything after the last
`@`; it must parse, and any userinfo must be valid and unescape (cut at
the first `:` into username and password as Go does). -/
def parseAuthority (authority : List Char) : Option (List Char) :=
  match splitAtChar '@' authority.reverse with
  | none => parseHost authority
  | some (revHost, revUser) =>
    match parseHost revHost.reverse with
    | none => none
    | some host =>
      let userinfo := revUser.reverse
      if ¬(validUserinfo userinfo = true) then none
      else
        match splitAtChar ':' userinfo with
        | none =>
          (urlUnescape .encUserPassword userinfo).map (fun _ => host)
        | some (username, password) =>
          match urlUnescape .encUserPassword username with
          | none => none
          | some _ =>
            (urlUnescape .encUserPassword password).map (fun _ => host)

/-- Go `url.ParseRequestURI` (`net/url.parse` with `viaRequest = true`),
restricted to the fields `NewClient` inspects.  Returns `none` on the
errors `parse` raises: a control character, an empty URL, a `:` with no
scheme, a rest that neither starts with `/` nor follows a scheme, an
authority whose host or userinfo fails `parseAuthority`, or a path that
fails percent-unescaping. -/
def parseRequestURI (raw : String) : Option GoURL :=
  let cs := raw.toList
  if cs.any isCTL then none
  else if raw = "" then none
  else if raw = "*" then
    some { scheme := "", opaquePart := "", host := "", path := "*", rawQuery := "" }
  else
    match getSchemeAux [] cs with
    | .err => none
    | res =>
      let schemeRaw : String := match res with | .found s _ => s | _ => ""
      let scheme := String.mk (schemeRaw.toList.map Char.toLower)
      let rest0 : List Char := match res with | .found _ r => r | _ => cs
      let (rest, rawQuery) : List Char × List Char :=
        match splitAtChar '?' rest0 with
        | some (a, b) => (a, b)
        | none => (rest0, [])
      match rest with
      | '/' :: rest1 =>
        match rest1 with
        | '/' :: rest2 =>
          if scheme ≠ "" then
            -- authority form `scheme://authority/path`
            let (authority, path) : List Char × List Char :=
              match splitAtChar '/' rest2 with
              | some (a, p) => (a, '/' :: p)
              | none => (rest2, [])
            match parseAuthority authority with
            | none => none
            | some host =>
              match urlUnescape .encPath path with
              | none => none
              | some p =>
                some { scheme := scheme, opaquePart := "",
                       host := String.mk host,
                       path := String.mk p, rawQuery := String.mk rawQuery }
          else
            -- `//...` without a scheme: with viaRequest it is all path
            match urlUnescape .encPath rest with
            | none => none
            | some p =>
              some { scheme := scheme, opaquePart := "", host := "",
                     path := String.mk p, rawQuery := String.mk rawQuery }
        | _ =>
          match urlUnescape .encPath rest with
          | none => none
          | some p =>
            some { scheme := scheme, opaquePart := "", host := "",
                   path := String.mk p, rawQuery := String.mk rawQuery }
      | _ =>
        if scheme ≠ "" then
          some { scheme := scheme, opaquePart := String.mk rest, host := "",
                 path := "", rawQuery := String.mk rawQuery }
        else none  -- "invalid URI for request"

/-- The Corax API client as configured by `NewClient`: parsed base URL,
the API key, the fixed user agent, and the `http.Client` timeout in
seconds. -/
structure Client where
  baseURL : GoURL
  apiKey : String
  userAgent : String
  timeoutSeconds : Nat
deriving DecidableEq, Repr

/-- Go `NewClient` (client.go lines 36-60): rejects blank inputs,
unparsable base URLs and base URLs without scheme or host; otherwise
builds the client with a 30-second HTTP timeout. -/
def newClient (baseURLStr apiKey : String) : Except String Client :=
  if goTrimSpace baseURLStr = "" then .error "baseURL cannot be empty"
  else if goTrimSpace apiKey = "" then .error "apiKey cannot be empty"
  else
    match parseRequestURI baseURLStr with
    | none => .error "invalid baseURL"
    | some u =>
      if u.scheme = "" || u.host = "" then
        .error "baseURL must include scheme and host"
      else
        .ok { baseURL := u, apiKey := apiKey,
              userAgent := "corax-terraform-provider/0.0.1",
              timeoutSeconds := 30 }

/-! ## Capability config (`internal/coraxclient/capability_types.go` and
`common_capability_config.go`, src/unnamed/part_011) -/

/-- Client `BlobConfig` (capability_types.go): pointers become `Option`,
the nilable slice becomes `Option (List String)`. -/
structure BlobConfig where
  maxFileSizeMB : Option Int
  maxBlobs : Option Int
  allowedMimeTypes : Option (List String)
deriving DecidableEq, Repr

/-- Client `DataRetention` (capability_types.go): a plain `Type` string
("timed" or "infinite") and optional `Hours`. -/
structure DataRetention where
  type : String
  hours : Option Int
deriving DecidableEq, Repr

/-- Client `CapabilityConfig` (capability_types.go). `CustomParameters`
is a `map[string]interface{}`, carried but never touched by the mapping
functions. -/
structure CapabilityConfig where
  temperature : Option GoFloat
  blobConfig : Option BlobConfig
  dataRetention : Option DataRetention
  contentTracing : Option Bool
  customParameters : Option (List (String × GoVal))
deriving DecidableEq

/-- Terraform `BlobConfigModel` (common_capability_config.go). -/
structure BlobConfigModel where
  maxFileSizeMB : TFVal Int
  maxBlobs : TFVal Int
  allowedMimeTypes : TFVal (List String)
deriving DecidableEq, Repr

/-- Terraform `DataRetentionModel` (common_capability_config.go): the
flat `type` / `hours` shape of src/unnamed/part_011. -/
structure DataRetentionModel where
  type : TFVal String
  hours : TFVal Int
deriving DecidableEq, Repr

/-- Terraform `CapabilityConfigModel` (common_capability_config.go). -/
structure CapabilityConfigModel where
  temperature : TFVal GoFloat
  blobConfig : TFVal BlobConfigModel
  dataRetention : TFVal DataRetentionModel
  contentTracing : TFVal Bool
deriving DecidableEq, Repr

/-- Go `capabilityConfigModelToAPI` (src/unnamed/part_011 lines
194-293): builds the API config from the Terraform object, tracking
`hasChanges` (and `blobChanges`, `drChanges`) so that an effectively
empty config is omitted (`nil`) from the payload. -/
def capabilityConfigModelToAPI (modelConfig : TFVal CapabilityConfigModel) :
    Option CapabilityConfig :=
  match modelConfig with
  | .null => none
  | .unknown => none
  | .value cfgModel =>
    let temperature : Option GoFloat :=
      match cfgModel.temperature with
      | .value v => some v
      | _ => none
    let contentTracing : Option Bool :=
      match cfgModel.contentTracing with
      | .value v => some v
      | _ => none
    let blobConfig : Option BlobConfig :=
      match cfgModel.blobConfig with
      | .value blobCfgModel =>
        let mfs : Option Int :=
          match blobCfgModel.maxFileSizeMB with | .value v => some v | _ => none
        let mb : Option Int :=
          match blobCfgModel.maxBlobs with | .value v => some v | _ => none
        let amt : Option (List String) :=
          match blobCfgModel.allowedMimeTypes with | .value v => some v | _ => none
        -- blobChanges: at least one field of the nested object was set
        if mfs.isSome || mb.isSome || amt.isSome then
          some { maxFileSizeMB := mfs, maxBlobs := mb, allowedMimeTypes := amt }
        else none
      | _ => none
    let dataRetention : Option DataRetention :=
      match cfgModel.dataRetention with
      | .value drModel =>
        match drModel.type with
        | .value retentionType =>
          -- setting the type is a change; hours is only taken for "timed"
          some { type := retentionType,
                 hours :=
                   if retentionType = "timed" then
                     match drModel.hours with | .value v => some v | _ => none
                   else none }
        | _ => none
      | _ => none
    if temperature.isSome || contentTracing.isSome ||
        blobConfig.isSome || dataRetention.isSome then
      some { temperature := temperature, blobConfig := blobConfig,
             dataRetention := dataRetention, contentTracing := contentTracing,
             customParameters := none }
    else none

/-- Go `capabilityConfigAPItoModel` (src/unnamed/part_011 lines
295-367): builds the Terraform object from the API config; a missing
`content_tracing` defaults to `true`, and `hours` is only taken over
for `"timed"` retention. -/
def capabilityConfigAPItoModel (apiConfig : Option CapabilityConfig) :
    TFVal CapabilityConfigModel :=
  match apiConfig with
  | none => .null
  | some cfg =>
    .value
      { temperature :=
          match cfg.temperature with
          | some v => .value v
          | none => .null
        contentTracing :=
          match cfg.contentTracing with
          | some v => .value v
          | none => .value true
        blobConfig :=
          match cfg.blobConfig with
          | some b =>
            .value
              { maxFileSizeMB :=
                  match b.maxFileSizeMB with | some v => .value v | none => .null
                maxBlobs :=
                  match b.maxBlobs with | some v => .value v | none => .null
                allowedMimeTypes :=
                  match b.allowedMimeTypes with | some l => .value l | none => .null }
          | none => .null
        dataRetention :=
          match cfg.dataRetention with
          | some dr =>
            .value
              { type := .value dr.type
                hours :=
                  if dr.type = "timed" then
                    match dr.hours with | some h => .value h | none => .null
                  else .null }
          | none => .null }

/-- An attribute-level diagnostic as added by
`resp.Diagnostics.AddAttributeError(path, summary, detail)`. -/
structure AttrDiag where
  path : String
  summary : String
  detail : String
deriving DecidableEq, Repr

/-- Go `dataRetentionValidator.ValidateObject` (src/unnamed/part_011
lines 61-103): null or unknown objects are not validated; a null or
unknown `type` is left to the attribute's own validators; `"timed"`
requires `hours`, `"infinite"` forbids it, each violation adding one
attribute error on `hours`. -/
def dataRetentionValidateObject (configValue : TFVal DataRetentionModel) :
    List AttrDiag :=
  match configValue with
  | .null => []
  | .unknown => []
  | .value dataRetention =>
    match dataRetention.type with
    | .null => []
    | .unknown => []
    | .value retentionType =>
      let hoursIsSet := dataRetention.hours.isKnown
      if retentionType = "timed" then
        if !hoursIsSet then
          [{ path := "hours",
             summary := "Missing \x27hours\x27 for timed data retention",
             detail := "The \x27hours\x27 attribute must be configured when data retention \x27type\x27 is \x27timed\x27." }]
        else []
      else if retentionType = "infinite" then
        if hoursIsSet then
          [{ path := "hours",
             summary := "Unexpected \x27hours\x27 for infinite data retention",
             detail := "The \x27hours\x27 attribute must not be configured when data retention \x27type\x27 is \x27infinite\x27." }]
        else []
      else []

/-! ## Variables mapping of `mapAPICompletionCapabilityToModel`
(src/unnamed/part_009 lines 363-426) -/

/-- Byte-order comparison of character lists: Go compares strings by
bytes, and UTF-8 byte order agrees with code-point order, so comparing
`Char`s is the same order. -/
def charListLe : List Char → List Char → Bool
  | [], _ => true
  | _ :: _, [] => false
  | a :: as, b :: bs =>
    if a < b then true else if b < a then false else charListLe as bs

/-- Go string `<=`, the order `sort.Strings` sorts by (ascending
lexicographic). -/
def strLe (a b : String) : Prop := charListLe a.toList b.toList = true

instance : DecidableRel strLe := fun a b =>
  inferInstanceAs (Decidable (charListLe a.toList b.toList = true))

/-- Go `sort.Strings`: ascending lexicographic sort. -/
def sortStrings (l : List String) : List String :=
  List.insertionSort strLe l

/-- The all-strings extraction of the `variables` list branch:
`strVars` collected in order; `none` as soon as a non-string element is
hit (the Go loop breaks and the attribute is set to null). -/
def allStringsOf : List GoVal → Option (List String)
  | [] => some []
  | .strv s :: t => (allStringsOf t).map (s :: ·)
  | _ => none

/-- Go `mapAPICompletionCapabilityToModel`, `variables` portion
(src/unnamed/part_009 lines 363-426): a nil input map, a missing or
JSON-null `variables` entry, a list with a non-string element and any
other value type all yield a null list attribute; a list of strings is
kept in the order received; a map yields its keys sorted with
`sort.Strings`. -/
def variablesFromInput (input : Option (List (String × GoVal))) :
    TFVal (List String) :=
  match input with
  | none => .null
  | some inputMap =>
    match goMapLookup inputMap "variables" with
    | none => .null
    | some varsData =>
      match varsData with
      | .nullv => .null   -- found, but nil: `found && varsData != nil` fails
      | .listv vars =>
        match allStringsOf vars with
        | some strVars => .value strVars
        | none => .null
      | .mapv varsMap => .value (sortStrings (varsMap.map Prod.fst))
      | _ => .null

/-! ## Go `encoding/json` for `map[string]interface{}` values

The fragment of `encoding/json` this provider exercises: `Marshal` of a
decoded value and `Unmarshal` into `map[string]interface{}`.  A Go map
is modelled as an association list kept in its canonical form: strictly
sorted by key, distinct keys (`goMapInsert` builds it, later duplicate
keys winning as in Go).  `Marshal` prints members in list order, which
on canonical maps is Go's sorted-key ordering.  JSON numbers are
modelled in the integer fragment (see `GoVal`); fractions and exponents
are treated as unparsable by the model. -/

/-- Lowercase hexadecimal digit, as Go emits in `\u00xx` escapes. -/
def hexDigit (n : Nat) : Char :=
  if n < 10 then Char.ofNat ('0'.toNat + n) else Char.ofNat ('a'.toNat + n - 10)

/-- Go `encoding/json` string escaping (with the default HTML escaping
of `<`, `>`, `&`, and the ` `/` ` escapes). -/
def goEscapeChar (c : Char) : List Char :=
  if c = '"' then ['\\', '"']
  else if c = '\\' then ['\\', '\\']
  else if c = '\n' then ['\\', 'n']
  else if c = '\r' then ['\\', 'r']
  else if c = '\t' then ['\\', 't']
  else if c.toNat < 0x20 || c = '<' || c = '>' || c = '&' then
    ['\\', 'u', hexDigit (c.toNat / 4096 % 16), hexDigit (c.toNat / 256 % 16),
     hexDigit (c.toNat / 16 % 16), hexDigit (c.toNat % 16)]
  else if c.toNat = 0x2028 || c.toNat = 0x2029 then
    ['\\', 'u', '2', '0', '2', hexDigit (c.toNat % 16)]
  else [c]

/-- A marshalled JSON string: quote, escaped characters, quote. -/
def goMarshalStr (s : String) : List Char :=
  '"' :: (s.toList.flatMap goEscapeChar ++ ['"'])

/-- Decimal digits of `n`, most significant first, prepended to `acc`. -/
def natDigits (n : Nat) (acc : List Char) : List Char :=
  let d := Char.ofNat ('0'.toNat + n % 10)
  if n < 10 then d :: acc else natDigits (n / 10) (d :: acc)
termination_by n
decreasing_by
  rename_i h
  exact Nat.div_lt_self (by omega) (by omega)

/-- Decimal rendering of an integer: optional minus sign, then digits. -/
def intToChars (i : Int) : List Char :=
  (if i < 0 then ['-'] else []) ++ natDigits i.natAbs []

mutual

/-- Go `json.Marshal` of a decoded value, to characters.  Members print
in list order; on canonical maps that is Go's sorted-key order. -/
def goMarshalVal : GoVal → List Char
  | .nullv => ['n', 'u', 'l', 'l']
  | .boolv true => ['t', 'r', 'u', 'e']
  | .boolv false => ['f', 'a', 'l', 's', 'e']
  | .numv n => intToChars n
  | .strv s => goMarshalStr s
  | .listv l => '[' :: (goMarshalElems l ++ [']'])
  | .mapv m => '{' :: (goMarshalMembers m ++ ['}'])

/-- Array elements, comma-separated. -/
def goMarshalElems : List GoVal → List Char
  | [] => []
  | v :: vs => goMarshalVal v ++ goMarshalElemsTail vs

/-- Tail of an element list: each further element preceded by a comma. -/
def goMarshalElemsTail : List GoVal → List Char
  | [] => []
  | v :: vs => ',' :: (goMarshalVal v ++ goMarshalElemsTail vs)

/-- Object members, comma-separated `"key":value` pairs. -/
def goMarshalMembers : List (String × GoVal) → List Char
  | [] => []
  | (k, v) :: ms => goMarshalStr k ++ ':' :: (goMarshalVal v ++ goMarshalMembersTail ms)

/-- Tail of a member list: each further member preceded by a comma. -/
def goMarshalMembersTail : List (String × GoVal) → List Char
  | [] => []
  | (k, v) :: ms =>
      ',' :: (goMarshalStr k ++ ':' :: (goMarshalVal v ++ goMarshalMembersTail ms))

end

/-- Go `json.Marshal` of a `map[string]interface{}` variable: a nil map
marshals to `null`, otherwise to an object. -/
def goMarshalMapTop : Option (List (String × GoVal)) → String
  | none => "null"
  | some m => String.mk ('{' :: (goMarshalMembers m ++ ['}']))

/-- JSON whitespace, as in Go's scanner. -/
def jsonWs (c : Char) : Bool := c = ' ' || c = '\t' || c = '\n' || c = '\r'

/-- Skip leading JSON whitespace. -/
def skipJsonWs : List Char → List Char
  | c :: cs => if jsonWs c then skipJsonWs cs else c :: cs
  | [] => []

/-- Hexadecimal digit value (Go `getu4` digit handling, written over
code points: 48-57 are `0`-`9`, 97-102 are `a`-`f`, 65-70 are `A`-`F`). -/
def hexNat (c : Char) : Option Nat :=
  let n := c.toNat
  if 48 ≤ n ∧ n ≤ 57 then some (n - 48)
  else if 97 ≤ n ∧ n ≤ 102 then some (n - 87)
  else if 65 ≤ n ∧ n ≤ 70 then some (n - 55)
  else none

/-- Four hex digits, as in a `\uXXXX` escape. -/
def hex4 (a b c d : Char) : Option Nat := do
  let va ← hexNat a
  let vb ← hexNat b
  let vc ← hexNat c
  let vd ← hexNat d
  return ((va * 16 + vb) * 16 + vc) * 16 + vd

/-- A code point as a scalar `Char`; surrogates and out-of-range values
become U+FFFD, as in Go's decoder. -/
def scalarChar (n : Nat) : Char :=
  if n < 0xD800 || (0xDFFF < n && n < 0x110000) then Char.ofNat n
  else Char.ofNat 0xFFFD

/-- Go's one-character JSON unescapes (Go also accepts the nonstandard
`\x27`-quote escape). -/
def goUnescape (c : Char) : Option Char :=
  if c = '"' then some '"'
  else if c = '\\' then some '\\'
  else if c = '/' then some '/'
  else if c = '\x27' then some '\x27'
  else if c = 'b' then some '\x08'
  else if c = 'f' then some '\x0c'
  else if c = 'n' then some '\n'
  else if c = 'r' then some '\r'
  else if c = 't' then some '\t'
  else none

mutual

/-- Parse the body of a JSON string after the opening quote, handling
escapes as Go's `unquote` does; raw control characters are invalid. -/
def parseJsonString (acc : List Char) : List Char → Option (String × List Char)
  | [] => none
  | '"' :: rest => some (String.mk acc.reverse, rest)
  | '\\' :: 'u' :: a :: b :: c :: d :: rest =>
    match hex4 a b c d with
    | none => none
    | some n => parseUEscape acc n rest
  | '\\' :: e :: rest =>
    match goUnescape e with
    | some ch => parseJsonString (ch :: acc) rest
    | none => none
  | '\\' :: [] => none
  | c :: rest =>
    if c.toNat < 0x20 then none else parseJsonString (c :: acc) rest
termination_by cs => cs.length + cs.length
decreasing_by all_goals (simp only [List.length_cons]; omega)

/-- Continue after a decoded `\uXXXX` escape: a high surrogate tries
to combine with a following low-surrogate escape, otherwise U+FFFD is
written, as Go's decoder does. -/
def parseUEscape (acc : List Char) (n : Nat) (rest : List Char) :
    Option (String × List Char) :=
  if 0xD800 ≤ n && n ≤ 0xDBFF then
    match rest with
    | '\\' :: 'u' :: a2 :: b2 :: c2 :: d2 :: rest2 =>
      match hex4 a2 b2 c2 d2 with
      | none => none
      | some m =>
        if 0xDC00 ≤ m && m ≤ 0xDFFF then
          parseJsonString
            (Char.ofNat (0x10000 + (n - 0xD800) * 0x400 + (m - 0xDC00)) :: acc) rest2
        else
          parseJsonString (scalarChar n :: acc)
            ('\\' :: 'u' :: a2 :: b2 :: c2 :: d2 :: rest2)
    | other => parseJsonString (scalarChar n :: acc) other
  else parseJsonString (scalarChar n :: acc) rest
termination_by rest.length + rest.length + 1
decreasing_by all_goals (try simp only [List.length_cons]); all_goals omega

end

/-- Leading run of decimal digits. -/
def takeDigits : List Char → List Char × List Char
  | c :: cs =>
    if isDigitCh c then
      let (ds, r) := takeDigits cs
      (c :: ds, r)
    else ([], c :: cs)
  | [] => ([], [])

/-- Numeric value of a digit run. -/
def digitsVal (ds : List Char) : Nat :=
  ds.foldl (fun a c => a * 10 + (c.toNat - '0'.toNat)) 0

/-- Parse a JSON number in the modelled integer fragment: optional
minus, digits with no leading zero; a following `.`/`e`/`E` (Go would
decode these into `float64`) is outside the model and reads as a parse
failure. -/
def parseJsonNum (cs : List Char) : Option (Int × List Char) :=
  let (neg, cs1) : Bool × List Char :=
    match cs with
    | '-' :: r => (true, r)
    | _ => (false, cs)
  match takeDigits cs1 with
  | ([], _) => none
  | (ds, rest) =>
    if 1 < ds.length && ds.head? = some '0' then none
    else
      match rest with
      | '.' :: _ => none
      | 'e' :: _ => none
      | 'E' :: _ => none
      | _ => some ((if neg then -(digitsVal ds : Int) else (digitsVal ds : Int)), rest)

/-- Insertion into a canonical Go map: replace an equal key, keep keys
strictly sorted otherwise. -/
def goMapInsert (k : String) (v : GoVal) : List (String × GoVal) → List (String × GoVal)
  | [] => [(k, v)]
  | (k2, v2) :: t =>
    if k = k2 then (k, v) :: t
    else if charListLe k.toList k2.toList then (k, v) :: (k2, v2) :: t
    else (k2, v2) :: goMapInsert k v t

/-- Build a Go map from decoded members in order; a later duplicate key
overwrites an earlier one, as Go's decoder does. -/
def goMapOfPairs (ps : List (String × GoVal)) : List (String × GoVal) :=
  ps.foldl (fun m p => goMapInsert p.1 p.2 m) []

mutual

/-- Go JSON value parser (fuel-bounded; the fuel is a technical bound,
`input length + 1` always suffices). -/
def parseJsonVal (fuel : Nat) (cs : List Char) : Option (GoVal × List Char) :=
  match fuel with
  | 0 => none
  | fuel + 1 =>
    match skipJsonWs cs with
    | 'n' :: 'u' :: 'l' :: 'l' :: r => some (.nullv, r)
    | 't' :: 'r' :: 'u' :: 'e' :: r => some (.boolv true, r)
    | 'f' :: 'a' :: 'l' :: 's' :: 'e' :: r => some (.boolv false, r)
    | '"' :: r => (parseJsonString [] r).map (fun p => (.strv p.1, p.2))
    | '[' :: r =>
      match skipJsonWs r with
      | ']' :: r2 => some (.listv [], r2)
      | r2 => (parseJsonElems fuel r2).map (fun p => (.listv p.1, p.2))
    | '{' :: r =>
      match skipJsonWs r with
      | '}' :: r2 => some (.mapv [], r2)
      | r2 => (parseJsonMembers fuel r2).map (fun p => (.mapv (goMapOfPairs p.1), p.2))
    | c :: r =>
      if c = '-' || isDigitCh c then
        (parseJsonNum (c :: r)).map (fun p => (.numv p.1, p.2))
      else none
    | [] => none

/-- One or more comma-separated array elements up to `]`. -/
def parseJsonElems (fuel : Nat) (cs : List Char) : Option (List GoVal × List Char) :=
  match fuel with
  | 0 => none
  | fuel + 1 =>
    match parseJsonVal fuel cs with
    | none => none
    | some (v, r) =>
      match skipJsonWs r with
      | ',' :: r2 => (parseJsonElems fuel r2).map (fun p => (v :: p.1, p.2))
      | ']' :: r2 => some ([v], r2)
      | _ => none

/-- One or more comma-separated object members up to `}`, returned in
input order (the map is built afterwards). -/
def parseJsonMembers (fuel : Nat) (cs : List Char) :
    Option (List (String × GoVal) × List Char) :=
  match fuel with
  | 0 => none
  | fuel + 1 =>
    match skipJsonWs cs with
    | '"' :: r =>
      match parseJsonString [] r with
      | none => none
      | some (key, r1) =>
        match skipJsonWs r1 with
        | ':' :: r2 =>
          match parseJsonVal fuel r2 with
          | none => none
          | some (v, r3) =>
            match skipJsonWs r3 with
            | ',' :: r4 => (parseJsonMembers fuel r4).map (fun p => ((key, v) :: p.1, p.2))
            | '}' :: r4 => some ([(key, v)], r4)
            | _ => none
        | _ => none
    | _ => none

end

/-- Go `json.Unmarshal(data, &m)` for `m : map[string]interface{}`:
`none` on a syntax error or a non-object, non-null document;
`some none` when the document is `null` (the map stays nil);
`some (some m)` for an object. -/
def goUnmarshalMap (s : String) : Option (Option (List (String × GoVal))) :=
  let cs := s.toList
  match parseJsonVal (cs.length + 1) cs with
  | none => none
  | some (v, r) =>
    if (skipJsonWs r).isEmpty then
      match v with
      | .nullv => some none
      | .mapv m => some (some m)
      | _ => none
    else none

/-- Strict key order used by canonical maps. -/
def strLtB (a b : String) : Bool := charListLe a.toList b.toList && a != b

/-- Keys strictly ascending (sorted and distinct). -/
def keysSortedStrict : List (String × GoVal) → Bool
  | [] => true
  | [_] => true
  | (k1, _) :: (k2, v2) :: t =>
    strLtB k1 k2 && keysSortedStrict ((k2, v2) :: t)

mutual

/-- Canonical form: every object in the value has strictly sorted,
distinct keys (the form `goUnmarshalMap` produces and Go's sorted-key
`Marshal` preserves). -/
def GoVal.canon : GoVal → Bool
  | .nullv => true
  | .boolv _ => true
  | .numv _ => true
  | .strv _ => true
  | .listv l => GoVal.canonList l
  | .mapv m => keysSortedStrict m && GoVal.canonMembers m

/-- Canonical form for element lists. -/
def GoVal.canonList : List GoVal → Bool
  | [] => true
  | v :: vs => GoVal.canon v && GoVal.canonList vs

/-- Canonical form for member values. -/
def GoVal.canonMembers : List (String × GoVal) → Bool
  | [] => true
  | (_, v) :: ms => GoVal.canon v && GoVal.canonMembers ms

end

/-! ## `types.Dynamic` and the `schema_def` plan modifier
(src/unnamed/part_009 lines 139-210) -/

/-- Underlying value of a `types.Dynamic`: a `types.String`, or a
non-string attribute value (an HCL object/map; `schemaDefMapToAPI`
converts either kind through `As`/`json.Marshal` into a Go map, so the
model carries the resulting map directly). -/
inductive UnderVal where
  | ustr (s : TFVal String)
  | uobj (m : List (String × GoVal))
deriving DecidableEq

/-- A `types.Dynamic` value: null or unknown at the dynamic level, or
known with an underlying value. -/
inductive DynVal where
  | dnull
  | dunknown
  | dval (u : UnderVal)
deriving DecidableEq

namespace DynVal

/-- Mirrors `IsNull() || IsUnknown()` on the dynamic value itself. -/
def isNullOrUnknown : DynVal → Bool
  | .dnull => true
  | .dunknown => true
  | .dval _ => false

end DynVal

/-- Go `normalizeSchemaDefDynamicModifier.PlanModifyDynamic`
(src/unnamed/part_009 lines 155-202): a planned value that is null,
unknown, not a string underneath, a null/unknown string, empty, or not
valid JSON for a map is left unchanged; otherwise the JSON string is
re-marshalled into canonical form. -/
def planModifyDynamic (planValue : DynVal) : DynVal :=
  match planValue with
  | .dnull => planValue
  | .dunknown => planValue
  | .dval u =>
    match u with
    | .uobj _ => planValue
    | .ustr sv =>
      match sv with
      | .null => planValue
      | .unknown => planValue
      | .value jsonStr =>
        if jsonStr = "" then planValue
        else
          match goUnmarshalMap jsonStr with
          | none => planValue
          | some data => .dval (.ustr (.value (goMarshalMapTop data)))

/-! ## Resource operation models

Each Terraform operation is modelled as a pure function from the plan
and/or prior state and the (oracle-supplied) API response to its
outcome and the list of HTTP calls it issues.  Transport happens in the
oracle; an operation that never reaches its client call simply returns
an empty call list. -/

/-- A client error as the resource handlers see it: the `ErrNotFound`
sentinel (matched with `errors.Is`), an `APIError`, or another wrapped
error. -/
inductive ClientErr where
  | notFound
  | apiError (statusCode : Nat) (message : String)
  | other (message : String)
deriving DecidableEq, Repr

/-- Convert a Go pointer field to a Terraform value: the
`if p != nil { value } else { null }` pattern. -/
def tfOfOption : Option α → TFVal α
  | some v => .value v
  | none => .null

/-- Client `ModelProvider` (model_provider_types.go). -/
structure ModelProvider where
  name : String
  providerType : String
  configuration : List (String × String)
  id : String
  createdAt : String
  updatedAt : Option String
  createdBy : String
  updatedBy : Option String
deriving DecidableEq, Repr

/-- Client `ModelProviderCreate`. -/
structure ModelProviderCreate where
  name : String
  providerType : String
  configuration : List (String × String)
deriving DecidableEq, Repr

/-- Client `ModelProviderUpdate` (full replacement, as the API demands). -/
structure ModelProviderUpdate where
  name : String
  providerType : String
  configuration : List (String × String)
deriving DecidableEq, Repr

/-- Terraform `ModelProviderResourceModel` (resource_model_provider.go). -/
structure ModelProviderResourceModel where
  id : TFVal String
  name : TFVal String
  providerType : TFVal String
  configuration : TFVal (List (String × String))
  createdAt : TFVal String
  updatedAt : TFVal String
  createdBy : TFVal String
  updatedBy : TFVal String
deriving DecidableEq, Repr

/-- Client `EmbeddingsModel` (embeddings_model_types.go). -/
structure EmbeddingsModel where
  id : String
  name : String
  description : Option String
  modelProvider : String
  modelNameOnProvider : String
  dimensions : Int
  maxTokens : Option Int
  apiKey : Option String
  apiBaseUrl : Option String
  status : String
  isDefault : Bool
  createdBy : String
  updatedBy : Option String
  createdAt : String
  updatedAt : Option String
deriving DecidableEq, Repr

/-- Client `EmbeddingsModelCreate`. -/
structure EmbeddingsModelCreate where
  name : String
  description : Option String
  modelProvider : String
  modelNameOnProvider : String
  dimensions : Int
  apiKey : Option String
  apiBaseUrl : Option String
  maxTokens : Option Int
deriving DecidableEq, Repr

/-- Client `EmbeddingsModelUpdate`. -/
structure EmbeddingsModelUpdate where
  name : Option String
  description : Option String
  apiKey : Option String
  apiBaseUrl : Option String
deriving DecidableEq, Repr

/-- Terraform `EmbeddingsModelResourceModel`
(resource_embeddings_model.go). -/
structure EmbeddingsModelResourceModel where
  id : TFVal String
  name : TFVal String
  description : TFVal String
  modelProvider : TFVal String
  modelNameOnProvider : TFVal String
  dimensions : TFVal Int
  maxTokens : TFVal Int
  apiKey : TFVal String
  apiBaseUrl : TFVal String
  status : TFVal String
  isDefault : TFVal Bool
  createdBy : TFVal String
  updatedBy : TFVal String
  createdAt : TFVal String
  updatedAt : TFVal String
deriving DecidableEq, Repr

/-- Client `CapabilityRepresentation` (capability_types.go): the
generic GET shape, with the completion-specific fields inside the
`input`/`output`/`configuration` maps. -/
structure CapabilityRepresentation where
  name : String
  isPublic : Option Bool
  type : String
  modelID : Option String
  config : Option CapabilityConfig
  projectID : Option String
  id : String
  createdBy : String
  updatedBy : String
  createdAt : String
  updatedAt : String
  archivedAt : Option String
  owner : String
  input : Option (List (String × GoVal))
  output : Option (List (String × GoVal))
  configuration : Option (List (String × GoVal))
deriving DecidableEq

/-- Client `CompletionCapabilityCreate` (capability_types.go). -/
structure CompletionCapabilityCreate where
  name : String
  isPublic : Option Bool
  type : String
  modelID : Option String
  config : Option CapabilityConfig
  projectID : Option String
  systemPrompt : String
  completionPrompt : String
  variables' : Option (List String)
  outputType : String
  schemaDef : Option (List (String × GoVal))
deriving DecidableEq

/-- Client `CompletionCapabilityUpdate` (capability_types.go). -/
structure CompletionCapabilityUpdate where
  name : Option String
  isPublic : Option Bool
  modelID : Option String
  config : Option CapabilityConfig
  projectID : Option String
  systemPrompt : Option String
  completionPrompt : Option String
  variables' : Option (List String)
  outputType : Option String
  schemaDef : Option (List (String × GoVal))
deriving DecidableEq

/-- Terraform `CompletionCapabilityResourceModel`
(src/unnamed/part_009 lines 41-60; `schema_def` is `types.Dynamic`). -/
structure CompletionCapabilityResourceModel where
  id : TFVal String
  name : TFVal String
  isPublic : TFVal Bool
  modelID : TFVal String
  config : TFVal CapabilityConfigModel
  projectID : TFVal String
  systemPrompt : TFVal String
  completionPrompt : TFVal String
  variables' : TFVal (List String)
  outputType : TFVal String
  schemaDef : DynVal
  createdBy : TFVal String
  updatedBy : TFVal String
  createdAt : TFVal String
  updatedAt : TFVal String
  archivedAt : TFVal String
  owner : TFVal String
  type : TFVal String
deriving DecidableEq

/-! ### The remaining resources: project, chat capability, model
deployment, capability-type default model, collection, document
(resource_project.go, the chat-capability resource in
src/unnamed/part_009, the model-deployment resource, the
capability-type default-model resource in src/unnamed/part_012,
resource_collection.go, resource_document.go). -/

/-- Client `Project` (project_types.go). -/
structure Project where
  id : String
  name : String
  description : Option String
  isPublic : Bool
  createdBy : String
  updatedBy : Option String
  createdAt : String
  updatedAt : Option String
  owner : String
  collectionCount : Int
  capabilityCount : Int
deriving DecidableEq

/-- Client `ProjectCreate` (project_types.go): `Name` is a plain
string, the optional fields are pointers. -/
structure ProjectCreate where
  name : String
  description : Option String
  isPublic : Option Bool
deriving DecidableEq

/-- Client `ProjectUpdate` as `ProjectResource.Update` uses it: every
field is assigned through a pointer and omitted when unchanged.  (The
struct in project_types.go lags behind this use, declaring `Name
string` and `IsPublic bool`; the embedding follows the resource
code\x27s field assignments.) -/
structure ProjectUpdate where
  name : Option String
  description : Option String
  isPublic : Option Bool
deriving DecidableEq

/-- Terraform `ProjectResourceModel` (resource_project.go lines 38-50). -/
structure ProjectResourceModel where
  id : TFVal String
  name : TFVal String
  description : TFVal String
  isPublic : TFVal Bool
  createdBy : TFVal String
  updatedBy : TFVal String
  createdAt : TFVal String
  updatedAt : TFVal String
  owner : TFVal String
  collectionCount : TFVal Int
  capabilityCount : TFVal Int
deriving DecidableEq

/-- Go `mapProjectToModel` (resource_project.go lines 53-77): every
field is overwritten from the API response; the nullable pointer
fields become null when nil. -/
def mapProjectToModel (project : Project) (model : ProjectResourceModel) :
    ProjectResourceModel :=
  { model with
    id := .value project.id
    name := .value project.name
    description := tfOfOption project.description
    isPublic := .value project.isPublic
    createdBy := .value project.createdBy
    updatedBy := tfOfOption project.updatedBy
    createdAt := .value project.createdAt
    updatedAt := tfOfOption project.updatedAt
    owner := .value project.owner
    collectionCount := .value project.collectionCount
    capabilityCount := .value project.capabilityCount }

/-- Client `ChatCapabilityCreate` (capability_types.go). -/
structure ChatCapabilityCreate where
  name : String
  isPublic : Option Bool
  type : String
  modelID : Option String
  config : Option CapabilityConfig
  projectID : Option String
  systemPrompt : String
deriving DecidableEq

/-- Client `ChatCapabilityUpdate` (capability_types.go): every field a
pointer with omitempty. -/
structure ChatCapabilityUpdate where
  name : Option String
  isPublic : Option Bool
  type : Option String
  modelID : Option String
  config : Option CapabilityConfig
  projectID : Option String
  systemPrompt : Option String
deriving DecidableEq

/-- Terraform `ChatCapabilityResourceModel` (src/unnamed/part_009). -/
structure ChatCapabilityResourceModel where
  id : TFVal String
  name : TFVal String
  isPublic : TFVal Bool
  modelID : TFVal String
  config : TFVal CapabilityConfigModel
  projectID : TFVal String
  systemPrompt : TFVal String
  createdBy : TFVal String
  updatedBy : TFVal String
  createdAt : TFVal String
  updatedAt : TFVal String
  archivedAt : TFVal String
  owner : TFVal String
  type : TFVal String
deriving DecidableEq

/-- Go `mapAPICapabilityToChatModel` (src/unnamed/part_009 lines
1083-1131): `system_prompt` is read out of the `configuration` map and
becomes unknown when absent or not a string; an empty `UpdatedBy`
string becomes null. -/
def mapAPICapabilityToChatModel (apiCap : CapabilityRepresentation)
    (model : ChatCapabilityResourceModel) : ChatCapabilityResourceModel :=
  { model with
    id := .value apiCap.id
    name := .value apiCap.name
    isPublic := .value (apiCap.isPublic = some true)
    type := .value apiCap.type
    modelID := tfOfOption apiCap.modelID
    projectID := tfOfOption apiCap.projectID
    systemPrompt :=
      match apiCap.configuration with
      | some cfg =>
        match goMapLookup cfg "system_prompt" with
        | some (.strv s) => .value s
        | _ => .unknown
      | none => .unknown
    config := capabilityConfigAPItoModel apiCap.config
    createdBy := .value apiCap.createdBy
    owner := .value apiCap.owner
    createdAt := .value apiCap.createdAt
    updatedAt := .value apiCap.updatedAt
    updatedBy := if apiCap.updatedBy ≠ "" then .value apiCap.updatedBy else .null
    archivedAt := tfOfOption apiCap.archivedAt }

/-- Client `ModelDeployment` (src/unnamed/part_004). -/
structure ModelDeployment where
  name : String
  description : Option String
  supportedTasks : List String
  configuration : List (String × String)
  isActive : Option Bool
  providerID : String
  id : String
  createdAt : String
  updatedAt : Option String
  createdBy : String
  updatedBy : Option String
deriving DecidableEq

/-- Client `ModelDeploymentCreate` (src/unnamed/part_004). -/
structure ModelDeploymentCreate where
  name : String
  description : Option String
  supportedTasks : List String
  configuration : List (String × String)
  isActive : Option Bool
  providerID : String
deriving DecidableEq

/-- Client `ModelDeploymentUpdate` (src/unnamed/part_004): every field
optional; a nil slice or map is omitted. -/
structure ModelDeploymentUpdate where
  name : Option String
  description : Option String
  supportedTasks : Option (List String)
  configuration : Option (List (String × String))
  isActive : Option Bool
  providerID : Option String
deriving DecidableEq

/-- Terraform `ModelDeploymentResourceModel` (the model-deployment
resource, lines 202-214 of its file). -/
structure ModelDeploymentResourceModel where
  id : TFVal String
  name : TFVal String
  description : TFVal String
  supportedTasks : TFVal (List String)
  configuration : TFVal (List (String × String))
  isActive : TFVal Bool
  providerID : TFVal String
  createdAt : TFVal String
  updatedAt : TFVal String
  createdBy : TFVal String
  updatedBy : TFVal String
deriving DecidableEq

/-- Go `modelDeploymentResourceModelToAPICreate`: `ElementsAs` on a
null or unknown `supported_tasks` or `configuration` adds an error
diagnostic and the helper returns an error, modelled as `none`. -/
def modelDeploymentToAPICreate (plan : ModelDeploymentResourceModel) :
    Option ModelDeploymentCreate :=
  match plan.supportedTasks, plan.configuration with
  | .value tasks, .value conf =>
    some { name := plan.name.getD ""
           providerID := plan.providerID.getD ""
           description :=
             if plan.description.isKnown = true then some (plan.description.getD "")
             else none
           isActive :=
             if plan.isActive.isKnown = true then some (plan.isActive.getD false)
             else none
           supportedTasks := tasks
           configuration := conf }
  | _, _ => none

/-- Go `modelDeploymentResourceModelToAPIUpdate`: diff-based payload
plus the `updateNeeded` flag.  A null plan description clears with an
empty string only when the state had one; a changed `provider_id` only
adds a warning and is ignored; a changed but unconvertible list or map
errors (`none`). -/
def modelDeploymentToAPIUpdate (plan state : ModelDeploymentResourceModel) :
    Option (ModelDeploymentUpdate × Bool) :=
  let namePair : Option String × Bool :=
    if plan.name ≠ state.name then (some (plan.name.getD ""), true)
    else (none, false)
  let descPair : Option String × Bool :=
    if plan.description ≠ state.description then
      if plan.description = .null then
        if state.description ≠ .null then (some "", true) else (none, false)
      else (some (plan.description.getD ""), true)
    else (none, false)
  let activePair : Option Bool × Bool :=
    if plan.isActive ≠ state.isActive then (some (plan.isActive.getD false), true)
    else (none, false)
  match (if plan.supportedTasks ≠ state.supportedTasks then
           match plan.supportedTasks with
           | .value tasks => some (some tasks, true)
           | _ => none
         else some (none, false)),
        (if plan.configuration ≠ state.configuration then
           match plan.configuration with
           | .value conf => some (some conf, true)
           | _ => none
         else some (none, false)) with
  | some (tasksField, tasksNeeded), some (confField, confNeeded) =>
    some ({ name := namePair.1
            description := descPair.1
            isActive := activePair.1
            providerID := none
            supportedTasks := tasksField
            configuration := confField },
          (namePair.2 || descPair.2 || activePair.2 || tasksNeeded || confNeeded))
  | _, _ => none

/-- Go `mapAPIModelDeploymentToResourceModel`: a nil `IsActive`
defaults to true; nullable audit fields become null. -/
def mapAPIModelDeploymentToResourceModel (apiDeployment : ModelDeployment)
    (model : ModelDeploymentResourceModel) : ModelDeploymentResourceModel :=
  { model with
    id := .value apiDeployment.id
    name := .value apiDeployment.name
    providerID := .value apiDeployment.providerID
    description := tfOfOption apiDeployment.description
    isActive := .value (apiDeployment.isActive.getD true)
    supportedTasks := .value apiDeployment.supportedTasks
    configuration := .value apiDeployment.configuration
    createdAt := .value apiDeployment.createdAt
    createdBy := .value apiDeployment.createdBy
    updatedAt := tfOfOption apiDeployment.updatedAt
    updatedBy := tfOfOption apiDeployment.updatedBy }

/-- Client `DefaultModelDeploymentUpdate` (capability_types.go): a
plain string, not a pointer. -/
structure DefaultModelDeploymentUpdate where
  defaultModelDeploymentID : String
deriving DecidableEq

/-- Client `CapabilityTypeRepresentation` (capability_types.go). -/
structure CapabilityTypeRepresentation where
  id : String
  name : String
  defaultModelDeploymentID : Option String
deriving DecidableEq

/-- Terraform `CapabilityTypeDefaultModelResourceModel`
(src/unnamed/part_012 lines 298-303): `capability_type` doubles as the
resource id. -/
structure CapabilityTypeDefaultModelResourceModel where
  capabilityType : TFVal String
  defaultModelDeploymentID : TFVal String
  name : TFVal String
deriving DecidableEq

/-- Client `Collection` (model_provider_types.go, collection section). -/
structure Collection where
  id : String
  name : String
  description : Option String
  projectID : String
  embeddingsModelID : Option String
  metadataSchema : Option (List (String × String))
  createdBy : String
  updatedBy : Option String
  createdAt : String
  updatedAt : Option String
  documentCount : Int
  sizeBytes : Int
  status : String
deriving DecidableEq

/-- Client `CollectionCreate`. -/
structure CollectionCreate where
  name : String
  description : Option String
  projectID : String
  embeddingsModelID : Option String
  metadataSchema : Option (List (String × String))
deriving DecidableEq

/-- Client `CollectionUpdate`: `MetadataSchema` is a pointer to a map
that may itself be nil, hence the nested option. -/
structure CollectionUpdate where
  name : Option String
  description : Option String
  embeddingsModelID : Option String
  metadataSchema : Option (Option (List (String × String)))
deriving DecidableEq

/-- Terraform `CollectionResourceModel` (resource_collection.go lines
38-52). -/
structure CollectionResourceModel where
  id : TFVal String
  name : TFVal String
  description : TFVal String
  projectID : TFVal String
  embeddingsModelID : TFVal String
  metadataSchema : TFVal (List (String × String))
  createdBy : TFVal String
  updatedBy : TFVal String
  createdAt : TFVal String
  updatedAt : TFVal String
  documentCount : TFVal Int
  sizeBytes : TFVal Int
  status : TFVal String
deriving DecidableEq

/-- Go `mapCollectionToModel` (resource_collection.go lines 55-103): a
nil `MetadataSchema` becomes a null map. -/
def mapCollectionToModel (collection : Collection)
    (model : CollectionResourceModel) : CollectionResourceModel :=
  { model with
    id := .value collection.id
    name := .value collection.name
    description := tfOfOption collection.description
    projectID := .value collection.projectID
    embeddingsModelID := tfOfOption collection.embeddingsModelID
    metadataSchema :=
      match collection.metadataSchema with
      | some m => .value m
      | none => .null
    createdBy := .value collection.createdBy
    updatedBy := tfOfOption collection.updatedBy
    createdAt := .value collection.createdAt
    updatedAt := tfOfOption collection.updatedAt
    documentCount := .value collection.documentCount
    sizeBytes := .value collection.sizeBytes
    status := .value collection.status }

/-- Client `Document` (document_types.go): `Content` is an arbitrary
decoded JSON value, `JsonContent` and `Metadata` possibly-nil maps. -/
structure Document where
  id : String
  collectionID : String
  content : Option GoVal
  textContent : Option String
  jsonContent : Option (List (String × GoVal))
  metadata : Option (List (String × GoVal))
  tokenCount : Int
  chunkCount : Int
  embeddingsStatus : String
  createdBy : String
  updatedBy : Option String
  createdAt : String
  updatedAt : Option String
deriving DecidableEq

/-- Client `DocumentUpdate` (document_types.go). -/
structure DocumentUpdate where
  textContent : Option String
  jsonContent : Option (List (String × GoVal))
  metadata : Option (List (String × GoVal))
deriving DecidableEq

/-- Terraform `DocumentResourceModel` (resource_document.go lines
41-55): `json_content` and `content` are JSON-string attributes,
`metadata` a map of dynamic values. -/
structure DocumentResourceModel where
  id : TFVal String
  collectionID : TFVal String
  textContent : TFVal String
  jsonContent : TFVal String
  metadata : TFVal (List (String × GoVal))
  content : TFVal String
  tokenCount : TFVal Int
  chunkCount : TFVal Int
  embeddingsStatus : TFVal String
  createdBy : TFVal String
  updatedBy : TFVal String
  createdAt : TFVal String
  updatedAt : TFVal String
deriving DecidableEq

mutual

/-- Recursively bring every object\x27s members into Go\x27s marshal
order (sorted keys, later duplicates winning), as `json.Marshal` emits
maps; values decoded by this file\x27s own parser are already in this
form. -/
def GoVal.sortKeys : GoVal → GoVal
  | .mapv m => .mapv (goMapOfPairs (GoVal.sortKeysMembers m))
  | .listv l => .listv (GoVal.sortKeysList l)
  | v => v

/-- `GoVal.sortKeys` over the elements of an array. -/
def GoVal.sortKeysList : List GoVal → List GoVal
  | [] => []
  | v :: vs => GoVal.sortKeys v :: GoVal.sortKeysList vs

/-- `GoVal.sortKeys` over the values of an object\x27s member list. -/
def GoVal.sortKeysMembers : List (String × GoVal) → List (String × GoVal)
  | [] => []
  | (k, v) :: ms => (k, GoVal.sortKeys v) :: GoVal.sortKeysMembers ms

end

/-- Go `json.Marshal` of a decoded `interface\x7b\x7d` value, with map
keys sorted at every level. -/
def goMarshalValue (v : GoVal) : String :=
  String.mk (goMarshalVal (GoVal.sortKeys v))

/-- Go `mapDocumentToModel` (resource_document.go lines 58-117): the
`JsonContent` map and `Content` value are re-marshalled to JSON strings
(marshalling a decoded value cannot fail, so the error returns are
unreachable in this embedding). -/
def mapDocumentToModel (doc : Document) (model : DocumentResourceModel) :
    DocumentResourceModel :=
  { model with
    id := .value doc.id
    collectionID := .value doc.collectionID
    textContent := tfOfOption doc.textContent
    jsonContent :=
      match doc.jsonContent with
      | some jm => .value (goMarshalValue (.mapv jm))
      | none => .null
    content :=
      match doc.content with
      | some c => .value (goMarshalValue c)
      | none => .null
    metadata :=
      match doc.metadata with
      | some m => .value m
      | none => .null
    tokenCount := .value doc.tokenCount
    chunkCount := .value doc.chunkCount
    embeddingsStatus := .value doc.embeddingsStatus
    createdBy := .value doc.createdBy
    createdAt := .value doc.createdAt
    updatedBy := tfOfOption doc.updatedBy
    updatedAt := tfOfOption doc.updatedAt }

/-- Go `modelMetadataToApi` (resource_document.go lines 240-276): a
null or unknown map becomes a nil map; otherwise each element converts
to its Go value (in the typed embedding the per-key conversion cannot
fail). -/
def modelMetadataToApi (modelMetadata : TFVal (List (String × GoVal))) :
    Option (List (String × GoVal)) :=
  match modelMetadata with
  | .value elems => some elems
  | _ => none

/-- One HTTP call to the Corax API, with its payload where one is sent. -/
inductive ApiCall where
  | getModelProvider (id : String)
  | createModelProvider (payload : ModelProviderCreate)
  | updateModelProvider (id : String) (payload : ModelProviderUpdate)
  | deleteModelProvider (id : String)
  | getEmbeddingsModel (id : String)
  | createEmbeddingsModel (payload : EmbeddingsModelCreate)
  | updateEmbeddingsModel (id : String) (payload : EmbeddingsModelUpdate)
  | deleteEmbeddingsModel (id : String)
  | getCapability (id : String)
  | createCapability (payload : CompletionCapabilityCreate)
  | updateCapability (id : String) (payload : CompletionCapabilityUpdate)
  | deleteCapability (id : String)
  | getProject (id : String)
  | createProject (payload : ProjectCreate)
  | updateProject (id : String) (payload : ProjectUpdate)
  | deleteProject (id : String)
  | createChatCapability (payload : ChatCapabilityCreate)
  | updateChatCapability (id : String) (payload : ChatCapabilityUpdate)
  | getModelDeployment (id : String)
  | createModelDeployment (payload : ModelDeploymentCreate)
  | updateModelDeployment (id : String) (payload : ModelDeploymentUpdate)
  | deleteModelDeployment (id : String)
  | getCapabilityType (capabilityType : String)
  | setCapabilityTypeDefaultModel (capabilityType : String)
      (payload : DefaultModelDeploymentUpdate)
  | getCollection (id : String)
  | createCollection (payload : CollectionCreate)
  | updateCollection (id : String) (payload : CollectionUpdate)
  | deleteCollection (id : String)
  | getDocument (collectionID : String) (docID : String)
  | upsertDocument (collectionID : String) (docID : String)
      (payload : DocumentUpdate)
  | deleteDocument (collectionID : String) (docID : String)
deriving DecidableEq

/-- Outcome of a Read: the state afterwards (`none` when the resource
was removed from state) and whether an error diagnostic was added. -/
structure ReadResult (σ : Type) where
  stateAfter : Option σ
  errored : Bool
deriving DecidableEq

/-- Outcome of a Create: the state set (if any) and the diagnostics
added, each a (summary, detail) pair. -/
structure CreateResult (σ : Type) where
  stateSet : Option σ
  diags : List (String × String)
deriving DecidableEq

/-- Outcome of an Update. -/
structure UpdateResult (σ : Type) where
  stateSet : Option σ
  errored : Bool
deriving DecidableEq

/-- Outcome of a Delete: whether the resource ended up removed and
whether an error diagnostic was added. -/
structure DeleteResult where
  removed : Bool
  errored : Bool
deriving DecidableEq, Repr

/-- Go `mapAPIModelProviderToResourceModel`
(resource_model_provider.go lines 151-173): every field, including the
whole `configuration` map, is overwritten from the API response. -/
def mapAPIModelProviderToResourceModel (api : ModelProvider)
    (model : ModelProviderResourceModel) : ModelProviderResourceModel :=
  { model with
    id := .value api.id
    name := .value api.name
    providerType := .value api.providerType
    configuration := .value api.configuration
    createdAt := .value api.createdAt
    createdBy := .value api.createdBy
    updatedAt := tfOfOption api.updatedAt
    updatedBy := tfOfOption api.updatedBy }

/-- Go `ModelProviderResource.Create` (resource_model_provider.go lines
175-204). -/
def modelProviderCreate (plan : ModelProviderResourceModel)
    (resp : Except ClientErr ModelProvider) :
    CreateResult ModelProviderResourceModel × List ApiCall :=
  let payload : ModelProviderCreate :=
    { name := plan.name.getD ""
      providerType := plan.providerType.getD ""
      configuration := plan.configuration.getD [] }
  (match resp with
   | .error _ =>
     { stateSet := none,
       diags := [("Client Error", "Unable to create model provider")] }
   | .ok created =>
     { stateSet := some (mapAPIModelProviderToResourceModel created plan),
       diags := [] },
   [.createModelProvider payload])

/-- Go `ModelProviderResource.Read` (resource_model_provider.go lines
206-234): `ErrNotFound` removes the resource from state without a
diagnostic; any other error adds a diagnostic and leaves the state. -/
def modelProviderRead (state : ModelProviderResourceModel)
    (resp : Except ClientErr ModelProvider) :
    ReadResult ModelProviderResourceModel × List ApiCall :=
  (match resp with
   | .error .notFound => { stateAfter := none, errored := false }
   | .error _ => { stateAfter := some state, errored := true }
   | .ok api =>
     { stateAfter := some (mapAPIModelProviderToResourceModel api state),
       errored := false },
   [.getModelProvider (state.id.getD "")])

/-- Go `ModelProviderResource.Update` (resource_model_provider.go lines
236-269): a full-replacement payload from the plan, one PUT call. -/
def modelProviderUpdate (plan : ModelProviderResourceModel)
    (resp : Except ClientErr ModelProvider) :
    UpdateResult ModelProviderResourceModel × List ApiCall :=
  let payload : ModelProviderUpdate :=
    { name := plan.name.getD ""
      providerType := plan.providerType.getD ""
      configuration := plan.configuration.getD [] }
  (match resp with
   | .error _ => { stateSet := none, errored := true }
   | .ok updated =>
     { stateSet := some (mapAPIModelProviderToResourceModel updated plan),
       errored := false },
   [.updateModelProvider (plan.id.getD "") payload])

/-- Go `ModelProviderResource.Delete` (resource_model_provider.go lines
271-293). -/
def modelProviderDelete (state : ModelProviderResourceModel)
    (resp : Except ClientErr Unit) : DeleteResult × List ApiCall :=
  (match resp with
   | .error .notFound => { removed := true, errored := false }
   | .error _ => { removed := false, errored := true }
   | .ok _ => { removed := true, errored := false },
   [.deleteModelProvider (state.id.getD "")])

/-- Go `mapEmbeddingsModelToModel` (resource_embeddings_model.go lines
58-126): note the `api_key` handling — a non-nil API value is taken
over; a nil one leaves the model's value untouched unless it was
unknown, which becomes null. -/
def mapEmbeddingsModelToModel (modelAPI : EmbeddingsModel)
    (modelTF : EmbeddingsModelResourceModel) : EmbeddingsModelResourceModel :=
  { id := .value modelAPI.id
    name := .value modelAPI.name
    description := tfOfOption modelAPI.description
    modelProvider := .value modelAPI.modelProvider
    modelNameOnProvider := .value modelAPI.modelNameOnProvider
    dimensions := .value modelAPI.dimensions
    maxTokens := tfOfOption modelAPI.maxTokens
    apiKey :=
      match modelAPI.apiKey with
      | some k => .value k
      | none =>
        match modelTF.apiKey with
        | .unknown => .null
        | other => other
    apiBaseUrl := tfOfOption modelAPI.apiBaseUrl
    status := .value modelAPI.status
    isDefault := .value modelAPI.isDefault
    createdBy := .value modelAPI.createdBy
    createdAt := .value modelAPI.createdAt
    updatedBy := tfOfOption modelAPI.updatedBy
    updatedAt := tfOfOption modelAPI.updatedAt }

/-- Go `EmbeddingsModelResource.Create` (resource_embeddings_model.go
lines 259-317): after mapping the response, the plan's `api_key` is
restored only when the API returned none. -/
def embeddingsModelCreate (data : EmbeddingsModelResourceModel)
    (resp : Except ClientErr EmbeddingsModel) :
    CreateResult EmbeddingsModelResourceModel × List ApiCall :=
  let payload : EmbeddingsModelCreate :=
    { name := data.name.getD ""
      modelProvider := data.modelProvider.getD ""
      modelNameOnProvider := data.modelNameOnProvider.getD ""
      dimensions := data.dimensions.getD 0
      description := match data.description with | .value v => some v | _ => none
      maxTokens := match data.maxTokens with | .value v => some v | _ => none
      apiKey := match data.apiKey with | .value v => some v | _ => none
      apiBaseUrl := match data.apiBaseUrl with | .value v => some v | _ => none }
  (match resp with
   | .error _ =>
     { stateSet := none,
       diags := [("Client Error", "Unable to create embeddings model")] }
   | .ok createdModel =>
     let currentApiKey := data.apiKey
     let mapped := mapEmbeddingsModelToModel createdModel data
     let final :=
       if createdModel.apiKey = none ∧ currentApiKey.isKnown = true then
         { mapped with apiKey := currentApiKey }
       else mapped
     { stateSet := some final, diags := [] },
   [.createEmbeddingsModel payload])

/-- Go `EmbeddingsModelResource.Read` (resource_embeddings_model.go
lines 319-363): not-found removes from state; otherwise the `api_key`
in the new state is the API's value when returned, the prior state's
value when the API returns none and the prior value was known, and null
otherwise. -/
def embeddingsModelRead (state : EmbeddingsModelResourceModel)
    (resp : Except ClientErr EmbeddingsModel) :
    ReadResult EmbeddingsModelResourceModel × List ApiCall :=
  (match resp with
   | .error .notFound => { stateAfter := none, errored := false }
   | .error _ => { stateAfter := some state, errored := true }
   | .ok modelAPI =>
     let currentApiKeyInState := state.apiKey
     let mapped := mapEmbeddingsModelToModel modelAPI state
     let final :=
       if modelAPI.apiKey = none ∧ currentApiKeyInState.isKnown = true then
         { mapped with apiKey := currentApiKeyInState }
       else
         match modelAPI.apiKey with
         | some k => { mapped with apiKey := .value k }
         | none => { mapped with apiKey := .null }
     { stateAfter := some final, errored := false },
   [.getEmbeddingsModel (state.id.getD "")])

/-- Go `EmbeddingsModelResource.Update` (resource_embeddings_model.go
lines 365-455), payload portion: only `name`, `description`, `api_key`,
`api_base_url` participate in the diff. -/
def embeddingsUpdatePayload (plan state : EmbeddingsModelResourceModel) :
    EmbeddingsModelUpdate :=
  { name := if plan.name ≠ state.name then some (plan.name.getD "") else none
    description :=
      if plan.description ≠ state.description then
        if plan.description = .null then some "" else some (plan.description.getD "")
      else none
    apiKey :=
      if plan.apiKey ≠ state.apiKey then
        if plan.apiKey.isKnown = true then some (plan.apiKey.getD "") else none
      else none
    apiBaseUrl :=
      if plan.apiBaseUrl ≠ state.apiBaseUrl then
        if plan.apiBaseUrl.isKnown = true then some (plan.apiBaseUrl.getD "") else none
      else none }

/-- Go `EmbeddingsModelResource.Update`, continued: the no-change path
sets the state from the plan and issues no call. -/
def embeddingsModelUpdate (plan state : EmbeddingsModelResourceModel)
    (resp : Except ClientErr EmbeddingsModel) :
    UpdateResult EmbeddingsModelResourceModel × List ApiCall :=
  if ¬ (plan.name ≠ state.name ∨ plan.description ≠ state.description ∨
        plan.apiKey ≠ state.apiKey ∨ plan.apiBaseUrl ≠ state.apiBaseUrl) then
    ({ stateSet := some plan, errored := false }, [])
  else
    (match resp with
     | .error _ => { stateSet := none, errored := true }
     | .ok updatedModel =>
       let currentApiKeyInPlan := plan.apiKey
       let mapped := mapEmbeddingsModelToModel updatedModel plan
       let final :=
         if updatedModel.apiKey = none ∧ currentApiKeyInPlan.isKnown = true then
           { mapped with apiKey := currentApiKeyInPlan }
         else mapped
       { stateSet := some final, errored := false },
     [.updateEmbeddingsModel (state.id.getD "") (embeddingsUpdatePayload plan state)])

/-- Go `EmbeddingsModelResource.Delete` (resource_embeddings_model.go
lines 457-479). -/
def embeddingsModelDelete (data : EmbeddingsModelResourceModel)
    (resp : Except ClientErr Unit) : DeleteResult × List ApiCall :=
  (match resp with
   | .error .notFound => { removed := true, errored := false }
   | .error _ => { removed := false, errored := true }
   | .ok _ => { removed := true, errored := false },
   [.deleteEmbeddingsModel (data.id.getD "")])

/-- Go `schemaDefMapToAPI` (src/unnamed/part_009 lines 218-270): a null
or unknown dynamic (or string underneath) contributes no schema; a JSON
string must unmarshal into a map (a `null` document leaves the nil
map); an HCL object converts to the corresponding Go map. -/
def schemaDefMapToAPI (schemaDef : DynVal) :
    Except (String × String) (Option (List (String × GoVal))) :=
  match schemaDef with
  | .dnull => .ok none
  | .dunknown => .ok none
  | .dval u =>
    match u with
    | .ustr sv =>
      match sv with
      | .null => .ok none
      | .unknown => .ok none
      | .value s =>
        match goUnmarshalMap s with
        | none => .error ("SchemaDef JSON String Error",
            "schema_def was provided as a string, but it is not valid JSON for a map")
        | some m => .ok m
    | .uobj m => .ok (some m)

/-- Go `schemaDefAPIToMap` (src/unnamed/part_009 lines 272-287): a nil
map becomes a null dynamic; otherwise the map is marshalled to a JSON
string carried as the dynamic's underlying string value. -/
def schemaDefAPIToMap (apiSchemaDef : Option (List (String × GoVal))) : DynVal :=
  match apiSchemaDef with
  | none => .dnull
  | some m => .dval (.ustr (.value (goMarshalMapTop (some m))))

/-- Go `mapAPICompletionCapabilityToModel` (src/unnamed/part_009 lines
289-444). -/
def mapAPICompletionCapabilityToModel (apiCap : CapabilityRepresentation)
    (model : CompletionCapabilityResourceModel) :
    CompletionCapabilityResourceModel :=
  { model with
    id := .value apiCap.id
    name := .value apiCap.name
    isPublic := .value (apiCap.isPublic = some true)
    type := .value apiCap.type
    modelID := tfOfOption apiCap.modelID
    projectID := tfOfOption apiCap.projectID
    systemPrompt :=
      match apiCap.configuration with
      | some cfg =>
        match goMapLookup cfg "system_prompt" with
        | some (.strv s) => .value s
        | _ => .unknown
      | none => .unknown
    completionPrompt :=
      match apiCap.configuration with
      | some cfg =>
        match goMapLookup cfg "completion_prompt" with
        | some (.strv s) => .value s
        | _ => .unknown
      | none => .unknown
    outputType :=
      match apiCap.output with
      | some out =>
        match goMapLookup out "type" with
        | some (.strv s) => .value s
        | _ => .unknown
      | none => .unknown
    schemaDef :=
      match apiCap.output with
      | some out =>
        match goMapLookup out "result" with
        | some (.mapv m) => schemaDefAPIToMap (some m)
        | _ => .dnull
      | none => .dnull
    variables' := variablesFromInput apiCap.input
    config := capabilityConfigAPItoModel apiCap.config
    createdBy := .value apiCap.createdBy
    owner := .value apiCap.owner
    createdAt := .value apiCap.createdAt
    updatedAt := .value apiCap.updatedAt
    updatedBy := if apiCap.updatedBy ≠ "" then .value apiCap.updatedBy else .null
    archivedAt := tfOfOption apiCap.archivedAt }

/-- Go `CompletionCapabilityResource.Create` (src/unnamed/part_009
lines 458-524, matching resource_completion_capability.go lines
344-401), payload portion. -/
def completionCreatePayload (plan : CompletionCapabilityResourceModel)
    (sd : Option (List (String × GoVal))) : CompletionCapabilityCreate :=
  { name := plan.name.getD ""
    type := "completion"
    systemPrompt := plan.systemPrompt.getD ""
    completionPrompt := plan.completionPrompt.getD ""
    outputType := plan.outputType.getD ""
    isPublic := match plan.isPublic with | .value b => some b | _ => none
    modelID := match plan.modelID with | .value v => some v | _ => none
    projectID := match plan.projectID with | .value v => some v | _ => none
    variables' := match plan.variables' with | .value l => some l | _ => none
    schemaDef := sd
    config := capabilityConfigModelToAPI plan.config }

/-- The Create outcome once the client call is reached: a client error
adds a diagnostic, a success maps the created capability into state. -/
def completionCreateOutcome (plan : CompletionCapabilityResourceModel)
    (resp : Except ClientErr CapabilityRepresentation) :
    CreateResult CompletionCapabilityResourceModel :=
  match resp with
  | .error _ =>
    { stateSet := none,
      diags := [("Client Error", "Unable to create completion capability")] }
  | .ok createdAPICap =>
    { stateSet := some (mapAPICompletionCapabilityToModel createdAPICap plan),
      diags := [] }

/-- Go `CompletionCapabilityResource.Create`, control flow: with
`output_type == "schema"` and a null or unknown `schema_def`, the
validation error is added before any client call. -/
def completionCapabilityCreate (plan : CompletionCapabilityResourceModel)
    (resp : Except ClientErr CapabilityRepresentation) :
    CreateResult CompletionCapabilityResourceModel × List ApiCall :=
  if plan.outputType.getD "" = "schema" then
    if plan.schemaDef.isNullOrUnknown = true then
      ({ stateSet := none,
         diags := [("Validation Error",
           "schema_def is required when output_type is \x27schema\x27")] }, [])
    else
      match schemaDefMapToAPI plan.schemaDef with
      | .error d => ({ stateSet := none, diags := [d] }, [])
      | .ok sd =>
        (completionCreateOutcome plan resp,
         [.createCapability (completionCreatePayload plan sd)])
  else
    (completionCreateOutcome plan resp,
     [.createCapability (completionCreatePayload plan none)])

/-- Go `CompletionCapabilityResource.Read` (src/unnamed/part_009 lines
526-560, matching resource_completion_capability.go lines 403-433):
not-found removes from state with no diagnostic; a type mismatch adds a
diagnostic and removes; other errors add a diagnostic and leave the
state. -/
def completionCapabilityRead (state : CompletionCapabilityResourceModel)
    (resp : Except ClientErr CapabilityRepresentation) :
    ReadResult CompletionCapabilityResourceModel × List ApiCall :=
  (match resp with
   | .error .notFound => { stateAfter := none, errored := false }
   | .error _ => { stateAfter := some state, errored := true }
   | .ok apiCap =>
     if apiCap.type ≠ "completion" then { stateAfter := none, errored := true }
     else
       { stateAfter := some (mapAPICompletionCapabilityToModel apiCap state),
         errored := false },
   [.getCapability (state.id.getD "")])

/-- Go `CompletionCapabilityResource.Update` (src/unnamed/part_009
lines 562-659), the `setStringPtr` helper: a changed field is sent (as
nil when the plan value is null), an unchanged one omitted. -/
def setStringPtr (current new : TFVal String) : Option String :=
  if new ≠ current then
    if new = .null then none else some (new.getD "")
  else none

/-- The PUT payload of a completion-capability Update: only fields that
differ from the prior state are included. -/
def completionUpdatePayload (plan state : CompletionCapabilityResourceModel)
    (sd : Option (List (String × GoVal))) : CompletionCapabilityUpdate :=
  { name := setStringPtr state.name plan.name
    isPublic :=
      if plan.isPublic ≠ state.isPublic then
        if plan.isPublic = .null then none
        else some (plan.isPublic.getD false)
      else none
    modelID := setStringPtr state.modelID plan.modelID
    projectID := setStringPtr state.projectID plan.projectID
    systemPrompt := setStringPtr state.systemPrompt plan.systemPrompt
    completionPrompt := setStringPtr state.completionPrompt plan.completionPrompt
    outputType := setStringPtr state.outputType plan.outputType
    variables' :=
      if plan.variables' ≠ state.variables' then
        match plan.variables' with
        | .value l => some l
        | _ => none
      else none
    schemaDef := sd
    config :=
      if plan.config ≠ state.config then capabilityConfigModelToAPI plan.config
      else none }

/-- Go `CompletionCapabilityResource.Update`, control flow: a
`schema_def` conversion error returns before the call; with no change
detected the state is set from the plan and no call is made. -/
def completionCapabilityUpdate (plan state : CompletionCapabilityResourceModel)
    (resp : Except ClientErr CapabilityRepresentation) :
    UpdateResult CompletionCapabilityResourceModel × List ApiCall :=
  match (if plan.schemaDef ≠ state.schemaDef then
           if plan.schemaDef = .dnull then
             (.ok none : Except (String × String) (Option (List (String × GoVal))))
           else schemaDefMapToAPI plan.schemaDef
         else .ok none) with
  | .error _ => ({ stateSet := none, errored := true }, [])
  | .ok sd =>
    if ¬ (plan.name ≠ state.name ∨ plan.isPublic ≠ state.isPublic ∨
          plan.modelID ≠ state.modelID ∨ plan.projectID ≠ state.projectID ∨
          plan.systemPrompt ≠ state.systemPrompt ∨
          plan.completionPrompt ≠ state.completionPrompt ∨
          plan.outputType ≠ state.outputType ∨
          plan.variables' ≠ state.variables' ∨
          plan.schemaDef ≠ state.schemaDef ∨ plan.config ≠ state.config) then
      ({ stateSet := some plan, errored := false }, [])
    else
      (match resp with
       | .error _ => { stateSet := none, errored := true }
       | .ok updatedAPICap =>
         { stateSet := some (mapAPICompletionCapabilityToModel updatedAPICap plan),
           errored := false },
       [.updateCapability (state.id.getD "") (completionUpdatePayload plan state sd)])

/-- Go `CompletionCapabilityResource.Delete` (src/unnamed/part_009
lines 661-682). -/
def completionCapabilityDelete (state : CompletionCapabilityResourceModel)
    (resp : Except ClientErr Unit) : DeleteResult × List ApiCall :=
  (match resp with
   | .error .notFound => { removed := true, errored := false }
   | .error _ => { removed := false, errored := true }
   | .ok _ => { removed := true, errored := false },
   [.deleteCapability (state.id.getD "")])

/-- Go `ProjectResource.Create` (resource_project.go lines 158-188):
one POST; optional fields enter the payload only when known. -/
def projectCreate (data : ProjectResourceModel)
    (resp : Except ClientErr Project) :
    CreateResult ProjectResourceModel × List ApiCall :=
  (match resp with
   | .error _ =>
     { stateSet := none, diags := [("Client Error", "Unable to create project")] }
   | .ok createdProject =>
     { stateSet := some (mapProjectToModel createdProject data), diags := [] },
   [.createProject
     { name := data.name.getD ""
       description :=
         if data.description.isKnown = true then some (data.description.getD "")
         else none
       isPublic :=
         if data.isPublic.isKnown = true then some (data.isPublic.getD false)
         else none }])

/-- Go `ProjectResource.Read` (resource_project.go lines 190-214):
not-found removes from state without a diagnostic; any other error adds
one and keeps the state. -/
def projectRead (data : ProjectResourceModel)
    (resp : Except ClientErr Project) :
    ReadResult ProjectResourceModel × List ApiCall :=
  (match resp with
   | .error .notFound => { stateAfter := none, errored := false }
   | .error _ => { stateAfter := some data, errored := true }
   | .ok project =>
     { stateAfter := some (mapProjectToModel project data), errored := false },
   [.getProject (data.id.getD "")])

/-- The PUT payload of `ProjectResource.Update` (resource_project.go
lines 232-260): only changed fields are included; an unknown changed
`is_public` is left out. -/
def projectUpdatePayload (plan state : ProjectResourceModel) : ProjectUpdate :=
  { name := if plan.name ≠ state.name then some (plan.name.getD "") else none
    description :=
      if plan.description ≠ state.description then
        if plan.description = .null then
          if ¬ (plan.description = .unknown) then some (plan.description.getD "")
          else none
        else some (plan.description.getD "")
      else none
    isPublic :=
      if plan.isPublic ≠ state.isPublic then
        if ¬ (plan.isPublic = .unknown) then some (plan.isPublic.getD false)
        else none
      else none }

/-- Go `ProjectResource.Update` (resource_project.go lines 216-282):
the no-change early return is commented out in the source, so the PUT
is issued unconditionally. -/
def projectUpdate (plan state : ProjectResourceModel)
    (resp : Except ClientErr Project) :
    UpdateResult ProjectResourceModel × List ApiCall :=
  (match resp with
   | .error _ => { stateSet := none, errored := true }
   | .ok updatedProject =>
     { stateSet := some (mapProjectToModel updatedProject plan), errored := false },
   [.updateProject (state.id.getD "") (projectUpdatePayload plan state)])

/-- Go `ProjectResource.Delete` (resource_project.go lines 284-306):
not-found counts as already deleted. -/
def projectDelete (data : ProjectResourceModel)
    (resp : Except ClientErr Unit) : DeleteResult × List ApiCall :=
  (match resp with
   | .error .notFound => { removed := true, errored := false }
   | .error _ => { removed := false, errored := true }
   | .ok _ => { removed := true, errored := false },
   [.deleteProject (data.id.getD "")])

/-- Go `ChatCapabilityResource.Create` (src/unnamed/part_009 lines
1134-1175): one POST with type hard-coded to `"chat"`. -/
def chatCapabilityCreate (plan : ChatCapabilityResourceModel)
    (resp : Except ClientErr CapabilityRepresentation) :
    CreateResult ChatCapabilityResourceModel × List ApiCall :=
  (match resp with
   | .error _ =>
     { stateSet := none,
       diags := [("Client Error", "Unable to create chat capability")] }
   | .ok createdAPICap =>
     { stateSet := some (mapAPICapabilityToChatModel createdAPICap plan),
       diags := [] },
   [.createChatCapability
     { name := plan.name.getD ""
       type := "chat"
       systemPrompt := plan.systemPrompt.getD ""
       isPublic :=
         if plan.isPublic.isKnown = true then some (plan.isPublic.getD false)
         else none
       modelID :=
         if plan.modelID.isKnown = true then some (plan.modelID.getD "")
         else none
       projectID :=
         if plan.projectID.isKnown = true then some (plan.projectID.getD "")
         else none
       config := capabilityConfigModelToAPI plan.config }])

/-- Go `ChatCapabilityResource.Read` (src/unnamed/part_009 lines
1177-1216): not-found removes from state silently; a non-`"chat"` type
adds a diagnostic and removes; other errors add one and keep the
state. -/
def chatCapabilityRead (state : ChatCapabilityResourceModel)
    (resp : Except ClientErr CapabilityRepresentation) :
    ReadResult ChatCapabilityResourceModel × List ApiCall :=
  (match resp with
   | .error .notFound => { stateAfter := none, errored := false }
   | .error _ => { stateAfter := some state, errored := true }
   | .ok apiCap =>
     if apiCap.type ≠ "chat" then { stateAfter := none, errored := true }
     else
       { stateAfter := some (mapAPICapabilityToChatModel apiCap state),
         errored := false },
   [.getCapability (state.id.getD "")])

/-- The PUT payload of `ChatCapabilityResource.Update`
(src/unnamed/part_009 lines 1227-1271): `type` is never sent. -/
def chatUpdatePayload (plan state : ChatCapabilityResourceModel) :
    ChatCapabilityUpdate :=
  { name := if plan.name ≠ state.name then some (plan.name.getD "") else none
    isPublic :=
      if plan.isPublic ≠ state.isPublic then some (plan.isPublic.getD false)
      else none
    type := none
    modelID := setStringPtr state.modelID plan.modelID
    projectID := setStringPtr state.projectID plan.projectID
    systemPrompt :=
      if plan.systemPrompt ≠ state.systemPrompt then
        some (plan.systemPrompt.getD "")
      else none
    config :=
      if plan.config ≠ state.config then capabilityConfigModelToAPI plan.config
      else none }

/-- Go `ChatCapabilityResource.Update` (src/unnamed/part_009 lines
1218-1295): with no change detected the state is set from the plan and
no call is made. -/
def chatCapabilityUpdate (plan state : ChatCapabilityResourceModel)
    (resp : Except ClientErr CapabilityRepresentation) :
    UpdateResult ChatCapabilityResourceModel × List ApiCall :=
  if ¬ (plan.name ≠ state.name ∨ plan.isPublic ≠ state.isPublic ∨
        plan.modelID ≠ state.modelID ∨ plan.projectID ≠ state.projectID ∨
        plan.systemPrompt ≠ state.systemPrompt ∨ plan.config ≠ state.config) then
    ({ stateSet := some plan, errored := false }, [])
  else
    (match resp with
     | .error _ => { stateSet := none, errored := true }
     | .ok updatedAPICap =>
       { stateSet := some (mapAPICapabilityToChatModel updatedAPICap plan),
         errored := false },
     [.updateChatCapability (state.id.getD "") (chatUpdatePayload plan state)])

/-- Go `ChatCapabilityResource.Delete` (src/unnamed/part_009 lines
1297-1317). -/
def chatCapabilityDelete (state : ChatCapabilityResourceModel)
    (resp : Except ClientErr Unit) : DeleteResult × List ApiCall :=
  (match resp with
   | .error .notFound => { removed := true, errored := false }
   | .error _ => { removed := false, errored := true }
   | .ok _ => { removed := true, errored := false },
   [.deleteCapability (state.id.getD "")])

/-- Go `ModelDeploymentResource.Create`: a failed payload conversion
returns before the client call. -/
def modelDeploymentCreate (plan : ModelDeploymentResourceModel)
    (resp : Except ClientErr ModelDeployment) :
    CreateResult ModelDeploymentResourceModel × List ApiCall :=
  match modelDeploymentToAPICreate plan with
  | none =>
    ({ stateSet := none,
       diags := [("Value Conversion Error",
         "failed to convert supported_tasks or configuration")] }, [])
  | some payload =>
    (match resp with
     | .error _ =>
       { stateSet := none,
         diags := [("Client Error", "Unable to create model deployment")] }
     | .ok createdDeployment =>
       { stateSet :=
           some (mapAPIModelDeploymentToResourceModel createdDeployment plan),
         diags := [] },
     [.createModelDeployment payload])

/-- Go `ModelDeploymentResource.Read`. -/
def modelDeploymentRead (state : ModelDeploymentResourceModel)
    (resp : Except ClientErr ModelDeployment) :
    ReadResult ModelDeploymentResourceModel × List ApiCall :=
  (match resp with
   | .error .notFound => { stateAfter := none, errored := false }
   | .error _ => { stateAfter := some state, errored := true }
   | .ok apiDeployment =>
     { stateAfter :=
         some (mapAPIModelDeploymentToResourceModel apiDeployment state),
       errored := false },
   [.getModelDeployment (state.id.getD "")])

/-- Go `ModelDeploymentResource.Update`: a conversion error returns
before the call; with `updateNeeded` false the state is set from the
plan and no call is made. -/
def modelDeploymentUpdate (plan state : ModelDeploymentResourceModel)
    (resp : Except ClientErr ModelDeployment) :
    UpdateResult ModelDeploymentResourceModel × List ApiCall :=
  match modelDeploymentToAPIUpdate plan state with
  | none => ({ stateSet := none, errored := true }, [])
  | some (payload, updateNeeded) =>
    if updateNeeded = false then
      ({ stateSet := some plan, errored := false }, [])
    else
      (match resp with
       | .error _ => { stateSet := none, errored := true }
       | .ok updatedDeployment =>
         { stateSet :=
             some (mapAPIModelDeploymentToResourceModel updatedDeployment plan),
           errored := false },
       [.updateModelDeployment (state.id.getD "") payload])

/-- Go `ModelDeploymentResource.Delete`. -/
def modelDeploymentDelete (state : ModelDeploymentResourceModel)
    (resp : Except ClientErr Unit) : DeleteResult × List ApiCall :=
  (match resp with
   | .error .notFound => { removed := true, errored := false }
   | .error _ => { removed := false, errored := true }
   | .ok _ => { removed := true, errored := false },
   [.deleteModelDeployment (state.id.getD "")])

/-- Go `CapabilityTypeDefaultModelResource.Create` (src/unnamed/part_012
lines 347-373): a PUT of the planned deployment id; on success only
`name` is taken from the response. -/
def capabilityTypeDefaultModelCreate
    (plan : CapabilityTypeDefaultModelResourceModel)
    (resp : Except ClientErr CapabilityTypeRepresentation) :
    CreateResult CapabilityTypeDefaultModelResourceModel × List ApiCall :=
  (match resp with
   | .error _ =>
     { stateSet := none,
       diags := [("Client Error", "Unable to set default model")] }
   | .ok apiResp =>
     { stateSet := some { plan with name := .value apiResp.name }, diags := [] },
   [.setCapabilityTypeDefaultModel (plan.capabilityType.getD "")
     { defaultModelDeploymentID := plan.defaultModelDeploymentID.getD "" }])

/-- Go `CapabilityTypeDefaultModelResource.Read` (src/unnamed/part_012
lines 376-406): EVERY client error — including not-found — adds an
error diagnostic and keeps the stored state; there is no
`RemoveResource` branch. -/
def capabilityTypeDefaultModelRead
    (state : CapabilityTypeDefaultModelResourceModel)
    (resp : Except ClientErr CapabilityTypeRepresentation) :
    ReadResult CapabilityTypeDefaultModelResourceModel × List ApiCall :=
  (match resp with
   | .error _ => { stateAfter := some state, errored := true }
   | .ok apiResp =>
     { stateAfter :=
         some { state with
                name := .value apiResp.name
                defaultModelDeploymentID :=
                  tfOfOption apiResp.defaultModelDeploymentID },
       errored := false },
   [.getCapabilityType (state.capabilityType.getD "")])

/-- Go `CapabilityTypeDefaultModelResource.Update` (src/unnamed/part_012
lines 409-434): identical to Create — an unconditional PUT. -/
def capabilityTypeDefaultModelUpdate
    (plan : CapabilityTypeDefaultModelResourceModel)
    (resp : Except ClientErr CapabilityTypeRepresentation) :
    UpdateResult CapabilityTypeDefaultModelResourceModel × List ApiCall :=
  (match resp with
   | .error _ => { stateSet := none, errored := true }
   | .ok apiResp =>
     { stateSet := some { plan with name := .value apiResp.name },
       errored := false },
   [.setCapabilityTypeDefaultModel (plan.capabilityType.getD "")
     { defaultModelDeploymentID := plan.defaultModelDeploymentID.getD "" }])

/-- Go `CapabilityTypeDefaultModelResource.Delete` (src/unnamed/part_012
lines 437-473): no client call at all — only a warning log; the
resource is removed from state by the framework. -/
def capabilityTypeDefaultModelDelete
    (_state : CapabilityTypeDefaultModelResourceModel) :
    DeleteResult × List ApiCall :=
  ({ removed := true, errored := false }, [])

/-- Go `CollectionResource.Create` (resource_collection.go lines
217-262): optional fields enter the payload only when known. -/
def collectionCreate (data : CollectionResourceModel)
    (resp : Except ClientErr Collection) :
    CreateResult CollectionResourceModel × List ApiCall :=
  (match resp with
   | .error _ =>
     { stateSet := none,
       diags := [("Client Error", "Unable to create collection")] }
   | .ok createdCollection =>
     { stateSet := some (mapCollectionToModel createdCollection data),
       diags := [] },
   [.createCollection
     { name := data.name.getD ""
       projectID := data.projectID.getD ""
       description :=
         if data.description.isKnown = true then some (data.description.getD "")
         else none
       embeddingsModelID :=
         if data.embeddingsModelID.isKnown = true then
           some (data.embeddingsModelID.getD "")
         else none
       metadataSchema :=
         if data.metadataSchema.isKnown = true then
           some (data.metadataSchema.getD [])
         else none }])

/-- Go `CollectionResource.Read` (resource_collection.go lines
264-292). -/
def collectionRead (data : CollectionResourceModel)
    (resp : Except ClientErr Collection) :
    ReadResult CollectionResourceModel × List ApiCall :=
  (match resp with
   | .error .notFound => { stateAfter := none, errored := false }
   | .error _ => { stateAfter := some data, errored := true }
   | .ok collection =>
     { stateAfter := some (mapCollectionToModel collection data),
       errored := false },
   [.getCollection (data.id.getD "")])

/-- The PUT payload of `CollectionResource.Update` (resource_collection.go
lines 310-362): a null description clears with an empty string; a null
`embeddings_model_id` is sent as nil; a null `metadata_schema` is sent
as a pointer to a nil map, an unknown one is left out. -/
def collectionUpdatePayload (plan state : CollectionResourceModel) :
    CollectionUpdate :=
  { name := if plan.name ≠ state.name then some (plan.name.getD "") else none
    description :=
      if plan.description ≠ state.description then
        if plan.description = .null then some ""
        else some (plan.description.getD "")
      else none
    embeddingsModelID :=
      if plan.embeddingsModelID ≠ state.embeddingsModelID then
        if plan.embeddingsModelID = .null then none
        else some (plan.embeddingsModelID.getD "")
      else none
    metadataSchema :=
      if plan.metadataSchema ≠ state.metadataSchema then
        if plan.metadataSchema = .null then some none
        else if ¬ (plan.metadataSchema = .unknown) then
          some (some (plan.metadataSchema.getD []))
        else none
      else none }

/-- Go `CollectionResource.Update` (resource_collection.go lines
294-384): `updateNeeded` is set whenever any of the four attributes
changed; without it the state is set from the plan and no call is
made. -/
def collectionUpdate (plan state : CollectionResourceModel)
    (resp : Except ClientErr Collection) :
    UpdateResult CollectionResourceModel × List ApiCall :=
  if ¬ (plan.name ≠ state.name ∨ plan.description ≠ state.description ∨
        plan.embeddingsModelID ≠ state.embeddingsModelID ∨
        plan.metadataSchema ≠ state.metadataSchema) then
    ({ stateSet := some plan, errored := false }, [])
  else
    (match resp with
     | .error _ => { stateSet := none, errored := true }
     | .ok updatedCollection =>
       { stateSet := some (mapCollectionToModel updatedCollection plan),
         errored := false },
     [.updateCollection (state.id.getD "") (collectionUpdatePayload plan state)])

/-- Go `CollectionResource.Delete` (resource_collection.go lines
386-408). -/
def collectionDelete (data : CollectionResourceModel)
    (resp : Except ClientErr Unit) : DeleteResult × List ApiCall :=
  (match resp with
   | .error .notFound => { removed := true, errored := false }
   | .error _ => { removed := false, errored := true }
   | .ok _ => { removed := true, errored := false },
   [.deleteCollection (data.id.getD "")])

/-- Go `DocumentResource.Create` (resource_document.go lines 279-352):
a null or unknown plan id is replaced by a generated UUID (`genID`); a
known but invalid `json_content` adds an attribute error before any
call; the PUT is an upsert. -/
def documentCreate (data : DocumentResourceModel) (genID : String)
    (resp : Except ClientErr Document) :
    CreateResult DocumentResourceModel × List ApiCall :=
  match (if data.jsonContent.isKnown = true then
           match goUnmarshalMap (data.jsonContent.getD "") with
           | none => none
           | some jm => some jm
         else some none) with
  | none =>
    ({ stateSet := none,
       diags := [("Invalid JSON String", "Failed to unmarshal json_content")] },
     [])
  | some jsonField =>
    (match resp with
     | .error _ =>
       { stateSet := none,
         diags := [("Client Error", "Unable to create/update document")] }
     | .ok upsertedDoc =>
       { stateSet := some (mapDocumentToModel upsertedDoc data), diags := [] },
     [.upsertDocument (data.collectionID.getD "")
       (if data.id.isNullOrUnknown = true then genID else data.id.getD "")
       { textContent :=
           if data.textContent.isKnown = true then some (data.textContent.getD "")
           else none
         jsonContent := jsonField
         metadata :=
           if data.metadata.isKnown = true then modelMetadataToApi data.metadata
           else none }])

/-- Go `DocumentResource.Read` (resource_document.go lines 354-384). -/
def documentRead (data : DocumentResourceModel)
    (resp : Except ClientErr Document) :
    ReadResult DocumentResourceModel × List ApiCall :=
  (match resp with
   | .error .notFound => { stateAfter := none, errored := false }
   | .error _ => { stateAfter := some data, errored := true }
   | .ok doc =>
     { stateAfter := some (mapDocumentToModel doc data), errored := false },
   [.getDocument (data.collectionID.getD "") (data.id.getD "")])

/-- Go `DocumentResource.Update` (resource_document.go lines 386-486):
a changed invalid `json_content` adds an attribute error before the
call; with no change detected the state is set from the plan and no
call is made. -/
def documentUpdate (plan state : DocumentResourceModel)
    (resp : Except ClientErr Document) :
    UpdateResult DocumentResourceModel × List ApiCall :=
  match (if plan.jsonContent ≠ state.jsonContent then
           if plan.jsonContent.isNullOrUnknown = true then
             (.ok none : Except Unit (Option (List (String × GoVal))))
           else
             match goUnmarshalMap (plan.jsonContent.getD "") with
             | none => .error ()
             | some jm => .ok jm
         else .ok none) with
  | .error _ => ({ stateSet := none, errored := true }, [])
  | .ok jsonField =>
    if ¬ (plan.textContent ≠ state.textContent ∨
          plan.jsonContent ≠ state.jsonContent ∨
          plan.metadata ≠ state.metadata) then
      ({ stateSet := some plan, errored := false }, [])
    else
      (match resp with
       | .error _ => { stateSet := none, errored := true }
       | .ok updatedDoc =>
         { stateSet := some (mapDocumentToModel updatedDoc plan),
           errored := false },
       [.upsertDocument (state.collectionID.getD "") (state.id.getD "")
         { textContent :=
             if plan.textContent ≠ state.textContent then
               if plan.textContent = .null then none
               else some (plan.textContent.getD "")
             else none
           jsonContent := jsonField
           metadata :=
             if plan.metadata ≠ state.metadata then
               if plan.metadata.isNullOrUnknown = true then none
               else modelMetadataToApi plan.metadata
             else none }])

/-- Go `DocumentResource.Delete` (resource_document.go lines 488-513). -/
def documentDelete (data : DocumentResourceModel)
    (resp : Except ClientErr Unit) : DeleteResult × List ApiCall :=
  (match resp with
   | .error .notFound => { removed := true, errored := false }
   | .error _ => { removed := false, errored := true }
   | .ok _ => { removed := true, errored := false },
   [.deleteDocument (data.collectionID.getD "") (data.id.getD "")])

-- ### Theorems

/-- Claim C2 (amended): `doRequest` returns nil exactly when the status
code is in `[200, 300)` and, when a non-nil decode target is supplied,
the body unmarshals into it; a 404 returns the `ErrNotFound` sentinel;
any other status outside `[200, 300)` returns an `APIError` whose
`StatusCode` is the response status and whose `Message` is the body text
when the body is non-empty and shorter than 512 bytes, and the standard
HTTP status text otherwise. -/
theorem doRequest_status_mapping (statusCode : Nat) (body : String)
    (decodeTarget : Option (String → Bool)) :
    (doRequest statusCode body decodeTarget = .ok ↔
      (200 ≤ statusCode ∧ statusCode < 300 ∧
        ∀ dec, decodeTarget = some dec → dec body = true))
    ∧ (statusCode = 404 → doRequest statusCode body decodeTarget = .errNotFound)
    ∧ (¬ (200 ≤ statusCode ∧ statusCode < 300) → statusCode ≠ 404 →
        doRequest statusCode body decodeTarget =
          .apiError statusCode
            (if 0 < body.utf8ByteSize ∧ body.utf8ByteSize < 512 then body
             else statusText statusCode) body) := by
  unfold doRequest
  refine ⟨?_, ?_, ?_⟩
  · constructor
    · intro h
      by_cases hs : statusCode < 200 || 300 ≤ statusCode
      · simp only [hs, if_true] at h
        split at h <;> simp_all
      · simp only [hs, if_false] at h
        simp only [Bool.or_eq_true, decide_eq_true_eq, not_or, not_lt] at hs
        refine ⟨hs.1, by omega, ?_⟩
        intro dec hdec
        rw [hdec] at h
        simp only at h
        by_cases hb : dec body = true
        · exact hb
        · simp [hb] at h
    · rintro ⟨h1, h2, h3⟩
      have hs : (statusCode < 200 || 300 ≤ statusCode) = false := by
        simp only [Bool.or_eq_false_iff, decide_eq_false_iff_not, not_lt]
        omega
      simp only [hs, if_false]
      match decodeTarget with
      | none => rfl
      | some dec => simp [h3 dec rfl]
  · intro h404
    subst h404
    norm_num
  · intro hout h404
    have hs : (statusCode < 200 || 300 ≤ statusCode) = true := by
      simp only [Bool.or_eq_true, decide_eq_true_eq]
      omega
    simp only [hs, if_true, if_neg h404]
    congr 1
    by_cases hb : 0 < body.utf8ByteSize ∧ body.utf8ByteSize < 512
    · rw [if_pos hb, if_pos]
      simpa using hb
    · rw [if_neg hb, if_neg]
      simpa using hb

/-- Witness for `doRequest_status_mapping` at status 503 with a short
body, discharging each hypothesis at the concrete input. -/
theorem doRequest_status_mapping_witness :
    doRequest 503 "oops" none = .apiError 503 "oops" "oops" :=
  ((doRequest_status_mapping 503 "oops" none).2.2 (by omega) (by omega)).trans
    (by decide)

/-- Claim C2 counterexample: the claim says `doRequest` returns nil
exactly when the status is in `[200, 300)`, but a 200 response whose
body does not unmarshal into the supplied non-nil target returns the
wrapped unmarshal error instead of nil. -/
theorem doRequest_ok_band_not_sufficient :
    doRequest 200 "x" (some (fun _ => false)) = .unmarshalError "x"
    ∧ doRequest 200 "x" (some (fun _ => false)) ≠ .ok := by
  constructor
  · rfl
  · intro h
    exact absurd h (by simp [doRequest])

/-- Claim C10: `NewClient` fails exactly when the base URL or API key is
blank, the base URL does not parse, or the parsed URL lacks a scheme or
host; on success the client holds the parsed base URL, the given
(untrimmed) API key, and a 30-second HTTP timeout. -/
theorem newClient_spec (baseURLStr apiKey : String) :
    ((∃ e, newClient baseURLStr apiKey = .error e) ↔
      (goTrimSpace baseURLStr = "" ∨ goTrimSpace apiKey = "" ∨
        parseRequestURI baseURLStr = none ∨
        (∃ u, parseRequestURI baseURLStr = some u ∧ (u.scheme = "" ∨ u.host = ""))))
    ∧ (∀ c, newClient baseURLStr apiKey = .ok c →
        parseRequestURI baseURLStr = some c.baseURL ∧ c.apiKey = apiKey ∧
        c.timeoutSeconds = 30 ∧ c.baseURL.scheme ≠ "" ∧ c.baseURL.host ≠ "") := by
  constructor
  · constructor
    · rintro ⟨e, he⟩
      unfold newClient at he
      split at he
      · left; assumption
      · split at he
        · right; left; assumption
        · split at he
          · right; right; left; assumption
          · rename_i u hu
            split at he
            · rename_i hsh
              right; right; right
              exact ⟨u, hu, by simpa using hsh⟩
            · exact Except.noConfusion he
    · intro h
      unfold newClient
      rcases h with h | h | h | ⟨u, hu, hsh⟩
      · exact ⟨_, by rw [if_pos h]⟩
      · by_cases hb : goTrimSpace baseURLStr = ""
        · exact ⟨_, by rw [if_pos hb]⟩
        · exact ⟨_, by rw [if_neg hb, if_pos h]⟩
      · by_cases hb : goTrimSpace baseURLStr = ""
        · exact ⟨_, by rw [if_pos hb]⟩
        · by_cases hk : goTrimSpace apiKey = ""
          · exact ⟨_, by rw [if_neg hb, if_pos hk]⟩
          · refine ⟨"invalid baseURL", ?_⟩
            rw [if_neg hb, if_neg hk, h]
      · by_cases hb : goTrimSpace baseURLStr = ""
        · exact ⟨_, by rw [if_pos hb]⟩
        · by_cases hk : goTrimSpace apiKey = ""
          · exact ⟨_, by rw [if_neg hb, if_pos hk]⟩
          · refine ⟨"baseURL must include scheme and host", ?_⟩
            rw [if_neg hb, if_neg hk, hu]
            exact if_pos (by simpa using hsh)
  · intro c hc
    unfold newClient at hc
    split at hc
    · exact Except.noConfusion hc
    · split at hc
      · exact Except.noConfusion hc
      · split at hc
        · exact Except.noConfusion hc
        · rename_i u hu
          split at hc
          · exact Except.noConfusion hc
          · rename_i hsh
            simp only [Except.ok.injEq] at hc
            subst hc
            simp only [Bool.or_eq_true, decide_eq_true_eq, not_or] at hsh
            exact ⟨hu, rfl, rfl, hsh.1, hsh.2⟩

/-- Witness for `newClient_spec`: a concrete successful construction and
a concrete blank-input failure, both obtained by applying the theorem. -/
theorem newClient_spec_witness :
    (parseRequestURI "https://api.example.com/v1" ≠ none
      ∧ (newClient "https://api.example.com/v1" "k-123").isOk = true)
    ∧ (∃ e, newClient "   " "k" = .error e) := by
  refine ⟨⟨?_, by decide⟩, (newClient_spec "   " "k").1.mpr (Or.inl (by decide))⟩
  have h := (newClient_spec "https://api.example.com/v1" "k-123").2
      { baseURL := { scheme := "https", opaquePart := "", host := "api.example.com",
                     path := "/v1", rawQuery := "" },
        apiKey := "k-123", userAgent := "corax-terraform-provider/0.0.1",
        timeoutSeconds := 30 } rfl
  rw [h.1]
  exact fun hn => Option.noConfusion hn

/-- Claim C3 counterexample: the API→model→API round-trip is not the
identity on every non-nil `CapabilityConfig`: a config whose
`ContentTracing` pointer is nil comes back with `ContentTracing` set to
`true`, because `capabilityConfigAPItoModel` substitutes the schema
default for the missing field. -/
theorem capabilityConfig_roundTrip_fails :
    capabilityConfigModelToAPI (capabilityConfigAPItoModel (some
      { temperature := none, blobConfig := none, dataRetention := none,
        contentTracing := none, customParameters := none })) ≠
    some { temperature := none, blobConfig := none, dataRetention := none,
           contentTracing := none, customParameters := none } := by
  decide

/-- Claim C3 (amended): the API→model→API round-trip of the capability
config is the identity on every non-nil `CapabilityConfig` whose
`ContentTracing` is present, whose `BlobConfig` (if present) has at
least one field set, whose `DataRetention` (if present) carries `Hours`
only for the `"timed"` type, and whose `CustomParameters` is nil. -/
theorem capabilityConfig_roundTrip (c : CapabilityConfig)
    (htracing : c.contentTracing ≠ none)
    (hblob : ∀ b, c.blobConfig = some b →
      b.maxFileSizeMB ≠ none ∨ b.maxBlobs ≠ none ∨ b.allowedMimeTypes ≠ none)
    (hdr : ∀ dr, c.dataRetention = some dr → dr.hours = none ∨ dr.type = "timed")
    (hcustom : c.customParameters = none) :
    capabilityConfigModelToAPI (capabilityConfigAPItoModel (some c)) = some c := by
  obtain ⟨t, b, dr, ct, cp⟩ := c
  simp only at htracing hblob hdr hcustom
  subst hcustom
  obtain ⟨ctv, rfl⟩ : ∃ v, ct = some v := by
    cases ct with
    | none => exact absurd rfl htracing
    | some v => exact ⟨v, rfl⟩
  rcases b with _ | ⟨mfs, mb, amt⟩
  · rcases dr with _ | ⟨ty, hrs⟩
    · cases t <;> simp [capabilityConfigAPItoModel, capabilityConfigModelToAPI]
    · rcases hdr ⟨ty, hrs⟩ rfl with h | h
      · subst h
        by_cases hty : ty = "timed" <;>
          cases t <;>
            simp [capabilityConfigAPItoModel, capabilityConfigModelToAPI, hty]
      · subst h
        cases hrs <;> cases t <;>
          simp [capabilityConfigAPItoModel, capabilityConfigModelToAPI]
  · have hb := hblob ⟨mfs, mb, amt⟩ rfl
    have hsome : (match (match mfs with | some v => TFVal.value v | none => .null) with
        | TFVal.value v => some v | _ => none).isSome = mfs.isSome := by
      cases mfs <;> rfl
    rcases dr with _ | ⟨ty, hrs⟩
    · cases t <;> cases mfs <;> cases mb <;> cases amt <;>
        simp_all [capabilityConfigAPItoModel, capabilityConfigModelToAPI]
    · rcases hdr ⟨ty, hrs⟩ rfl with h | h
      · subst h
        by_cases hty : ty = "timed" <;>
          cases t <;> cases mfs <;> cases mb <;> cases amt <;>
            simp_all [capabilityConfigAPItoModel, capabilityConfigModelToAPI, hty]
      · subst h
        cases hrs <;> cases t <;> cases mfs <;> cases mb <;> cases amt <;>
          simp_all [capabilityConfigAPItoModel, capabilityConfigModelToAPI]

/-- Witness for `capabilityConfig_roundTrip`: the round-trip is checked
at a fully populated concrete config. -/
theorem capabilityConfig_roundTrip_witness :
    capabilityConfigModelToAPI (capabilityConfigAPItoModel (some
      { temperature := some ⟨7⟩,
        blobConfig := some { maxFileSizeMB := some 20, maxBlobs := none,
                             allowedMimeTypes := some ["image/png"] },
        dataRetention := some { type := "timed", hours := some 24 },
        contentTracing := some false, customParameters := none })) =
    some { temperature := some ⟨7⟩,
           blobConfig := some { maxFileSizeMB := some 20, maxBlobs := none,
                                allowedMimeTypes := some ["image/png"] },
           dataRetention := some { type := "timed", hours := some 24 },
           contentTracing := some false, customParameters := none } :=
  capabilityConfig_roundTrip _
    (fun h => Option.noConfusion h)
    (fun b hb => by injection hb with h; rw [← h]; left; exact fun h2 => Option.noConfusion h2)
    (fun dr hdr => by injection hdr with h; rw [← h]; right; rfl)
    rfl

/-- Claim C8 counterexample: the validator is claimed to accept a
non-null, non-unknown configuration exactly when `(type = "timed" ∧
hours set) ∨ (type = "infinite" ∧ hours unset)`, but a configuration
with `type = "other"` (or a null type) is accepted with no diagnostics
although it satisfies neither disjunct. -/
theorem dataRetention_validator_accepts_other :
    dataRetentionValidateObject
      (.value { type := .value "other", hours := .null }) = []
    ∧ ({ type := .value "other", hours := .null } : DataRetentionModel).type
        ≠ .value "timed"
    ∧ ({ type := .value "other", hours := .null } : DataRetentionModel).type
        ≠ .value "infinite" := by
  decide

/-- Claim C8 (amended): null and unknown configurations are accepted
without validation; for a configuration whose `type` is set to `"timed"`
or `"infinite"`, the validator accepts exactly when either `type` is
`"timed"` and `hours` is set, or `type` is `"infinite"` and `hours` is
not set; in the two violating cases it adds one attribute error on the
`hours` attribute.  Configurations whose `type` is null, unknown or some
other string are accepted by this validator (they are left to the `type`
attribute's own `Required`/`OneOf` validators). -/
theorem dataRetention_validator_spec :
    (dataRetentionValidateObject .null = [] ∧
      dataRetentionValidateObject .unknown = [])
    ∧ (∀ dr : DataRetentionModel,
        dr.type = .value "timed" ∨ dr.type = .value "infinite" →
        (dataRetentionValidateObject (.value dr) = [] ↔
          ((dr.type = .value "timed" ∧ dr.hours.isKnown = true) ∨
           (dr.type = .value "infinite" ∧ dr.hours.isKnown = false))))
    ∧ (∀ dr : DataRetentionModel,
        dr.type = .value "timed" → dr.hours.isKnown = false →
        ∃ d, dataRetentionValidateObject (.value dr) = [d] ∧ d.path = "hours")
    ∧ (∀ dr : DataRetentionModel,
        dr.type = .value "infinite" → dr.hours.isKnown = true →
        ∃ d, dataRetentionValidateObject (.value dr) = [d] ∧ d.path = "hours")
    ∧ (∀ dr : DataRetentionModel,
        dr.type.isKnown = false ∨
          (dr.type ≠ .value "timed" ∧ dr.type ≠ .value "infinite") →
        dataRetentionValidateObject (.value dr) = []) := by
  refine ⟨⟨rfl, rfl⟩, ?_, ?_, ?_, ?_⟩
  · rintro ⟨ty, hrs⟩ h
    have h' : ty = TFVal.value "timed" ∨ ty = TFVal.value "infinite" := h
    rcases h' with rfl | rfl <;> cases hrs <;>
      simp [dataRetentionValidateObject, TFVal.isKnown]
  · rintro ⟨ty, hrs⟩ h hk
    have h' : ty = TFVal.value "timed" := h
    subst h'
    have hk' : TFVal.isKnown hrs = false := hk
    cases hrs with
    | null => exact ⟨_, rfl, rfl⟩
    | unknown => exact ⟨_, rfl, rfl⟩
    | value v => exact absurd hk' (by simp [TFVal.isKnown])
  · rintro ⟨ty, hrs⟩ h hk
    have h' : ty = TFVal.value "infinite" := h
    subst h'
    have hk' : TFVal.isKnown hrs = true := hk
    cases hrs with
    | null => exact absurd hk' (by simp [TFVal.isKnown])
    | unknown => exact absurd hk' (by simp [TFVal.isKnown])
    | value v => exact ⟨_, rfl, rfl⟩
  · rintro ⟨ty, hrs⟩ h
    rcases h with h | ⟨h1, h2⟩
    · have h' : TFVal.isKnown ty = false := h
      cases ty <;> simp_all [dataRetentionValidateObject, TFVal.isKnown]
    · have h1' : ty ≠ TFVal.value "timed" := h1
      have h2' : ty ≠ TFVal.value "infinite" := h2
      cases ty with
      | null => rfl
      | unknown => rfl
      | value s =>
        have hs1 : s ≠ "timed" := fun hh => h1' (by rw [hh])
        have hs2 : s ≠ "infinite" := fun hh => h2' (by rw [hh])
        simp [dataRetentionValidateObject, hs1, hs2]

/-- Witness for `dataRetention_validator_spec`: the acceptance
biconditional and the error clause applied at concrete configurations. -/
theorem dataRetention_validator_spec_witness :
    dataRetentionValidateObject
      (.value { type := .value "timed", hours := .value 5 }) = []
    ∧ ∃ d, dataRetentionValidateObject
        (.value { type := .value "timed", hours := .null }) = [d] ∧
        d.path = "hours" := by
  constructor
  · exact (dataRetention_validator_spec.2.1
      { type := .value "timed", hours := .value 5 } (Or.inl rfl)).mpr
      (Or.inl ⟨rfl, rfl⟩)
  · exact dataRetention_validator_spec.2.2.1
      { type := .value "timed", hours := .null } rfl rfl

/-- Helper: the cons case of `charListLe`, stated through head equality
(`¬ a < b` and `¬ b < a` collapse to `a = b` on the linear order). -/
theorem charListLe_cons_iff {a b : Char} {as bs : List Char} :
    charListLe (a :: as) (b :: bs) = true ↔
      a < b ∨ (a = b ∧ charListLe as bs = true) := by
  have hstep : charListLe (a :: as) (b :: bs) =
      (if a < b then true else if b < a then false else charListLe as bs) := rfl
  rw [hstep]
  split_ifs with h1 h2
  · simp [h1]
  · constructor
    · intro h; exact absurd h (by simp)
    · rintro (h | ⟨rfl, _⟩)
      · exact absurd h h1
      · exact absurd h2 (lt_irrefl a)
  · have heq : a = b := le_antisymm (not_lt.mp h2) (not_lt.mp h1)
    subst heq
    constructor
    · intro h; exact Or.inr ⟨rfl, h⟩
    · rintro (h | ⟨-, h⟩)
      · exact absurd h h1
      · exact h

/-- Helper: totality of `charListLe`. -/
theorem charListLe_total : ∀ (a b : List Char),
    charListLe a b = true ∨ charListLe b a = true
  | [], _ => Or.inl rfl
  | _ :: _, [] => Or.inr rfl
  | a :: as, b :: bs => by
    rcases lt_trichotomy a b with h | h | h
    · exact Or.inl (charListLe_cons_iff.mpr (Or.inl h))
    · rcases charListLe_total as bs with hr | hr
      · exact Or.inl (charListLe_cons_iff.mpr (Or.inr ⟨h, hr⟩))
      · exact Or.inr (charListLe_cons_iff.mpr (Or.inr ⟨h.symm, hr⟩))
    · exact Or.inr (charListLe_cons_iff.mpr (Or.inl h))

/-- Helper: transitivity of `charListLe`. -/
theorem charListLe_trans : ∀ (a b c : List Char),
    charListLe a b = true → charListLe b c = true → charListLe a c = true
  | [], _, _, _, _ => rfl
  | _ :: _, [], _, h1, _ => by simp [charListLe] at h1
  | _ :: _, _ :: _, [], _, h2 => by simp [charListLe] at h2
  | a :: as, b :: bs, c :: cs, h1, h2 => by
    rcases charListLe_cons_iff.mp h1 with hab | ⟨rfl, hr1⟩ <;>
      rcases charListLe_cons_iff.mp h2 with hbc | ⟨heq, hr2⟩
    · exact charListLe_cons_iff.mpr (Or.inl (hab.trans hbc))
    · exact charListLe_cons_iff.mpr (Or.inl (heq ▸ hab))
    · exact charListLe_cons_iff.mpr (Or.inl hbc)
    · exact charListLe_cons_iff.mpr
        (Or.inr ⟨heq, charListLe_trans as bs cs hr1 hr2⟩)

/-- Helper: antisymmetry of `charListLe`. -/
theorem charListLe_antisymm : ∀ (a b : List Char),
    charListLe a b = true → charListLe b a = true → a = b
  | [], [], _, _ => rfl
  | [], _ :: _, _, h2 => by simp [charListLe] at h2
  | _ :: _, [], h1, _ => by simp [charListLe] at h1
  | a :: as, b :: bs, h1, h2 => by
    rcases charListLe_cons_iff.mp h1 with hab | ⟨rfl, hr1⟩ <;>
      rcases charListLe_cons_iff.mp h2 with hba | ⟨heq, hr2⟩
    · exact absurd hba (lt_asymm hab)
    · exact absurd (heq ▸ hab) (lt_irrefl b)
    · exact absurd hba (lt_irrefl a)
    · rw [charListLe_antisymm as bs hr1 hr2]

/-- Helper: `strLe` order facts, packaged as the instances Mathlib's
sorting lemmas expect. -/
theorem strLe_isOrder :
    IsTotal String strLe ∧ IsTrans String strLe ∧ IsAntisymm String strLe := by
  refine ⟨⟨fun a b => charListLe_total _ _⟩,
          ⟨fun a b c => charListLe_trans _ _ _⟩,
          ⟨fun a b h1 h2 => ?_⟩⟩
  have h := charListLe_antisymm _ _ h1 h2
  cases a; cases b
  exact congrArg String.mk h

/-- Helper: `sortStrings` output is sorted ascending. -/
theorem sortStrings_sorted (l : List String) :
    (sortStrings l).Sorted strLe := by
  haveI := strLe_isOrder.1
  haveI := strLe_isOrder.2.1
  exact List.sorted_insertionSort _ l

/-- Helper: `sortStrings` is invariant under permutation of its input,
which is what makes the stored order independent of Go map iteration
order. -/
theorem sortStrings_perm_congr {l l' : List String} (h : l.Perm l') :
    sortStrings l = sortStrings l' := by
  haveI := strLe_isOrder.2.2
  exact List.eq_of_perm_of_sorted
    ((List.perm_insertionSort _ l).trans (h.trans (List.perm_insertionSort _ l').symm))
    (sortStrings_sorted l) (sortStrings_sorted l')

/-- Helper: a list of string values extracts to exactly those strings,
in order. -/
theorem allStringsOf_map_strv (strs : List String) :
    allStringsOf (strs.map GoVal.strv) = some strs := by
  induction strs with
  | nil => rfl
  | cons s t ih => simp [allStringsOf, ih]

/-- Helper: a non-string element anywhere makes the extraction fail. -/
theorem allStringsOf_none_of_nonstring (l : List GoVal)
    (h : ∃ v ∈ l, ∀ s, v ≠ GoVal.strv s) : allStringsOf l = none := by
  induction l with
  | nil => simp at h
  | cons v t ih =>
    obtain ⟨w, hw, hns⟩ := h
    rcases List.mem_cons.mp hw with rfl | hw'
    · cases w with
      | strv s => exact absurd rfl (hns s)
      | nullv => rfl
      | boolv b => rfl
      | numv n => rfl
      | listv l => rfl
      | mapv m => rfl
    · cases v with
      | strv s => simp [allStringsOf, ih ⟨w, hw', hns⟩]
      | nullv => rfl
      | boolv b => rfl
      | numv n => rfl
      | listv l2 => rfl
      | mapv m => rfl

/-- Claim C5: when the API returns the completion capability's input
`variables` as a JSON map, the Terraform attribute is the list of the
map's keys sorted ascending (so the stored order is deterministic under
any reordering of the API response); when it is a list of strings the
order received is kept; a non-string element makes the attribute null. -/
theorem completionCapability_variables_mapping :
    (∀ (input m : List (String × GoVal)),
      goMapLookup input "variables" = some (.mapv m) →
        variablesFromInput (some input) = .value (sortStrings (m.map Prod.fst))
        ∧ (sortStrings (m.map Prod.fst)).Sorted strLe
        ∧ ∀ m' : List (String × GoVal), m.Perm m' →
            sortStrings (m.map Prod.fst) = sortStrings (m'.map Prod.fst))
    ∧ (∀ (input : List (String × GoVal)) (strs : List String),
        goMapLookup input "variables" = some (.listv (strs.map GoVal.strv)) →
        variablesFromInput (some input) = .value strs)
    ∧ (∀ (input : List (String × GoVal)) (l : List GoVal),
        goMapLookup input "variables" = some (.listv l) →
        (∃ v ∈ l, ∀ s, v ≠ GoVal.strv s) →
        variablesFromInput (some input) = .null) := by
  refine ⟨?_, ?_, ?_⟩
  · intro input m h
    refine ⟨?_, sortStrings_sorted _, ?_⟩
    · simp [variablesFromInput, h]
    · intro m' hperm
      exact sortStrings_perm_congr (hperm.map Prod.fst)
  · intro input strs h
    simp [variablesFromInput, h, allStringsOf_map_strv]
  · intro input l h hns
    simp [variablesFromInput, h, allStringsOf_none_of_nonstring l hns]

/-- Witness for `completionCapability_variables_mapping`: the three
branches evaluated at concrete API responses. -/
theorem completionCapability_variables_mapping_witness :
    variablesFromInput (some [("variables",
      GoVal.mapv [("zeta", .nullv), ("alpha", .nullv), ("mid", .boolv true)])])
      = .value ["alpha", "mid", "zeta"]
    ∧ variablesFromInput (some [("variables",
        GoVal.listv [.strv "b", .strv "a"])]) = .value ["b", "a"]
    ∧ variablesFromInput (some [("variables",
        GoVal.listv [.strv "a", .numv 3])]) = .null := by
  refine ⟨?_, ?_, ?_⟩
  · rw [(completionCapability_variables_mapping.1
      [("variables", GoVal.mapv
        [("zeta", .nullv), ("alpha", .nullv), ("mid", .boolv true)])]
      [("zeta", .nullv), ("alpha", .nullv), ("mid", .boolv true)] rfl).1]
    rfl
  · exact completionCapability_variables_mapping.2.1
      [("variables", GoVal.listv [.strv "b", .strv "a"])] ["b", "a"] rfl
  · exact completionCapability_variables_mapping.2.2
      [("variables", GoVal.listv [.strv "a", .numv 3])] [.strv "a", .numv 3] rfl
      ⟨.numv 3, by simp, fun s h => GoVal.noConfusion h⟩

/-- Claim C1 (amended): for every resource implemented in the
repository except the capability-type default model, Read maps a
not-found client result (`errors.Is(err, ErrNotFound)`) to removal of
the resource from state with no error diagnostic, and any other client
error to an error diagnostic with the stored state left unchanged;
`CapabilityTypeDefaultModelResource.Read` instead adds an error
diagnostic and keeps the stored state on EVERY client error, not-found
included.  (The registered api_key resource has no implementation in
the repository snapshot.) -/
theorem read_notFound_and_error_handling :
    (∀ st : ModelProviderResourceModel,
      (modelProviderRead st (.error .notFound)).1 =
        { stateAfter := none, errored := false }
      ∧ ∀ e, e ≠ ClientErr.notFound →
          (modelProviderRead st (.error e)).1 =
            { stateAfter := some st, errored := true })
    ∧ (∀ st : EmbeddingsModelResourceModel,
      (embeddingsModelRead st (.error .notFound)).1 =
        { stateAfter := none, errored := false }
      ∧ ∀ e, e ≠ ClientErr.notFound →
          (embeddingsModelRead st (.error e)).1 =
            { stateAfter := some st, errored := true })
    ∧ (∀ st : CompletionCapabilityResourceModel,
      (completionCapabilityRead st (.error .notFound)).1 =
        { stateAfter := none, errored := false }
      ∧ ∀ e, e ≠ ClientErr.notFound →
          (completionCapabilityRead st (.error e)).1 =
            { stateAfter := some st, errored := true })
    ∧ (∀ st : ProjectResourceModel,
      (projectRead st (.error .notFound)).1 =
        { stateAfter := none, errored := false }
      ∧ ∀ e, e ≠ ClientErr.notFound →
          (projectRead st (.error e)).1 =
            { stateAfter := some st, errored := true })
    ∧ (∀ st : ChatCapabilityResourceModel,
      (chatCapabilityRead st (.error .notFound)).1 =
        { stateAfter := none, errored := false }
      ∧ ∀ e, e ≠ ClientErr.notFound →
          (chatCapabilityRead st (.error e)).1 =
            { stateAfter := some st, errored := true })
    ∧ (∀ st : ModelDeploymentResourceModel,
      (modelDeploymentRead st (.error .notFound)).1 =
        { stateAfter := none, errored := false }
      ∧ ∀ e, e ≠ ClientErr.notFound →
          (modelDeploymentRead st (.error e)).1 =
            { stateAfter := some st, errored := true })
    ∧ (∀ st : CollectionResourceModel,
      (collectionRead st (.error .notFound)).1 =
        { stateAfter := none, errored := false }
      ∧ ∀ e, e ≠ ClientErr.notFound →
          (collectionRead st (.error e)).1 =
            { stateAfter := some st, errored := true })
    ∧ (∀ st : DocumentResourceModel,
      (documentRead st (.error .notFound)).1 =
        { stateAfter := none, errored := false }
      ∧ ∀ e, e ≠ ClientErr.notFound →
          (documentRead st (.error e)).1 =
            { stateAfter := some st, errored := true })
    ∧ (∀ (st : CapabilityTypeDefaultModelResourceModel) (e : ClientErr),
        (capabilityTypeDefaultModelRead st (.error e)).1 =
          { stateAfter := some st, errored := true }) := by
  refine ⟨fun st => ⟨rfl, ?_⟩, fun st => ⟨rfl, ?_⟩, fun st => ⟨rfl, ?_⟩,
          fun st => ⟨rfl, ?_⟩, fun st => ⟨rfl, ?_⟩, fun st => ⟨rfl, ?_⟩,
          fun st => ⟨rfl, ?_⟩, fun st => ⟨rfl, ?_⟩, fun st e => rfl⟩ <;>
    · intro e he
      cases e with
      | notFound => exact absurd rfl he
      | apiError sc m => rfl
      | other m => rfl

/-- Witness for `read_notFound_and_error_handling`: a concrete 500 on a
concrete stored model provider keeps the state and errors; a concrete
not-found removes it. -/
theorem read_notFound_and_error_handling_witness :
    (modelProviderRead
        ⟨.value "mp-1", .null, .null, .null, .null, .null, .null, .null⟩
        (.error (.apiError 500 "boom"))).1 =
      { stateAfter :=
          some ⟨.value "mp-1", .null, .null, .null, .null, .null, .null, .null⟩,
        errored := true }
    ∧ (modelProviderRead
        ⟨.value "mp-1", .null, .null, .null, .null, .null, .null, .null⟩
        (.error .notFound)).1 =
      { stateAfter := none, errored := false } :=
  ⟨(read_notFound_and_error_handling.1 _).2 (.apiError 500 "boom")
      (fun h => ClientErr.noConfusion h),
   (read_notFound_and_error_handling.1 _).1⟩

/-- Claim C1 counterexample: the capability-type default-model Read
treats a not-found client result like any other error — it adds an
error diagnostic and keeps the stored state, instead of removing the
resource from state without a diagnostic. -/
theorem capabilityTypeDefaultModel_read_notFound_keeps_state :
    (capabilityTypeDefaultModelRead
        ⟨.value "chat", .value "dep-1", .value "Chat"⟩
        (.error .notFound)).1 =
      { stateAfter := some ⟨.value "chat", .value "dep-1", .value "Chat"⟩,
        errored := true }
    ∧ (capabilityTypeDefaultModelRead
        ⟨.value "chat", .value "dep-1", .value "Chat"⟩
        (.error .notFound)).1.stateAfter ≠ none :=
  ⟨rfl, fun h => Option.noConfusion h⟩

/-- Claim C4 evaluated at the failing input: the code stores the
API-returned truncated secret.  For `corax_model_provider`, Read
overwrites the whole `configuration` map (including `api_key`) with the
API response, so a truncated key replaces the configured full value;
for `corax_embeddings_model`, a non-nil API `api_key` (such as a
truncated one) is stored, the prior full value being restored only when
the API omits the field entirely. -/
theorem truncated_secret_replaces_full_value :
    ((modelProviderRead
        ⟨.value "mp-1", .value "prov", .value "azure_openai",
         .value [("api_key", "sk-full-secret-1234567890"), ("api_endpoint", "https://e")],
         .null, .null, .null, .null⟩
        (.ok ⟨"prov", "azure_openai",
              [("api_key", "sk-...7890"), ("api_endpoint", "https://e")],
              "mp-1", "2024-01-01T00:00:00Z", none, "user", none⟩)).1.stateAfter.map
        (fun st => st.configuration) =
      some (.value [("api_key", "sk-...7890"), ("api_endpoint", "https://e")]))
    ∧ ((embeddingsModelRead
        ⟨.value "em-1", .value "emb", .null, .value "openai", .value "ada",
         .value 1536, .null, .value "sk-full-key-99999", .null, .value "active",
         .value false, .value "user", .null, .value "2024-01-01T00:00:00Z", .null⟩
        (.ok ⟨"em-1", "emb", none, "openai", "ada", 1536, none, some "sk-...99",
              none, "active", false, "user", none, "2024-01-01T00:00:00Z",
              none⟩)).1.stateAfter.map (fun st => st.apiKey) =
      some (.value "sk-...99"))
    ∧ ("sk-...7890" ≠ "sk-full-secret-1234567890")
    ∧ ("sk-...99" ≠ "sk-full-key-99999") := by
  refine ⟨rfl, rfl, ?_, ?_⟩ <;> decide

/-- Claim C9: creating a completion capability whose planned
`output_type` is `"schema"` while `schema_def` is null or unknown fails
with exactly the validation error `schema_def is required when
output_type is 'schema'`, issues no HTTP request, and sets no state. -/
theorem completionCapability_create_schema_def_required
    (plan : CompletionCapabilityResourceModel)
    (resp : Except ClientErr CapabilityRepresentation)
    (hout : plan.outputType = .value "schema")
    (hsd : plan.schemaDef.isNullOrUnknown = true) :
    completionCapabilityCreate plan resp =
      ({ stateSet := none,
         diags := [("Validation Error",
           "schema_def is required when output_type is \x27schema\x27")] }, []) := by
  unfold completionCapabilityCreate
  rw [hout]
  simp [TFVal.getD, hsd]

/-- Witness for `completionCapability_create_schema_def_required` at a
concrete plan with a null `schema_def`. -/
theorem completionCapability_create_schema_def_required_witness :
    completionCapabilityCreate
      ⟨.unknown, .value "cap", .value false, .null, .null, .null,
       .value "sys", .value "comp", .null, .value "schema", .dnull,
       .unknown, .unknown, .unknown, .unknown, .unknown, .unknown, .unknown⟩
      (.error (.other "offline")) =
      ({ stateSet := none,
         diags := [("Validation Error",
           "schema_def is required when output_type is \x27schema\x27")] }, []) :=
  completionCapability_create_schema_def_required _ _ rfl rfl

/-- Claim C7 counterexample: an Update whose plan equals the prior
state issues no HTTP request at all (the handler detects no change and
returns after setting the state from the plan), so "exactly one client
request per operation" fails. -/
theorem completionCapability_noop_update_issues_no_call :
    (completionCapabilityUpdate
      ⟨.value "cap-1", .value "n", .value false, .null, .null, .null,
       .value "sys", .value "comp", .null, .value "text", .dnull,
       .null, .null, .null, .null, .null, .null, .null⟩
      ⟨.value "cap-1", .value "n", .value false, .null, .null, .null,
       .value "sys", .value "comp", .null, .value "text", .dnull,
       .null, .null, .null, .null, .null, .null, .null⟩
      (.error (.other "offline"))).2 = []
    ∧ (completionCapabilityUpdate
      ⟨.value "cap-1", .value "n", .value false, .null, .null, .null,
       .value "sys", .value "comp", .null, .value "text", .dnull,
       .null, .null, .null, .null, .null, .null, .null⟩
      ⟨.value "cap-1", .value "n", .value false, .null, .null, .null,
       .value "sys", .value "comp", .null, .value "text", .dnull,
       .null, .null, .null, .null, .null, .null, .null⟩
      (.error (.other "offline"))).2.length ≠ 1 := by
  refine ⟨rfl, ?_⟩
  intro h
  rw [show (completionCapabilityUpdate
      ⟨.value "cap-1", .value "n", .value false, .null, .null, .null,
       .value "sys", .value "comp", .null, .value "text", .dnull,
       .null, .null, .null, .null, .null, .null, .null⟩
      ⟨.value "cap-1", .value "n", .value false, .null, .null, .null,
       .value "sys", .value "comp", .null, .value "text", .dnull,
       .null, .null, .null, .null, .null, .null, .null⟩
      (.error (.other "offline"))).2 = [] from rfl] at h
  exact absurd h (by decide)

/-- Claim C7 (amended): every operation of every resource implemented
in the repository issues at most one HTTP request to the Corax API,
never a second; some operations issue none — a no-change Update on the
completion-capability, chat-capability, embeddings-model,
model-deployment, collection and document resources, a Create failing
pre-flight validation, and the capability-type default-model Delete,
which never calls the API (the project, model-provider and
capability-type default-model Updates send their request
unconditionally). -/
theorem operations_at_most_one_call :
    (∀ p r, (modelProviderCreate p r).2.length ≤ 1)
    ∧ (∀ s r, (modelProviderRead s r).2.length ≤ 1)
    ∧ (∀ p r, (modelProviderUpdate p r).2.length ≤ 1)
    ∧ (∀ s r, (modelProviderDelete s r).2.length ≤ 1)
    ∧ (∀ d r, (embeddingsModelCreate d r).2.length ≤ 1)
    ∧ (∀ s r, (embeddingsModelRead s r).2.length ≤ 1)
    ∧ (∀ p s r, (embeddingsModelUpdate p s r).2.length ≤ 1)
    ∧ (∀ d r, (embeddingsModelDelete d r).2.length ≤ 1)
    ∧ (∀ p r, (completionCapabilityCreate p r).2.length ≤ 1)
    ∧ (∀ s r, (completionCapabilityRead s r).2.length ≤ 1)
    ∧ (∀ p s r, (completionCapabilityUpdate p s r).2.length ≤ 1)
    ∧ (∀ s r, (completionCapabilityDelete s r).2.length ≤ 1)
    ∧ (∀ d r, (projectCreate d r).2.length ≤ 1)
    ∧ (∀ s r, (projectRead s r).2.length ≤ 1)
    ∧ (∀ p s r, (projectUpdate p s r).2.length ≤ 1)
    ∧ (∀ s r, (projectDelete s r).2.length ≤ 1)
    ∧ (∀ p r, (chatCapabilityCreate p r).2.length ≤ 1)
    ∧ (∀ s r, (chatCapabilityRead s r).2.length ≤ 1)
    ∧ (∀ p s r, (chatCapabilityUpdate p s r).2.length ≤ 1)
    ∧ (∀ s r, (chatCapabilityDelete s r).2.length ≤ 1)
    ∧ (∀ p r, (modelDeploymentCreate p r).2.length ≤ 1)
    ∧ (∀ s r, (modelDeploymentRead s r).2.length ≤ 1)
    ∧ (∀ p s r, (modelDeploymentUpdate p s r).2.length ≤ 1)
    ∧ (∀ s r, (modelDeploymentDelete s r).2.length ≤ 1)
    ∧ (∀ p r, (capabilityTypeDefaultModelCreate p r).2.length ≤ 1)
    ∧ (∀ s r, (capabilityTypeDefaultModelRead s r).2.length ≤ 1)
    ∧ (∀ p r, (capabilityTypeDefaultModelUpdate p r).2.length ≤ 1)
    ∧ (∀ s, (capabilityTypeDefaultModelDelete s).2 = [])
    ∧ (∀ d r, (collectionCreate d r).2.length ≤ 1)
    ∧ (∀ s r, (collectionRead s r).2.length ≤ 1)
    ∧ (∀ p s r, (collectionUpdate p s r).2.length ≤ 1)
    ∧ (∀ s r, (collectionDelete s r).2.length ≤ 1)
    ∧ (∀ d g r, (documentCreate d g r).2.length ≤ 1)
    ∧ (∀ s r, (documentRead s r).2.length ≤ 1)
    ∧ (∀ p s r, (documentUpdate p s r).2.length ≤ 1)
    ∧ (∀ s r, (documentDelete s r).2.length ≤ 1) := by
  refine ⟨fun p r => le_refl 1, fun s r => le_refl 1, fun p r => le_refl 1,
          fun s r => le_refl 1, fun d r => le_refl 1, fun s r => le_refl 1,
          fun p s r => ?_, fun d r => le_refl 1, fun p r => ?_,
          fun s r => le_refl 1, fun p s r => ?_, fun s r => le_refl 1,
          fun d r => le_refl 1, fun s r => le_refl 1, fun p s r => le_refl 1,
          fun s r => le_refl 1,
          fun p r => le_refl 1, fun s r => le_refl 1, fun p s r => ?_,
          fun s r => le_refl 1,
          fun p r => ?_, fun s r => le_refl 1, fun p s r => ?_,
          fun s r => le_refl 1,
          fun p r => le_refl 1, fun s r => le_refl 1, fun p r => le_refl 1,
          fun s => rfl,
          fun d r => le_refl 1, fun s r => le_refl 1, fun p s r => ?_,
          fun s r => le_refl 1,
          fun d g r => ?_, fun s r => le_refl 1, fun p s r => ?_,
          fun s r => le_refl 1⟩
  · unfold embeddingsModelUpdate
    split <;> simp
  · unfold completionCapabilityCreate
    split
    · split
      · simp
      · split <;> simp
    · simp
  · unfold completionCapabilityUpdate
    split
    · simp
    · split <;> simp
  · unfold chatCapabilityUpdate
    split <;> simp
  · unfold modelDeploymentCreate
    split <;> simp
  · unfold modelDeploymentUpdate
    split
    · simp
    · split <;> simp
  · unfold collectionUpdate
    split <;> simp
  · unfold documentCreate
    split <;> simp
  · unfold documentUpdate
    split
    · simp
    · split <;> simp

/-- Helper: `strLtB` extracts to order and disequality. -/
theorem strLtB_iff {a b : String} :
    strLtB a b = true ↔ charListLe a.toList b.toList = true ∧ a ≠ b := by
  simp [strLtB, bne_iff_ne]

/-- Helper: strict key order is transitive. -/
theorem strLtB_trans {a b c : String} (h1 : strLtB a b = true)
    (h2 : strLtB b c = true) : strLtB a c = true := by
  rcases strLtB_iff.mp h1 with ⟨hle1, hne1⟩
  rcases strLtB_iff.mp h2 with ⟨hle2, hne2⟩
  refine strLtB_iff.mpr ⟨charListLe_trans _ _ _ hle1 hle2, ?_⟩
  rintro rfl
  exact hne1 (by
    have := charListLe_antisymm _ _ hle1 hle2
    cases a; cases b; exact congrArg String.mk this)

/-- Helper: two distinct keys are strictly ordered one way or the other. -/
theorem strLtB_total_ne {a b : String} (hne : a ≠ b) :
    strLtB a b = true ∨ strLtB b a = true := by
  rcases charListLe_total a.toList b.toList with h | h
  · exact Or.inl (strLtB_iff.mpr ⟨h, hne⟩)
  · exact Or.inr (strLtB_iff.mpr ⟨h, hne.symm⟩)

/-- Helper: a sorted cons is a sorted tail dominated by the head key. -/
theorem keysSortedStrict_cons_iff {k : String} {v : GoVal}
    {t : List (String × GoVal)} :
    keysSortedStrict ((k, v) :: t) = true ↔
      keysSortedStrict t = true ∧ ∀ p ∈ t, strLtB k p.1 = true := by
  induction t generalizing k v with
  | nil => simp [keysSortedStrict]
  | cons q t' ih =>
    rcases q with ⟨k2, v2⟩
    constructor
    · intro h
      rw [show keysSortedStrict ((k, v) :: (k2, v2) :: t') =
            (strLtB k k2 && keysSortedStrict ((k2, v2) :: t')) from rfl,
          Bool.and_eq_true] at h
      rcases h with ⟨hlt, hs⟩
      rcases ih.mp hs with ⟨hst, hall⟩
      refine ⟨hs, ?_⟩
      intro p hp
      rcases List.mem_cons.mp hp with rfl | hp'
      · exact hlt
      · exact strLtB_trans hlt (hall p hp')
    · rintro ⟨hs, hall⟩
      rw [show keysSortedStrict ((k, v) :: (k2, v2) :: t') =
            (strLtB k k2 && keysSortedStrict ((k2, v2) :: t')) from rfl,
          Bool.and_eq_true]
      exact ⟨hall (k2, v2) (List.mem_cons_self _ _), hs⟩

/-- Helper: membership after a canonical-map insertion. -/
theorem goMapInsert_mem : ∀ (m : List (String × GoVal)) (k : String)
    (v : GoVal) (p : String × GoVal), p ∈ goMapInsert k v m →
    p = (k, v) ∨ p ∈ m
  | [], _, _, _, hp => by
    simp [goMapInsert] at hp
    exact Or.inl hp
  | (k2, v2) :: t, k, v, p, hp => by
    rw [goMapInsert] at hp
    split_ifs at hp with h1 h2
    · rcases List.mem_cons.mp hp with rfl | hp'
      · exact Or.inl rfl
      · exact Or.inr (List.mem_cons_of_mem _ hp')
    · rcases List.mem_cons.mp hp with rfl | hp'
      · exact Or.inl rfl
      · exact Or.inr hp'
    · rcases List.mem_cons.mp hp with rfl | hp'
      · exact Or.inr (List.mem_cons_self _ _)
      · rcases goMapInsert_mem t k v p hp' with h | h
        · exact Or.inl h
        · exact Or.inr (List.mem_cons_of_mem _ h)

/-- Helper: insertion preserves strictly sorted keys. -/
theorem goMapInsert_sorted : ∀ (m : List (String × GoVal)) (k : String)
    (v : GoVal), keysSortedStrict m = true →
    keysSortedStrict (goMapInsert k v m) = true
  | [], _, _, _ => rfl
  | (k2, v2) :: t, k, v, hm => by
    rcases keysSortedStrict_cons_iff.mp hm with ⟨ht, hall⟩
    rw [goMapInsert]
    split_ifs with h1 h2
    · subst h1
      exact keysSortedStrict_cons_iff.mpr ⟨ht, hall⟩
    · refine keysSortedStrict_cons_iff.mpr ⟨hm, ?_⟩
      intro p hp
      rcases List.mem_cons.mp hp with rfl | hp'
      · exact strLtB_iff.mpr ⟨h2, h1⟩
      · exact strLtB_trans (strLtB_iff.mpr ⟨h2, h1⟩) (hall p hp')
    · refine keysSortedStrict_cons_iff.mpr
        ⟨goMapInsert_sorted t k v ht, ?_⟩
      intro p hp
      rcases goMapInsert_mem t k v p hp with rfl | hp'
      · rcases strLtB_total_ne (show k2 ≠ k from fun h => h1 h.symm) with h | h
        · exact h
        · rcases strLtB_iff.mp h with ⟨hle, _⟩
          exact absurd hle h2
      · exact hall p hp'

/-- Helper: insertion of a canonical value preserves canonical members. -/
theorem goMapInsert_canonMembers : ∀ (m : List (String × GoVal))
    (k : String) (v : GoVal), GoVal.canon v = true →
    GoVal.canonMembers m = true →
    GoVal.canonMembers (goMapInsert k v m) = true
  | [], _, _, hv, _ => by simp [goMapInsert, GoVal.canonMembers, hv]
  | (k2, v2) :: t, k, v, hv, hm => by
    rw [show GoVal.canonMembers ((k2, v2) :: t) =
          (GoVal.canon v2 && GoVal.canonMembers t) from rfl,
        Bool.and_eq_true] at hm
    rcases hm with ⟨hv2, ht⟩
    rw [goMapInsert]
    split_ifs with h1 h2
    · simp [GoVal.canonMembers, hv, ht]
    · simp [GoVal.canonMembers, hv, hv2, ht]
    · simp [GoVal.canonMembers, hv2,
        goMapInsert_canonMembers t k v hv ht]

/-- Helper: maps built by `goMapOfPairs` have strictly sorted keys. -/
theorem goMapOfPairs_sorted (ps : List (String × GoVal)) :
    keysSortedStrict (goMapOfPairs ps) = true := by
  have haux : ∀ (qs : List (String × GoVal)) (acc : List (String × GoVal)),
      keysSortedStrict acc = true →
      keysSortedStrict (qs.foldl (fun m p => goMapInsert p.1 p.2 m) acc) = true := by
    intro qs
    induction qs with
    | nil => intro acc h; exact h
    | cons p qs' ih =>
      intro acc h
      exact ih _ (goMapInsert_sorted acc p.1 p.2 h)
  exact haux ps [] rfl

/-- Helper: `goMapOfPairs` keeps member values canonical. -/
theorem goMapOfPairs_canonMembers (ps : List (String × GoVal))
    (h : GoVal.canonMembers ps = true) :
    GoVal.canonMembers (goMapOfPairs ps) = true := by
  have haux : ∀ (qs : List (String × GoVal)) (acc : List (String × GoVal)),
      GoVal.canonMembers acc = true → GoVal.canonMembers qs = true →
      GoVal.canonMembers (qs.foldl (fun m p => goMapInsert p.1 p.2 m) acc) = true := by
    intro qs
    induction qs with
    | nil => intro acc h _; exact h
    | cons p qs' ih =>
      intro acc hacc hqs
      rcases p with ⟨k, v⟩
      rw [show GoVal.canonMembers ((k, v) :: qs') =
            (GoVal.canon v && GoVal.canonMembers qs') from rfl,
          Bool.and_eq_true] at hqs
      exact ih _ (goMapInsert_canonMembers acc k v hqs.1 hacc) hqs.2
  exact haux ps [] rfl h

/-- Helper: inserting a key above every present key appends. -/
theorem goMapInsert_append : ∀ (m : List (String × GoVal)) (k : String)
    (v : GoVal), (∀ p ∈ m, strLtB p.1 k = true) →
    goMapInsert k v m = m ++ [(k, v)]
  | [], _, _, _ => rfl
  | (k2, v2) :: t, k, v, hall => by
    have hlt : strLtB k2 k = true := hall (k2, v2) (List.mem_cons_self _ _)
    rcases strLtB_iff.mp hlt with ⟨hle, hne⟩
    rw [goMapInsert]
    have h1 : ¬(k = k2) := fun h => hne h.symm
    rw [if_neg h1]
    have h2 : ¬(charListLe k.toList k2.toList = true) := by
      intro hle2
      exact hne (by
        have := charListLe_antisymm _ _ hle hle2
        cases k2; cases k; exact congrArg String.mk this)
    rw [if_neg h2, goMapInsert_append t k v
      (fun p hp => hall p (List.mem_cons_of_mem _ hp))]
    rfl

/-- Helper: keys left of a member in a sorted list are below its key. -/
theorem keysSortedStrict_append_cons : ∀ (xs : List (String × GoVal))
    (k : String) (v : GoVal) (ys : List (String × GoVal)),
    keysSortedStrict (xs ++ (k, v) :: ys) = true →
    ∀ p ∈ xs, strLtB p.1 k = true
  | [], _, _, _, _, p, hp => absurd hp (List.not_mem_nil p)
  | (k1, v1) :: xs', k, v, ys, h, p, hp => by
    rw [List.cons_append] at h
    rcases keysSortedStrict_cons_iff.mp h with ⟨ht, hall⟩
    rcases List.mem_cons.mp hp with rfl | hp'
    · exact hall (k, v) (List.mem_append_right _ (List.mem_cons_self _ _))
    · exact keysSortedStrict_append_cons xs' k v ys ht p hp'

/-- Helper: `goMapOfPairs` is the identity on strictly sorted member
lists. -/
theorem goMapOfPairs_of_sorted (m : List (String × GoVal))
    (h : keysSortedStrict m = true) : goMapOfPairs m = m := by
  have haux : ∀ (ps acc : List (String × GoVal)),
      keysSortedStrict (acc ++ ps) = true →
      ps.foldl (fun m p => goMapInsert p.1 p.2 m) acc = acc ++ ps := by
    intro ps
    induction ps with
    | nil => intro acc _; simp
    | cons p ps' ih =>
      intro acc hs
      rcases p with ⟨k, v⟩
      rw [List.foldl_cons]
      have hins : goMapInsert k v acc = acc ++ [(k, v)] :=
        goMapInsert_append acc k v
          (keysSortedStrict_append_cons acc k v ps' hs)
      rw [hins, ih (acc ++ [(k, v)]) (by simpa using hs)]
      simp
  simpa using haux m [] h

/-- Helper: every value the JSON parser produces is canonical: objects
carry strictly sorted, distinct keys at every level. -/
theorem parse_canon (fuel : Nat) :
    (∀ cs v r, parseJsonVal fuel cs = some (v, r) → GoVal.canon v = true)
    ∧ (∀ cs l r, parseJsonElems fuel cs = some (l, r) →
        GoVal.canonList l = true)
    ∧ (∀ cs ms r, parseJsonMembers fuel cs = some (ms, r) →
        GoVal.canonMembers ms = true) := by
  induction fuel using Nat.strong_induction_on with
  | _ fuel ih =>
  match fuel with
  | 0 =>
    refine ⟨?_, ?_, ?_⟩ <;> intro cs a r h <;>
      simp [parseJsonVal, parseJsonElems, parseJsonMembers] at h
  | f + 1 =>
    have ihv := (ih f (Nat.lt_succ_self f)).1
    have ihe := (ih f (Nat.lt_succ_self f)).2.1
    have ihm := (ih f (Nat.lt_succ_self f)).2.2
    refine ⟨?_, ?_, ?_⟩
    · intro cs v r h
      rw [parseJsonVal] at h
      split at h
      · cases Option.some.inj h; rfl
      · cases Option.some.inj h; rfl
      · cases Option.some.inj h; rfl
      · rw [Option.map_eq_some'] at h
        obtain ⟨p, hp, hfp⟩ := h
        cases hfp
        rfl
      · split at h
        · cases Option.some.inj h; rfl
        · rw [Option.map_eq_some'] at h
          obtain ⟨p, hp, hfp⟩ := h
          cases hfp
          exact ihe _ p.1 p.2 hp
      · split at h
        · cases Option.some.inj h; rfl
        · rw [Option.map_eq_some'] at h
          obtain ⟨p, hp, hfp⟩ := h
          cases hfp
          rw [show GoVal.canon (.mapv (goMapOfPairs p.1)) =
                (keysSortedStrict (goMapOfPairs p.1) &&
                  GoVal.canonMembers (goMapOfPairs p.1)) from rfl,
              Bool.and_eq_true]
          exact ⟨goMapOfPairs_sorted p.1,
            goMapOfPairs_canonMembers p.1 (ihm _ p.1 p.2 hp)⟩
      · split_ifs at h with hc
        rw [Option.map_eq_some'] at h
        obtain ⟨p, hp, hfp⟩ := h
        cases hfp
        rfl
      · exact absurd h (by simp)
    · intro cs l r h
      rw [parseJsonElems] at h
      split at h
      · exact absurd h (by simp)
      · rename_i v0 r0 hpv
        have hcv : GoVal.canon v0 = true := ihv cs v0 r0 hpv
        split at h
        · rw [Option.map_eq_some'] at h
          obtain ⟨q, hq, hfq⟩ := h
          cases hfq
          rw [show GoVal.canonList (v0 :: q.1) =
                (GoVal.canon v0 && GoVal.canonList q.1) from rfl,
              Bool.and_eq_true]
          exact ⟨hcv, ihe _ q.1 q.2 hq⟩
        · cases Option.some.inj h
          rw [show GoVal.canonList [v0] =
                (GoVal.canon v0 && GoVal.canonList []) from rfl,
              Bool.and_eq_true]
          exact ⟨hcv, rfl⟩
        · exact absurd h (by simp)
    · intro cs ms r h
      rw [parseJsonMembers] at h
      split at h
      · rename_i r0
        split at h
        · exact absurd h (by simp)
        · rename_i key r1 hps
          split at h
          · rename_i r2
            split at h
            · exact absurd h (by simp)
            · rename_i v0 r3 hpv
              have hcv : GoVal.canon v0 = true := ihv _ v0 r3 hpv
              split at h
              · rw [Option.map_eq_some'] at h
                obtain ⟨q, hq, hfq⟩ := h
                cases hfq
                rw [show GoVal.canonMembers ((key, v0) :: q.1) =
                      (GoVal.canon v0 && GoVal.canonMembers q.1) from rfl,
                    Bool.and_eq_true]
                exact ⟨hcv, ihm _ q.1 q.2 hq⟩
              · cases Option.some.inj h
                rw [show GoVal.canonMembers [(key, v0)] =
                      (GoVal.canon v0 && GoVal.canonMembers []) from rfl,
                    Bool.and_eq_true]
                exact ⟨hcv, rfl⟩
              · exact absurd h (by simp)
          · exact absurd h (by simp)
      · exact absurd h (by simp)

/-- Helper: `hexNat` inverts `hexDigit` on a single digit. -/
theorem hexNat_hexDigit (k : Nat) (hk : k < 16) :
    hexNat (hexDigit k) = some k := by
  interval_cases k <;> decide

/-- Helper: `hex4` inverts the four emitted hex digits of a code point
below `0x10000`. -/
theorem hex4_digits (n : Nat) (hn : n < 65536) :
    hex4 (hexDigit (n / 4096 % 16)) (hexDigit (n / 256 % 16))
      (hexDigit (n / 16 % 16)) (hexDigit (n % 16)) = some n := by
  rw [hex4, hexNat_hexDigit _ (Nat.mod_lt _ (by omega)),
    hexNat_hexDigit _ (Nat.mod_lt _ (by omega)),
    hexNat_hexDigit _ (Nat.mod_lt _ (by omega)),
    hexNat_hexDigit _ (Nat.mod_lt _ (by omega))]
  show some _ = some n
  congr 1
  omega

/-- Helper: below the surrogate range, `scalarChar` is `Char.ofNat`. -/
theorem scalarChar_low (n : Nat) (hn : n < 55296) :
    scalarChar n = Char.ofNat n := by
  rw [scalarChar, if_pos]
  simp only [Bool.or_eq_true, Bool.and_eq_true, decide_eq_true_eq]
  omega

/-- Helper: a decoded `\uXXXX` escape below the surrogate range just
appends its character. -/
theorem parseUEscape_low (acc : List Char) (n : Nat) (rest : List Char)
    (hn : n < 55296) :
    parseUEscape acc n rest = parseJsonString (Char.ofNat n :: acc) rest := by
  rw [parseUEscape.eq_def, if_neg, scalarChar_low n hn]
  simp only [Bool.and_eq_true, decide_eq_true_eq, not_and]
  omega

/-- Helper: parsing a marshalled character escape appends exactly that
character. -/
theorem parseJsonString_escape (c : Char) (acc rest : List Char) :
    parseJsonString acc (goEscapeChar c ++ rest) =
      parseJsonString (c :: acc) rest := by
  rw [goEscapeChar]
  split_ifs with h1 h2 h3 h4 h5 h6 h7
  · subst h1; simp [parseJsonString, goUnescape]
  · subst h2; simp [parseJsonString, goUnescape]
  · subst h3; simp [parseJsonString, goUnescape]
  · subst h4; simp [parseJsonString, goUnescape]
  · subst h5; simp [parseJsonString, goUnescape]
  · simp only [Bool.or_eq_true, decide_eq_true_eq] at h6
    have hlt : c.toNat < 65536 := by
      rcases h6 with ((h | h) | h) | h
      · omega
      · subst h; decide
      · subst h; decide
      · subst h; decide
    have hlow : c.toNat < 55296 := by
      rcases h6 with ((h | h) | h) | h
      · omega
      · subst h; decide
      · subst h; decide
      · subst h; decide
    rw [show ('\\' :: 'u' :: hexDigit (c.toNat / 4096 % 16) ::
          hexDigit (c.toNat / 256 % 16) :: hexDigit (c.toNat / 16 % 16) ::
          hexDigit (c.toNat % 16) :: []) ++ rest =
        '\\' :: 'u' :: hexDigit (c.toNat / 4096 % 16) ::
          hexDigit (c.toNat / 256 % 16) :: hexDigit (c.toNat / 16 % 16) ::
          hexDigit (c.toNat % 16) :: rest from rfl,
      parseJsonString, hex4_digits _ hlt]
    show parseUEscape acc c.toNat rest = _
    rw [parseUEscape_low _ _ _ hlow, Char.ofNat_toNat]
  · simp only [Bool.or_eq_true, decide_eq_true_eq] at h7
    rcases h7 with h | h
    · have hc : c = Char.ofNat 8232 := by rw [← Char.ofNat_toNat c, h]
      subst hc
      have hd : hexDigit ((Char.ofNat 8232).toNat % 16) = '8' := by decide
      rw [hd]
      rw [show ('\\' :: 'u' :: '2' :: '0' :: '2' :: '8' :: []) ++ rest =
          '\\' :: 'u' :: '2' :: '0' :: '2' :: '8' :: rest from rfl,
        parseJsonString, show hex4 '2' '0' '2' '8' = some 8232 from by decide]
      show parseUEscape acc 8232 rest = _
      rw [parseUEscape_low _ _ _ (by omega)]
    · have hc : c = Char.ofNat 8233 := by rw [← Char.ofNat_toNat c, h]
      subst hc
      have hd : hexDigit ((Char.ofNat 8233).toNat % 16) = '9' := by decide
      rw [hd]
      rw [show ('\\' :: 'u' :: '2' :: '0' :: '2' :: '9' :: []) ++ rest =
          '\\' :: 'u' :: '2' :: '0' :: '2' :: '9' :: rest from rfl,
        parseJsonString, show hex4 '2' '0' '2' '9' = some 8233 from by decide]
      show parseUEscape acc 8233 rest = _
      rw [parseUEscape_low _ _ _ (by omega)]
  · show parseJsonString acc (c :: rest) = parseJsonString (c :: acc) rest
    have h20 : ¬(c.toNat < 32) := by
      intro h
      exact h6 (by simp only [Bool.or_eq_true, decide_eq_true_eq]; omega)
    rw [parseJsonString.eq_def]
    simp [h1, h2, h20]

/-- Helper: parsing an escaped character list up to the closing quote
returns the original characters. -/
theorem parseJsonString_flatMap : ∀ (cs acc rest : List Char),
    parseJsonString acc (cs.flatMap goEscapeChar ++ '"' :: rest) =
      some (String.mk (acc.reverse ++ cs), rest)
  | [], acc, rest => by
    simp [parseJsonString]
  | c :: cs', acc, rest => by
    rw [List.flatMap_cons, List.append_assoc, parseJsonString_escape,
      parseJsonString_flatMap cs' (c :: acc) rest]
    simp

/-- Helper: `String.mk` inverts `String.toList`. -/
theorem String.mk_toList (s : String) : String.mk s.toList = s := by
  cases s; rfl

/-- Helper: a marshalled string body parses back to the string. -/
theorem parseJsonString_marshal (s : String) (rest : List Char) :
    parseJsonString [] (s.toList.flatMap goEscapeChar ++ '"' :: rest) =
      some (s, rest) := by
  rw [parseJsonString_flatMap]
  simp [String.mk_toList]

/-- Helper: decimal digit characters are digits. -/
theorem digitChar_isDigit (k : Nat) (hk : k < 10) :
    isDigitCh (Char.ofNat (48 + k)) = true := by
  interval_cases k <;> decide

/-- Helper: value of a decimal digit character. -/
theorem digitChar_toNat (k : Nat) (hk : k < 10) :
    (Char.ofNat (48 + k)).toNat = 48 + k := by
  interval_cases k <;> decide

/-- Helper: the digits of a small number. -/
theorem natDigits_small (n : Nat) (hn : n < 10) (acc : List Char) :
    natDigits n acc = Char.ofNat (48 + n) :: acc := by
  rw [natDigits]
  simp only [if_pos hn, Nat.mod_eq_of_lt hn]
  rfl

/-- Helper: `natDigits` always begins with a digit character. -/
theorem natDigits_shape : ∀ (n : Nat) (acc : List Char),
    ∃ c cs, natDigits n acc = c :: cs ∧ isDigitCh c = true := by
  intro n
  induction n using Nat.strong_induction_on with
  | _ n ih =>
    intro acc
    by_cases hn : n < 10
    · exact ⟨_, _, natDigits_small n hn acc, digitChar_isDigit n hn⟩
    · rw [natDigits, if_neg hn]
      exact ih (n / 10) (Nat.div_lt_self (by omega) (by omega)) _

/-- Helper: for `10 ≤ n` the leading digit is never `0`. -/
theorem natDigits_head_ne_zero : ∀ (n : Nat), 10 ≤ n → ∀ (acc : List Char),
    ∃ c cs, natDigits n acc = c :: cs ∧ isDigitCh c = true ∧ c ≠ '0' := by
  intro n
  induction n using Nat.strong_induction_on with
  | _ n ih =>
    intro hn acc
    rw [natDigits, if_neg (by omega)]
    by_cases h10 : n / 10 < 10
    · have h1 : 1 ≤ n / 10 := by omega
      rw [natDigits_small _ h10]
      refine ⟨_, _, rfl, digitChar_isDigit _ h10, ?_⟩
      have := digitChar_toNat (n / 10) h10
      intro hc
      have : (Char.ofNat (48 + n / 10)).toNat = '0'.toNat := by rw [hc]
      rw [digitChar_toNat _ h10] at this
      simp only [show '0'.toNat = 48 from rfl] at this
      omega
    · exact ih (n / 10) (Nat.div_lt_self (by omega) (by omega)) (by omega) _

/-- Helper: length of the digits of a small number is one. -/
theorem natDigits_small_len (n : Nat) (hn : n < 10) :
    (natDigits n []).length = 1 := by
  rw [natDigits_small n hn]
  rfl

/-- Helper: folding the digit-accumulation step over `natDigits`. -/
theorem foldl_natDigits : ∀ (n : Nat) (acc : List Char),
    List.foldl (fun a c => a * 10 + (c.toNat - '0'.toNat)) 0
        (natDigits n acc) =
      List.foldl (fun a c => a * 10 + (c.toNat - '0'.toNat)) n acc := by
  intro n
  induction n using Nat.strong_induction_on with
  | _ n ih =>
    intro acc
    by_cases hn : n < 10
    · rw [natDigits_small n hn, List.foldl_cons]
      have := digitChar_toNat n hn
      rw [this]
      simp only [show '0'.toNat = 48 from rfl]
      congr 1
      omega
    · rw [natDigits, if_neg hn,
        ih (n / 10) (Nat.div_lt_self (by omega) (by omega)) _,
        List.foldl_cons]
      have hm : n % 10 < 10 := Nat.mod_lt _ (by omega)
      simp only [show ('0'.toNat : Nat) = 48 from rfl]
      rw [digitChar_toNat _ hm]
      congr 1
      omega

/-- Helper: the decimal value of the emitted digits. -/
theorem digitsVal_natDigits (n : Nat) : digitsVal (natDigits n []) = n := by
  rw [digitsVal, foldl_natDigits]
  rfl

/-- Helper: all characters of `natDigits` over a digit accumulator are
digits. -/
theorem natDigits_all_digits : ∀ (n : Nat) (acc : List Char),
    (∀ c ∈ acc, isDigitCh c = true) →
    ∀ c ∈ natDigits n acc, isDigitCh c = true := by
  intro n
  induction n using Nat.strong_induction_on with
  | _ n ih =>
    intro acc hacc c hc
    by_cases hn : n < 10
    · rw [natDigits_small n hn] at hc
      rcases List.mem_cons.mp hc with rfl | hc'
      · exact digitChar_isDigit n hn
      · exact hacc c hc'
    · rw [natDigits, if_neg hn] at hc
      refine ih (n / 10) (Nat.div_lt_self (by omega) (by omega)) _ ?_ c hc
      intro c' hc'
      rcases List.mem_cons.mp hc' with rfl | hc''
      · exact digitChar_isDigit _ (Nat.mod_lt _ (by omega))
      · exact hacc c' hc''

/-- Helper: `takeDigits` splits a digit run followed by a non-digit. -/
theorem takeDigits_append : ∀ (ds rest : List Char),
    (∀ c ∈ ds, isDigitCh c = true) →
    (∀ c, rest.head? = some c → isDigitCh c = false) →
    takeDigits (ds ++ rest) = (ds, rest)
  | [], rest, _, hrest => by
    cases rest with
    | nil => rfl
    | cons c t =>
      rw [List.nil_append, takeDigits, if_neg]
      rw [hrest c rfl]
      simp
  | d :: ds', rest, hds, hrest => by
    rw [List.cons_append, takeDigits,
      if_pos (hds d (List.mem_cons_self _ _)),
      takeDigits_append ds' rest
        (fun c hc => hds c (List.mem_cons_of_mem _ hc)) hrest]

/-- Helper: the leading-zero guard never fires on `natDigits`. -/
theorem natDigits_no_leading_zero (n : Nat) :
    (1 < (natDigits n []).length ∧ (natDigits n []).head? = some '0') →
    False := by
  rintro ⟨hlen, hhead⟩
  by_cases hn : n < 10
  · rw [natDigits_small_len n hn] at hlen
    omega
  · obtain ⟨c, cs, hds, _, hc0⟩ := natDigits_head_ne_zero n (by omega) []
    rw [hds] at hhead
    simp only [List.head?_cons, Option.some.injEq] at hhead
    exact hc0 hhead

/-- Helper: parsing a rendered integer followed by a delimiter returns
the integer. -/
theorem parseJsonNum_intToChars (i : Int) (rest : List Char)
    (hrest : ∀ c, rest.head? = some c →
      isDigitCh c = false ∧ c ≠ '.' ∧ c ≠ 'e' ∧ c ≠ 'E') :
    parseJsonNum (intToChars i ++ rest) = some (i, rest) := by
  have hdig : ∀ c ∈ natDigits i.natAbs [], isDigitCh c = true :=
    natDigits_all_digits i.natAbs [] (by intro c hc; cases hc)
  have htake : takeDigits (natDigits i.natAbs [] ++ rest) =
      (natDigits i.natAbs [], rest) :=
    takeDigits_append _ _ hdig (fun c hc => (hrest c hc).1)
  obtain ⟨c0, cs0, hds, hcd⟩ := natDigits_shape i.natAbs []
  have hguard : ¬((1 < (c0 :: cs0).length &&
      ((c0 :: cs0).head? = some '0')) = true) := by
    simp only [Bool.and_eq_true, decide_eq_true_eq, not_and]
    intro h1 h2
    rw [← hds] at h1 h2
    exact natDigits_no_leading_zero i.natAbs ⟨h1, h2⟩
  have hdv : digitsVal (c0 :: cs0) = i.natAbs := by
    rw [← hds, digitsVal_natDigits]
  by_cases hi : i < 0
  · have hsh : intToChars i ++ rest =
        '-' :: (natDigits i.natAbs [] ++ rest) := by
      rw [intToChars, if_pos hi]
      rfl
    rw [hsh, parseJsonNum]
    simp only []
    rw [htake, hds]
    simp only []
    rw [if_neg hguard]
    have hneg : -(digitsVal (c0 :: cs0) : Int) = i := by
      rw [hdv]; omega
    rcases rest with _ | ⟨c, t⟩
    · simp [hneg]
    · rcases hrest c rfl with ⟨_, hdot, he, hE⟩
      split
      · rename_i heq; cases heq; exact absurd rfl hdot
      · rename_i heq; cases heq; exact absurd rfl he
      · rename_i heq; cases heq; exact absurd rfl hE
      · simp [hneg]
  · have hsh : intToChars i ++ rest = c0 :: (cs0 ++ rest) := by
      rw [intToChars, if_neg hi, List.nil_append, hds]
      rfl
    have hcne : c0 ≠ '-' := by
      intro h
      rw [h] at hcd
      exact absurd hcd (by decide)
    have htk2 : takeDigits (c0 :: (cs0 ++ rest)) = (c0 :: cs0, rest) := by
      rw [show c0 :: (cs0 ++ rest) = natDigits i.natAbs [] ++ rest from by
          rw [hds]; rfl,
        htake, hds]
    rw [hsh, parseJsonNum]
    split
    · rename_i snd1 heq1
      rw [htk2] at heq1
      exact absurd (Prod.mk.inj heq1.symm).1.symm (by simp)
    · rename_i ds1 r1 hne1 htk1
      rw [htk2] at htk1
      obtain ⟨rfl, rfl⟩ := Prod.mk.inj htk1
      rw [if_neg hguard]
      have hpos : (digitsVal (c0 :: cs0) : Int) = i := by
        rw [hdv]; omega
      rcases rest with _ | ⟨c, t⟩
      · simp [hpos]
      · rcases hrest c rfl with ⟨_, hdot, he, hE⟩
        split
        · rename_i heq; cases heq; exact absurd rfl hdot
        · rename_i heq; cases heq; exact absurd rfl he
        · rename_i heq; cases heq; exact absurd rfl hE
        · simp [hpos]
    · intro r h
      exact hcne (List.cons.inj h).1

/-- Helper: skipping whitespace is the identity on a non-whitespace
head. -/
theorem skipJsonWs_cons (c : Char) (t : List Char) (h : jsonWs c = false) :
    skipJsonWs (c :: t) = c :: t := by
  rw [skipJsonWs, h]
  rfl

/-- Helper: a digit character is not JSON whitespace. -/
theorem jsonWs_of_digit (c : Char) (h : isDigitCh c = true) :
    jsonWs c = false := by
  rw [isDigitCh, Bool.and_eq_true, decide_eq_true_eq, decide_eq_true_eq] at h
  rw [jsonWs, Bool.eq_false_iff]
  intro hw
  rcases (by simpa using hw : ((c = ' ' ∨ c = '\t') ∨ c = '\n') ∨ c = '\x0d')
    with ((rfl | rfl) | rfl) | rfl <;> revert h <;> decide

/-- Helper: a digit character is none of the structural JSON
characters. -/
theorem digit_ne (c : Char) (h : isDigitCh c = true) :
    c ≠ 'n' ∧ c ≠ 't' ∧ c ≠ 'f' ∧ c ≠ '"' ∧ c ≠ '[' ∧ c ≠ '{' ∧
      c ≠ ']' ∧ c ≠ '}' ∧ c ≠ ',' := by
  refine ⟨?_, ?_, ?_, ?_, ?_, ?_, ?_, ?_, ?_⟩ <;>
    (rintro rfl; revert h; decide)

/-- Helper: a marshalled value begins with a non-whitespace character
that closes no bracket. -/
theorem marshal_head : ∀ (v : GoVal), ∃ c t, goMarshalVal v = c :: t ∧
    jsonWs c = false ∧ c ≠ ']' ∧ c ≠ '}'
  | .nullv => ⟨'n', _, rfl, by decide, by decide, by decide⟩
  | .boolv true => ⟨'t', _, rfl, by decide, by decide, by decide⟩
  | .boolv false => ⟨'f', _, rfl, by decide, by decide, by decide⟩
  | .strv s => ⟨'"', _, rfl, by decide, by decide, by decide⟩
  | .listv l => ⟨'[', _, rfl, by decide, by decide, by decide⟩
  | .mapv m => ⟨'{', _, rfl, by decide, by decide, by decide⟩
  | .numv i => by
    by_cases hi : i < 0
    · refine ⟨'-', natDigits i.natAbs [], ?_, by decide, by decide, by decide⟩
      rw [show goMarshalVal (.numv i) = intToChars i from rfl, intToChars,
        if_pos hi]
      rfl
    · obtain ⟨c0, cs0, hds, hcd⟩ := natDigits_shape i.natAbs []
      refine ⟨c0, cs0, ?_, jsonWs_of_digit c0 hcd,
        (digit_ne c0 hcd).2.2.2.2.2.2.1, (digit_ne c0 hcd).2.2.2.2.2.2.2.1⟩
      rw [show goMarshalVal (.numv i) = intToChars i from rfl, intToChars,
        if_neg hi, List.nil_append, hds]

/-- Helper: a marshalled value is never empty. -/
theorem marshal_len_pos (v : GoVal) : 1 ≤ (goMarshalVal v).length := by
  obtain ⟨c, t, hct, -⟩ := marshal_head v
  rw [hct]
  simp

/-- Helper: a digit character is one of the ten digits. -/
theorem digit_enum (c : Char) (h : isDigitCh c = true) :
    c = '0' ∨ c = '1' ∨ c = '2' ∨ c = '3' ∨ c = '4' ∨ c = '5' ∨
      c = '6' ∨ c = '7' ∨ c = '8' ∨ c = '9' := by
  rw [isDigitCh, Bool.and_eq_true, decide_eq_true_eq, decide_eq_true_eq] at h
  have hlo : 48 ≤ c.toNat := h.1
  have hhi : c.toNat ≤ 57 := h.2
  have h10 : c.toNat = 48 ∨ c.toNat = 49 ∨ c.toNat = 50 ∨ c.toNat = 51 ∨
      c.toNat = 52 ∨ c.toNat = 53 ∨ c.toNat = 54 ∨ c.toNat = 55 ∨
      c.toNat = 56 ∨ c.toNat = 57 := by omega
  rw [← Char.ofNat_toNat c]
  rcases h10 with h' | h' | h' | h' | h' | h' | h' | h' | h' | h' <;>
    rw [h'] <;> decide

/-- Helper: on a digit-headed input the parser dispatches to the number
parser. -/
theorem parseJsonVal_digit (f : Nat) (c : Char) (r : List Char)
    (h : isDigitCh c = true) :
    parseJsonVal (f + 1) (c :: r) =
      (parseJsonNum (c :: r)).map (fun p => (GoVal.numv p.1, p.2)) := by
  rcases digit_enum c h with rfl | rfl | rfl | rfl | rfl | rfl | rfl | rfl | rfl | rfl <;> rfl

/-- Helper: parsing a marshalled canonical value, element list or member
list returns it exactly, leaving the delimiter-led remainder. -/
theorem rt_parse (fuel : Nat) :
    (∀ v rest, GoVal.canon v = true →
      (∀ c, rest.head? = some c →
        isDigitCh c = false ∧ c ≠ '.' ∧ c ≠ 'e' ∧ c ≠ 'E') →
      (goMarshalVal v).length < fuel →
      parseJsonVal fuel (goMarshalVal v ++ rest) = some (v, rest))
    ∧ (∀ l rest, l ≠ [] → GoVal.canonList l = true →
      (goMarshalElems l).length + 1 < fuel →
      parseJsonElems fuel (goMarshalElems l ++ ']' :: rest) = some (l, rest))
    ∧ (∀ m rest, m ≠ [] → GoVal.canonMembers m = true →
      (goMarshalMembers m).length + 1 < fuel →
      parseJsonMembers fuel (goMarshalMembers m ++ '}' :: rest) =
        some (m, rest)) := by
  induction fuel using Nat.strong_induction_on with
  | _ fuel ih =>
  match fuel with
  | 0 =>
    refine ⟨?_, ?_, ?_⟩
    · intro v rest _ _ hlen; omega
    · intro l rest _ _ hlen; omega
    · intro m rest _ _ hlen; omega
  | f + 1 =>
    have ihv := (ih f (Nat.lt_succ_self f)).1
    have ihe := (ih f (Nat.lt_succ_self f)).2.1
    have ihm := (ih f (Nat.lt_succ_self f)).2.2
    refine ⟨?_, ?_, ?_⟩
    · intro v rest hcanon hdel hlen
      rcases v with _ | b | i | s | l | m
      · rw [parseJsonVal,
          show goMarshalVal .nullv ++ rest = 'n' :: 'u' :: 'l' :: 'l' :: rest
            from rfl,
          skipJsonWs_cons _ _ (by decide)]
        rfl
      · rcases b with _ | _
        · rw [parseJsonVal,
            show goMarshalVal (.boolv false) ++ rest =
              'f' :: 'a' :: 'l' :: 's' :: 'e' :: rest from rfl,
            skipJsonWs_cons _ _ (by decide)]
          rfl
        · rw [parseJsonVal,
            show goMarshalVal (.boolv true) ++ rest =
              't' :: 'r' :: 'u' :: 'e' :: rest from rfl,
            skipJsonWs_cons _ _ (by decide)]
          rfl
      · by_cases hi : i < 0
        · have hsh : goMarshalVal (.numv i) ++ rest =
              '-' :: (natDigits i.natAbs [] ++ rest) := by
            rw [show goMarshalVal (.numv i) = intToChars i from rfl,
              intToChars, if_pos hi]
            rfl
          rw [hsh, parseJsonVal, skipJsonWs_cons _ _ (by decide)]
          show Option.map (fun p => (GoVal.numv p.1, p.2))
            (parseJsonNum ('-' :: (natDigits i.natAbs [] ++ rest))) =
              some (GoVal.numv i, rest)
          rw [show '-' :: (natDigits i.natAbs [] ++ rest) =
              intToChars i ++ rest from by
                rw [intToChars, if_pos hi]; rfl,
            parseJsonNum_intToChars i rest hdel]
          rfl
        · obtain ⟨c0, cs0, hds, hcd⟩ := natDigits_shape i.natAbs []
          have hsh : goMarshalVal (.numv i) ++ rest = c0 :: (cs0 ++ rest) := by
            rw [show goMarshalVal (.numv i) = intToChars i from rfl,
              intToChars, if_neg hi, List.nil_append, hds]
            rfl
          rw [hsh, parseJsonVal_digit f c0 _ hcd]
          rw [show c0 :: (cs0 ++ rest) = intToChars i ++ rest from by
              rw [intToChars, if_neg hi, List.nil_append, hds]; rfl,
            parseJsonNum_intToChars i rest hdel]
          rfl
      · have hsh : goMarshalVal (.strv s) ++ rest =
            '"' :: (s.toList.flatMap goEscapeChar ++ '"' :: rest) := by
          rw [show goMarshalVal (.strv s) = goMarshalStr s from rfl,
            goMarshalStr]
          simp
        rw [hsh, parseJsonVal, skipJsonWs_cons _ _ (by decide)]
        simp only []
        rw [parseJsonString_marshal]
        rfl
      · rcases l with _ | ⟨v0, vs⟩
        · rw [parseJsonVal,
            show goMarshalVal (.listv []) ++ rest = '[' :: ']' :: rest
              from rfl,
            skipJsonWs_cons _ _ (by decide)]
          rfl
        · have hcl : GoVal.canonList (v0 :: vs) = true := hcanon
          have hsh : goMarshalVal (.listv (v0 :: vs)) ++ rest =
              '[' :: (goMarshalElems (v0 :: vs) ++ ']' :: rest) := by
            rw [show goMarshalVal (.listv (v0 :: vs)) =
                '[' :: (goMarshalElems (v0 :: vs) ++ [']']) from rfl]
            simp
          have hlen' : (goMarshalElems (v0 :: vs)).length + 1 < f := by
            rw [show goMarshalVal (.listv (v0 :: vs)) =
                '[' :: (goMarshalElems (v0 :: vs) ++ [']']) from rfl] at hlen
            simp at hlen
            omega
          rw [hsh, parseJsonVal, skipJsonWs_cons _ _ (by decide)]
          simp only []
          obtain ⟨c, t, hct, hws, hrb, _⟩ := marshal_head v0
          have hel : goMarshalElems (v0 :: vs) ++ ']' :: rest =
              c :: (t ++ (goMarshalElemsTail vs ++ ']' :: rest)) := by
            rw [show goMarshalElems (v0 :: vs) =
                goMarshalVal v0 ++ goMarshalElemsTail vs from rfl, hct]
            simp
          rw [hel, skipJsonWs_cons _ _ hws]
          split
          · rename_i heq; exact absurd (List.cons.inj heq).1 hrb
          · rw [← hel, ihe (v0 :: vs) rest (by simp) hcl hlen']
            rfl
      · rcases m with _ | ⟨⟨k, w⟩, ms⟩
        · rw [parseJsonVal,
            show goMarshalVal (.mapv []) ++ rest = '{' :: '}' :: rest
              from rfl,
            skipJsonWs_cons _ _ (by decide)]
          rfl
        · have hcm : (keysSortedStrict ((k, w) :: ms) &&
              GoVal.canonMembers ((k, w) :: ms)) = true := hcanon
          rw [Bool.and_eq_true] at hcm
          have hsh : goMarshalVal (.mapv ((k, w) :: ms)) ++ rest =
              '{' :: (goMarshalMembers ((k, w) :: ms) ++ '}' :: rest) := by
            rw [show goMarshalVal (.mapv ((k, w) :: ms)) =
                '{' :: (goMarshalMembers ((k, w) :: ms) ++ ['}']) from rfl]
            simp
          have hlen' : (goMarshalMembers ((k, w) :: ms)).length + 1 < f := by
            rw [show goMarshalVal (.mapv ((k, w) :: ms)) =
                '{' :: (goMarshalMembers ((k, w) :: ms) ++ ['}']) from rfl]
              at hlen
            simp at hlen
            omega
          rw [hsh, parseJsonVal, skipJsonWs_cons _ _ (by decide)]
          simp only []
          have hmm : goMarshalMembers ((k, w) :: ms) ++ '}' :: rest =
              '"' :: (k.toList.flatMap goEscapeChar ++
                ('"' :: ':' :: (goMarshalVal w ++
                  (goMarshalMembersTail ms ++ '}' :: rest)))) := by
            rw [show goMarshalMembers ((k, w) :: ms) =
                goMarshalStr k ++ ':' :: (goMarshalVal w ++
                  goMarshalMembersTail ms) from rfl,
              goMarshalStr]
            simp
          rw [hmm, skipJsonWs_cons _ _ (by decide)]
          split
          · rename_i heq; exact absurd (List.cons.inj heq).1 (by decide)
          · rw [← hmm, ihm ((k, w) :: ms) rest (by simp) hcm.2 hlen']
            show some (GoVal.mapv (goMapOfPairs ((k, w) :: ms)), rest) =
              some (GoVal.mapv ((k, w) :: ms), rest)
            rw [goMapOfPairs_of_sorted _ hcm.1]
    · intro l rest hne hcl hlen
      rcases l with _ | ⟨v0, vs⟩
      · exact absurd rfl hne
      rw [parseJsonElems]
      rw [show GoVal.canonList (v0 :: vs) =
            (GoVal.canon v0 && GoVal.canonList vs) from rfl,
        Bool.and_eq_true] at hcl
      rcases vs with _ | ⟨v1, vs'⟩
      · have hsh : goMarshalElems [v0] ++ ']' :: rest =
            goMarshalVal v0 ++ ']' :: rest := by
          rw [show goMarshalElems [v0] =
              goMarshalVal v0 ++ goMarshalElemsTail [] from rfl]
          simp [goMarshalElemsTail]
        have hlen0 : (goMarshalVal v0).length < f := by
          rw [show goMarshalElems [v0] =
              goMarshalVal v0 ++ goMarshalElemsTail [] from rfl] at hlen
          simp [goMarshalElemsTail] at hlen
          omega
        rw [hsh, ihv v0 (']' :: rest) hcl.1
          (by intro c hc; cases hc; refine ⟨by decide, by decide, by decide, by decide⟩)
          hlen0]
        simp only []
        rw [skipJsonWs_cons _ _ (by decide)]
        rfl
      · have hsh : goMarshalElems (v0 :: v1 :: vs') ++ ']' :: rest =
            goMarshalVal v0 ++ (',' ::
              (goMarshalElems (v1 :: vs') ++ ']' :: rest)) := by
          rw [show goMarshalElems (v0 :: v1 :: vs') =
              goMarshalVal v0 ++ goMarshalElemsTail (v1 :: vs') from rfl,
            show goMarshalElemsTail (v1 :: vs') =
              ',' :: (goMarshalVal v1 ++ goMarshalElemsTail vs') from rfl,
            show goMarshalElems (v1 :: vs') =
              goMarshalVal v1 ++ goMarshalElemsTail vs' from rfl]
          simp
        have hlens : (goMarshalVal v0).length < f ∧
            (goMarshalElems (v1 :: vs')).length + 1 < f := by
          rw [show goMarshalElems (v0 :: v1 :: vs') =
              goMarshalVal v0 ++ goMarshalElemsTail (v1 :: vs') from rfl,
            show goMarshalElemsTail (v1 :: vs') =
              ',' :: (goMarshalVal v1 ++ goMarshalElemsTail vs') from rfl]
            at hlen
          have h0 := marshal_len_pos v0
          have h1 := marshal_len_pos v1
          rw [show goMarshalElems (v1 :: vs') =
              goMarshalVal v1 ++ goMarshalElemsTail vs' from rfl]
          simp at hlen ⊢
          omega
        rw [hsh, ihv v0 (',' :: (goMarshalElems (v1 :: vs') ++ ']' :: rest))
          hcl.1
          (by intro c hc; cases hc; refine ⟨by decide, by decide, by decide, by decide⟩)
          hlens.1]
        simp only []
        rw [skipJsonWs_cons _ _ (by decide)]
        simp only []
        rw [ihe (v1 :: vs') rest (by simp) hcl.2 hlens.2]
        rfl
    · intro m rest hne hcm hlen
      rcases m with _ | ⟨⟨k, w⟩, ms⟩
      · exact absurd rfl hne
      rw [parseJsonMembers]
      rw [show GoVal.canonMembers ((k, w) :: ms) =
            (GoVal.canon w && GoVal.canonMembers ms) from rfl,
        Bool.and_eq_true] at hcm
      have hmm : goMarshalMembers ((k, w) :: ms) ++ '}' :: rest =
          '"' :: (k.toList.flatMap goEscapeChar ++
            ('"' :: ':' :: (goMarshalVal w ++
              (goMarshalMembersTail ms ++ '}' :: rest)))) := by
        rw [show goMarshalMembers ((k, w) :: ms) =
            goMarshalStr k ++ ':' :: (goMarshalVal w ++
              goMarshalMembersTail ms) from rfl,
          goMarshalStr]
        simp
      have hkl : 2 ≤ (goMarshalStr k).length := by
        rw [goMarshalStr]
        simp
      have hlens : (goMarshalVal w).length < f ∧
          ((goMarshalMembersTail ms = [] ∧ ms = []) ∨
            ∃ k1 w1 ms', ms = (k1, w1) :: ms' ∧
              (goMarshalMembers ms).length + 1 < f) := by
        rw [show goMarshalMembers ((k, w) :: ms) =
            goMarshalStr k ++ ':' :: (goMarshalVal w ++
              goMarshalMembersTail ms) from rfl] at hlen
        simp at hlen
        constructor
        · omega
        · rcases ms with _ | ⟨⟨k1, w1⟩, ms'⟩
          · exact Or.inl ⟨rfl, rfl⟩
          · refine Or.inr ⟨k1, w1, ms', rfl, ?_⟩
            rw [show goMarshalMembersTail ((k1, w1) :: ms') =
                ',' :: (goMarshalStr k1 ++ ':' :: (goMarshalVal w1 ++
                  goMarshalMembersTail ms')) from rfl] at hlen
            rw [show goMarshalMembers ((k1, w1) :: ms') =
                goMarshalStr k1 ++ ':' :: (goMarshalVal w1 ++
                  goMarshalMembersTail ms') from rfl]
            simp at hlen ⊢
            omega
      rw [hmm, skipJsonWs_cons _ _ (by decide)]
      simp only []
      rw [show k.toList.flatMap goEscapeChar ++
            ('"' :: ':' :: (goMarshalVal w ++
              (goMarshalMembersTail ms ++ '}' :: rest))) =
          k.toList.flatMap goEscapeChar ++
            '"' :: (':' :: (goMarshalVal w ++
              (goMarshalMembersTail ms ++ '}' :: rest))) from rfl,
        parseJsonString_marshal]
      simp only []
      rw [skipJsonWs_cons _ _ (by decide)]
      simp only []
      rcases hlens.2 with ⟨htail, rfl⟩ | ⟨k1, w1, ms', rfl, hlen2⟩
      · rw [htail, List.nil_append,
          ihv w ('}' :: rest) hcm.1
            (by intro c hc; cases hc; refine ⟨by decide, by decide, by decide, by decide⟩)
            hlens.1]
        simp only []
        rw [skipJsonWs_cons _ _ (by decide)]
        rfl
      · have htl : goMarshalMembersTail ((k1, w1) :: ms') ++ '}' :: rest =
            ',' :: (goMarshalMembers ((k1, w1) :: ms') ++ '}' :: rest) := by
          rw [show goMarshalMembersTail ((k1, w1) :: ms') =
              ',' :: (goMarshalStr k1 ++ ':' :: (goMarshalVal w1 ++
                goMarshalMembersTail ms')) from rfl,
            show goMarshalMembers ((k1, w1) :: ms') =
              goMarshalStr k1 ++ ':' :: (goMarshalVal w1 ++
                goMarshalMembersTail ms') from rfl]
          simp
        rw [show goMarshalVal w ++
              (goMarshalMembersTail ((k1, w1) :: ms') ++ '}' :: rest) =
            goMarshalVal w ++
              (',' :: (goMarshalMembers ((k1, w1) :: ms') ++ '}' :: rest))
            from by rw [htl],
          ihv w (',' :: (goMarshalMembers ((k1, w1) :: ms') ++ '}' :: rest))
            hcm.1
            (by intro c hc; cases hc; refine ⟨by decide, by decide, by decide, by decide⟩)
            hlens.1]
        simp only []
        rw [skipJsonWs_cons _ _ (by decide)]
        simp only []
        rw [ihm ((k1, w1) :: ms') rest (by simp) hcm.2 hlen2]
        rfl

/-- Helper: any map produced by `goUnmarshalMap` has strictly sorted
keys and canonical member values. -/
theorem goUnmarshalMap_canon (s : String) (m : List (String × GoVal))
    (h : goUnmarshalMap s = some (some m)) :
    keysSortedStrict m = true ∧ GoVal.canonMembers m = true := by
  rw [goUnmarshalMap] at h
  rcases hpv : parseJsonVal (s.toList.length + 1) s.toList with _ | ⟨v, r⟩
  · rw [hpv] at h; simp at h
  · rw [hpv] at h
    simp only [] at h
    split_ifs at h with hemp
    · split at h
      · simp at h
      · rename_i m0
        have hm0 : m0 = m := by simpa using h
        have hc := (parse_canon (s.toList.length + 1)).1 _ _ _ hpv
        rw [show GoVal.canon (.mapv m0) =
            (keysSortedStrict m0 && GoVal.canonMembers m0) from rfl,
          Bool.and_eq_true, hm0] at hc
        exact hc
      · simp at h

/-- Helper: unmarshalling the marshalled form of a canonical decoded map
returns it unchanged. -/
theorem goUnmarshalMap_goMarshalMapTop (d : Option (List (String × GoVal)))
    (h : ∀ m, d = some m →
      keysSortedStrict m = true ∧ GoVal.canonMembers m = true) :
    goUnmarshalMap (goMarshalMapTop d) = some d := by
  rcases d with _ | m
  · rfl
  · obtain ⟨hsor, hmem⟩ := h m rfl
    have hcs : (goMarshalMapTop (some m)).toList =
        goMarshalVal (.mapv m) ++ [] := by
      rw [List.append_nil]
      rfl
    have hcanon : GoVal.canon (.mapv m) = true := by
      rw [show GoVal.canon (.mapv m) =
          (keysSortedStrict m && GoVal.canonMembers m) from rfl,
        Bool.and_eq_true]
      exact ⟨hsor, hmem⟩
    have hrt := (rt_parse ((goMarshalMapTop (some m)).toList.length + 1)).1
      (GoVal.mapv m) [] hcanon (by intro c hc; cases hc)
      (by rw [hcs]; simp)
    rw [goUnmarshalMap]
    nth_rewrite 2 [hcs]
    rw [hrt]
    rfl

/-- Helper: the marshalled form of a decoded map is never the empty
string. -/
theorem goMarshalMapTop_ne_empty (d : Option (List (String × GoVal))) :
    goMarshalMapTop d ≠ "" := by
  rcases d with _ | m
  · decide
  · intro h
    have h2 : ('{' :: (goMarshalMembers m ++ ['}'])) = ([] : List Char) :=
      congrArg String.data h
    cases h2

/-- Helper: the empty string does not unmarshal. -/
theorem goUnmarshalMap_empty : goUnmarshalMap "" = none := rfl

/-- Helper: the plan modifier is idempotent. -/
theorem planModifyDynamic_idem (v : DynVal) :
    planModifyDynamic (planModifyDynamic v) = planModifyDynamic v := by
  rcases v with _ | _ | u
  · rfl
  · rfl
  rcases u with sv | m
  swap
  · rfl
  rcases sv with _ | _ | s
  · rfl
  · rfl
  by_cases hs : s = ""
  · subst hs
    rfl
  rcases hm : goUnmarshalMap s with _ | d
  · rw [show planModifyDynamic (.dval (.ustr (.value s))) =
        .dval (.ustr (.value s)) from by
          rw [planModifyDynamic]
          simp only [if_neg hs]
          rw [hm],
      show planModifyDynamic (.dval (.ustr (.value s))) =
        .dval (.ustr (.value s)) from by
          rw [planModifyDynamic]
          simp only [if_neg hs]
          rw [hm]]
  · have h1 : planModifyDynamic (.dval (.ustr (.value s))) =
        .dval (.ustr (.value (goMarshalMapTop d))) := by
      rw [planModifyDynamic]
      simp only [if_neg hs]
      rw [hm]
    have h2 : goUnmarshalMap (goMarshalMapTop d) = some d :=
      goUnmarshalMap_goMarshalMapTop d (by
        intro m0 hm0
        subst hm0
        exact goUnmarshalMap_canon s m0 hm)
    rw [h1, planModifyDynamic]
    simp only [if_neg (goMarshalMapTop_ne_empty d)]
    rw [h2]

